import Mathlib

/-! # Remote COPC point-cloud index: lazy hierarchy resolution

A shallow embedding of `QgsRemoteCopcPointCloudIndex`
(`src/core/pointcloud/qgsremotecopcpointcloudindex.cpp`): the hierarchy table
`mHierarchy`, the position side-table `mHierarchyNodePos`, the hierarchy page
loader `fetchHierarchyPage`, the resolver `fetchNodeHierarchy` / `hasNode`, the
children enumeration `nodeChildren`, and `load`, `asyncNodeData` and `nodeData` on the index
object; and of the metadata members of `QgsCopcProviderMetadata`
(`src/core/providers/copc/qgscopcprovider.cpp`).

Conventions of the embedding.

* C++ `int` / `int32_t` values are `Int`s kept in the signed 32-bit range by `wrap32`;
  `uint64_t` values are `Nat`s reduced modulo `2^64`.
* The two `QHash` members are functions from keys to optional values.
* The blocking network request is a function of the requests issued so far and of the
  requested `(offset, byteSize)`; the list of issued requests is carried in the state, so the
  number of page fetches of a call can be read off.
* A call either returns or stops in one of four ways (`Outcome`): a read past the end of
  the reply buffer, a failed `Q_ASSERT`, exhaustion of the step budget given to the
  unbounded `while` loop of `fetchNodeHierarchy`, or the dereference of an empty
  `mLazInfo`.
* The locking discipline is read off the trace of one thread: the events of taking and
  releasing `mHierarchyMutex`, of table accesses and of page fetches, in program order.
-/

namespace RemoteCopc

/-! ## Machine integers -/

/-- Reduction of an integer to the signed 32-bit range (two's complement wrap-around). -/
def wrap32 (v : Int) : Int := (v + 2147483648) % 4294967296 - 2147483648

/-- Conversion of a signed value to `uint64_t` (as in passing an `int32_t` for a
`uint64_t` parameter). -/
def toU64 (v : Int) : Nat := (v % 18446744073709551616).toNat

/-- Predicate: the value is representable as `int32_t`. -/
def isInt32 (v : Int) : Prop := -2147483648 ≤ v ∧ v < 2147483648

instance (v : Int) : Decidable (isInt32 v) := by unfold isInt32; infer_instance

/-! ## Octree node address -/

/-- The node address `IndexedPointCloudNode( d, x, y, z )`; equality is component-wise. -/
structure IndexedPointCloudNode where
  d : Int
  x : Int
  y : Int
  z : Int
deriving DecidableEq, Repr

/-- Modelled from the spec: `IndexedPointCloudNode::parentNode()` is declared outside the
sources at hand. The spec gives the parent of `(d,x,y,z)` as `(d-1, x>>1, y>>1, z>>1)`,
the shift rounding toward negative infinity. The depth is computed in `int`. The spec leaves
the parent of a depth-0 address undefined; `fetchNodeHierarchy` calls `parentNode()` without
looking at the depth, and the formula is applied at every depth. -/
def IndexedPointCloudNode.parentNode (n : IndexedPointCloudNode) : IndexedPointCloudNode :=
  ⟨wrap32 (n.d - 1), n.x >>> (1 : Nat), n.y >>> (1 : Nat), n.z >>> (1 : Nat)⟩

/-! ## Hash tables -/

/-- A `QHash<IndexedPointCloudNode, V>` seen as a finite map. -/
abbrev QHash (V : Type) := IndexedPointCloudNode → Option V

/-- The empty table. -/
def QHash.empty {V : Type} : QHash V := fun _ => none

/-- Member `QHash::contains( key )`. -/
def QHash.contains {V : Type} (m : QHash V) (k : IndexedPointCloudNode) : Bool := (m k).isSome

/-- Member `QHash::insert( key, value )`, also the effect of `m[key] = value`: the value of an
existing key is replaced. -/
def QHash.insert {V : Type} (m : QHash V) (k : IndexedPointCloudNode) (v : V) : QHash V :=
  fun k2 => if k2 = k then some v else m k2

/-- Non-const `QHash::operator[]( key )` used as an rvalue: returns the stored value, and
when the key is missing first inserts a default-constructed value for it. The members are
`mutable`, so this is the overload selected inside the `const` member functions. -/
def QHash.subscript {V : Type} (m : QHash V) (k : IndexedPointCloudNode) (dflt : V) : V × QHash V :=
  match m k with
  | some v => (v, m)
  | none => (dflt, m.insert k dflt)

/-! ## Index state, network and outcomes -/

/-- Result of `QgsBlockingNetworkRequest::get`: an error code other than `NoError`, or the
content bytes of the reply. -/
inductive Reply where
  | failed : Reply
  | content : List Nat → Reply
deriving DecidableEq, Repr

/-- The byte-range collaborator: given the page requests `(offset, byteSize)` issued so far
and the current one, the reply. -/
abbrev RangeFetch := List (Nat × Nat) → Nat → Nat → Reply

/-- The mutable members of the index together with the log of the page requests issued. -/
structure IndexState where
  mHierarchy : QHash Int
  mHierarchyNodePos : QHash (Nat × Int)
  fetched : List (Nat × Nat)

/-- How a call ends. -/
inductive Outcome (α : Type) where
  | returned : α → Outcome α
  | readPastEnd : Outcome α
  | assertFailed : Outcome α
  | outOfFuel : Outcome α
  | nullDereference : Outcome α

/-- Sequencing: continue only after a normal return. -/
def Outcome.bind {α β : Type} (o : Outcome α) (f : α → Outcome β) : Outcome β :=
  match o with
  | .returned a => f a
  | .readPastEnd => .readPastEnd
  | .assertFailed => .assertFailed
  | .outOfFuel => .outOfFuel
  | .nullDereference => .nullDereference

/-! ## Hierarchy page wire format -/

/-- Little-endian value of a byte sequence. -/
def leValue : List Nat → Nat
  | [] => 0
  | b :: bs => b % 256 + 256 * leValue bs

/-- Unsigned little-endian field of `len` bytes at byte position `pos`. -/
def readUnsigned (data : List Nat) (pos len : Nat) : Nat := leValue ((data.drop pos).take len)

/-- Signed 32-bit little-endian field at byte position `pos`. -/
def readInt32 (data : List Nat) (pos : Nat) : Int := wrap32 (readUnsigned data pos 4)

/-- The key of a page entry: `struct CopcVoxelKey`. -/
structure CopcVoxelKey where
  level : Int
  x : Int
  y : Int
  z : Int
deriving DecidableEq, Repr

/-- A page entry: `struct CopcEntry`, 32 bytes. -/
structure CopcEntry where
  key : CopcVoxelKey
  offset : Nat
  byteSize : Int
  pointCount : Int
deriving DecidableEq, Repr

/-- Size of `CopcEntry`. -/
def sizeofCopcEntry : Nat := 32

/-- The entry seen through `reinterpret_cast<CopcEntry *>( data.data() + i )` on a
little-endian host. -/
def readEntry (data : List Nat) (i : Nat) : CopcEntry :=
  { key := ⟨readInt32 data i, readInt32 data (i + 4), readInt32 data (i + 8), readInt32 data (i + 12)⟩
    offset := readUnsigned data (i + 16) 8
    byteSize := readInt32 data (i + 24)
    pointCount := readInt32 data (i + 28) }

/-- The local `nodeId( entry->key.level, entry->key.x, entry->key.y, entry->key.z )`. -/
def nodeId (e : CopcEntry) : IndexedPointCloudNode := ⟨e.key.level, e.key.x, e.key.y, e.key.z⟩

/-- Body of the parsing loop: both tables receive the entry under its voxel key. -/
def storeEntry (s : IndexState) (e : CopcEntry) : IndexState :=
  { s with
    mHierarchy := s.mHierarchy.insert (nodeId e) e.pointCount
    mHierarchyNodePos := s.mHierarchyNodePos.insert (nodeId e) (e.offset, e.byteSize) }

/-- The loop `for ( uint64_t i = 0; i < byteSize; i += sizeof( CopcEntry ) )`, given the number
of iterations still to run and the current `i`. An entry that does not lie within the
reply buffer is a read past its end. -/
def parseEntries (data : List Nat) : Nat → Nat → IndexState → Outcome IndexState
  | 0, _, s => .returned s
  | remaining + 1, i, s =>
    if i + sizeofCopcEntry ≤ data.length then
      parseEntries data remaining (i + sizeofCopcEntry) (storeEntry s (readEntry data i))
    else .readPastEnd

/-- Number of iterations of the parsing loop: the multiples of 32 below `byteSize`. -/
def entryCount (byteSize : Nat) : Nat := (byteSize + 31) / 32

/-- Member `fetchHierarchyPage( offset, byteSize )`. -/
def fetchHierarchyPage (net : RangeFetch) (s : IndexState) (offset byteSize : Nat) :
    Outcome IndexState :=
  let s1 : IndexState := { s with fetched := s.fetched ++ [(offset, byteSize)] }
  match net s.fetched offset byteSize with
  | .failed => .returned s1
  | .content data => parseEntries data (entryCount byteSize) 0 s1

/-! ## Resolution -/

/-- The loop `while ( !mHierarchy.contains( foundRoot ) )` of `fetchNodeHierarchy` followed by
the final `push_front`: the chain from the first known ancestor down to the start node.
The loop has no bound of its own; `fuel` bounds the number of tests of its condition. -/
def collectAncestors (h : QHash Int) : Nat → IndexedPointCloudNode →
    List IndexedPointCloudNode → Option (List IndexedPointCloudNode)
  | 0, _, _ => none
  | fuel + 1, foundRoot, ancestors =>
    if h.contains foundRoot then some (foundRoot :: ancestors)
    else collectAncestors h fuel foundRoot.parentNode (foundRoot :: ancestors)

/-- The loop `for ( IndexedPointCloudNode n : ancestors )` of `fetchNodeHierarchy` and the
final `return mHierarchy.contains( n )`. -/
def resolveChain (net : RangeFetch) (n : IndexedPointCloudNode) :
    List IndexedPointCloudNode → IndexState → Outcome (Bool × IndexState)
  | [], s => .returned (s.mHierarchy.contains n, s)
  | a :: rest, s =>
    if s.mHierarchy.contains a then
      let nodesCount := s.mHierarchy.subscript a 0
      let s1 : IndexState := { s with mHierarchy := nodesCount.2 }
      if nodesCount.1 < 0 then
        let pos := s1.mHierarchyNodePos.subscript a (0, 0)
        (fetchHierarchyPage net { s1 with mHierarchyNodePos := pos.2 } pos.1.1 (toU64 pos.1.2)).bind
          (fun s2 => resolveChain net n rest s2)
      else resolveChain net n rest s1
    else .returned (false, s)

/-- Member `fetchNodeHierarchy( n )`. -/
def fetchNodeHierarchy (net : RangeFetch) (fuel : Nat) (s : IndexState)
    (n : IndexedPointCloudNode) : Outcome (Bool × IndexState) :=
  match collectAncestors s.mHierarchy fuel n [] with
  | none => .outOfFuel
  | some ancestors => resolveChain net n ancestors s

/-- Member `hasNode( n )`. -/
def hasNode (net : RangeFetch) (fuel : Nat) (s : IndexState) (n : IndexedPointCloudNode) :
    Outcome (Bool × IndexState) :=
  fetchNodeHierarchy net fuel s n

/-! ## Children enumeration -/

/-- The child address built in iteration `i` of the loop of `nodeChildren`, from the
locals `d = n.d() + 1`, `x = n.x() * 2`, `y = n.y() * 2`, `z = n.z() * 2`. -/
def childNode (d x y z : Int) (i : Nat) : IndexedPointCloudNode :=
  let dx : Int := (i &&& 1 : Nat)
  let dy : Int := if i &&& 2 = 0 then 0 else 1
  let dz : Int := if i &&& 4 = 0 then 0 else 1
  ⟨d, wrap32 (x + dx), wrap32 (y + dy), wrap32 (z + dz)⟩

/-- The address built in iteration `i` of `nodeChildren( n )`. -/
def derivedChild (n : IndexedPointCloudNode) (i : Nat) : IndexedPointCloudNode :=
  childNode (wrap32 (n.d + 1)) (wrap32 (n.x * 2)) (wrap32 (n.y * 2)) (wrap32 (n.z * 2)) i

/-- The loop `for ( int i = 0; i < 8; ++i )` of `nodeChildren`, over the values of `i` still
to come. The test `mHierarchy[n] > 0` is evaluated only when the child resolved, and goes
through the inserting `operator[]`. -/
def childrenLoop (net : RangeFetch) (fuel : Nat) (n : IndexedPointCloudNode) (d x y z : Int) :
    List Nat → IndexState → List IndexedPointCloudNode →
    Outcome (List IndexedPointCloudNode × IndexState)
  | [], s, lst => .returned (lst, s)
  | i :: more, s, lst =>
    let n2 := childNode d x y z i
    (fetchNodeHierarchy net fuel s n2).bind (fun r =>
      if r.1 then
        let c := r.2.mHierarchy.subscript n 0
        let s2 : IndexState := { r.2 with mHierarchy := c.2 }
        if c.1 > 0 then childrenLoop net fuel n d x y z more s2 (lst ++ [n2])
        else childrenLoop net fuel n d x y z more s2 lst
      else childrenLoop net fuel n d x y z more r.2 lst)

/-- Member `nodeChildren( n )`. `Q_ASSERT` is compiled in or out by the build type:
`assertsEnabled` tells which. -/
def nodeChildren (net : RangeFetch) (assertsEnabled : Bool) (fuel : Nat) (s : IndexState)
    (n : IndexedPointCloudNode) : Outcome (List IndexedPointCloudNode × IndexState) :=
  (fetchNodeHierarchy net fuel s n).bind (fun r =>
    if assertsEnabled && !r.2.mHierarchy.contains n then .assertFailed
    else
      childrenLoop net fuel n (wrap32 (n.d + 1)) (wrap32 (n.x * 2)) (wrap32 (n.y * 2))
        (wrap32 (n.z * 2)) (List.range 8) r.2 [])

/-! ## Notions used in the statements -/

/-- Every key of the hierarchy table of `s` is a key of the hierarchy table of `t`. -/
def KeysKept (s t : IndexState) : Prop :=
  ∀ k, s.mHierarchy.contains k = true → t.mHierarchy.contains k = true

/-- The chain from the `k`-th ancestor of `m` down to `m`, put in front of `acc`. -/
def chainUp : Nat → IndexedPointCloudNode → List IndexedPointCloudNode →
    List IndexedPointCloudNode
  | 0, m, acc => m :: acc
  | k + 1, m, acc => chainUp k m.parentNode (m :: acc)

/-- The page request `(offset, byteSize)` that `fetchNodeHierarchy` passes to
`fetchHierarchyPage` for a chain address `a`:
`mHierarchyNodePos[a].first, mHierarchyNodePos[a].second`, the second converted to
`uint64_t`. -/
def recordedPage (s : IndexState) (a : IndexedPointCloudNode) : Nat × Nat :=
  ((s.mHierarchyNodePos.subscript a (0, 0)).1.1, toU64 (s.mHierarchyNodePos.subscript a (0, 0)).1.2)

/-! ## Concrete states and collaborators used in the examples -/

/-- The root address `0-0-0-0`. -/
def rootNode : IndexedPointCloudNode := ⟨0, 0, 0, 0⟩

/-- A table that knows only the root, as an unresolved entry whose page is at
`(offset, byteSize) = (100, 32)`. -/
def pendingRoot : IndexState :=
  { mHierarchy := QHash.empty.insert rootNode (-1)
    mHierarchyNodePos := QHash.empty.insert rootNode (100, 32)
    fetched := [] }

/-- A collaborator whose every request fails. -/
def failingFetch : RangeFetch := fun _ _ _ => .failed

/-- A 32-byte page holding the single entry `2-0-0-0` with offset 7, byte size 9 and point
count 5. -/
def grandchildPage : List Nat :=
  [2, 0, 0, 0, 0, 0, 0, 0, 0, 0, 0, 0, 0, 0, 0, 0, 7, 0, 0, 0, 0, 0, 0, 0, 9, 0, 0, 0, 5, 0, 0, 0]

/-- A collaborator that answers every request with `grandchildPage`. -/
def grandchildFetch : RangeFetch := fun _ _ _ => .content grandchildPage

/-- A single-page dataset after loading: the table holds only the resolved root, with 253
points at `(offset, byteSize) = (1000, 2000)`. -/
def singlePage : IndexState :=
  { mHierarchy := QHash.empty.insert rootNode 253
    mHierarchyNodePos := QHash.empty.insert rootNode (1000, 2000)
    fetched := [] }

/-- A collaborator that answers with 33 bytes: `grandchildPage` and one byte more. -/
def oversizedFetch : RangeFetch := fun _ _ _ => .content (grandchildPage ++ [0])

/-- Predicate: doubling the coordinate and adding one stays within `int32_t`. -/
def fitsDoubled (v : Int) : Prop := -1073741824 ≤ v ∧ v < 1073741824

instance (v : Int) : Decidable (fitsDoubled v) := by unfold fitsDoubled; infer_instance

/-! ## Children enumeration as the spec words it -/

/-- Child `i` of `n = (d,x,y,z)` as the spec gives it:
`(d+1, 2x+(i&1), 2y+((i>>1)&1), 2z+((i>>2)&1))`, an address with 32-bit fields. -/
def specChild (n : IndexedPointCloudNode) (i : Nat) : IndexedPointCloudNode :=
  ⟨wrap32 (n.d + 1), wrap32 (2 * n.x + ((i &&& 1 : Nat) : Int)),
    wrap32 (2 * n.y + (((i >>> 1) &&& 1 : Nat) : Int)),
    wrap32 (2 * n.z + (((i >>> 2) &&& 1 : Nat) : Int))⟩

/-- The table entry of `n` has a point count `> 0`. -/
def hasPositiveCount (s : IndexState) (n : IndexedPointCloudNode) : Bool :=
  match s.mHierarchy n with
  | some c => decide (c > 0)
  | none => false

/-- The children of `n` among the candidates `i` of the list, in list order: child `i` is
resolved, and kept when the resolution succeeds and the entry of `n` then has a point
count `> 0`; the next candidate is resolved in the state the resolution left. -/
def specKeptChildren (net : RangeFetch) (fuel : Nat) (n : IndexedPointCloudNode) :
    List Nat → IndexState → Outcome (List IndexedPointCloudNode × IndexState)
  | [], s => .returned ([], s)
  | i :: more, s =>
    (fetchNodeHierarchy net fuel s (specChild n i)).bind (fun r =>
      (specKeptChildren net fuel n more r.2).bind (fun rest =>
        .returned
          (if r.1 && hasPositiveCount r.2 n then specChild n i :: rest.1 else rest.1, rest.2)))

/-- The spec's children enumeration: resolve `n`, then keep the children `0..7`. -/
def nodeChildrenSpec (net : RangeFetch) (fuel : Nat) (s : IndexState)
    (n : IndexedPointCloudNode) : Outcome (List IndexedPointCloudNode × IndexState) :=
  (fetchNodeHierarchy net fuel s n).bind (fun r =>
    specKeptChildren net fuel n [0, 1, 2, 3, 4, 5, 6, 7] r.2)

/-- A table with the unresolved root, its page at `(100, 64)`, and the resolved node `2-0-0-0`;
the node `1-0-0-0` between them is missing. -/
def gapState : IndexState :=
  { mHierarchy := (QHash.empty.insert rootNode (-1)).insert ⟨2, 0, 0, 0⟩ 5
    mHierarchyNodePos := (QHash.empty.insert rootNode (100, 64)).insert ⟨2, 0, 0, 0⟩ (7, 9)
    fetched := [] }

/-- A 64-byte page with the entries `1-0-0-0` (point count 9) and `2-1-0-0` (point count 3). -/
def lateParentPage : List Nat :=
  [1, 0, 0, 0, 0, 0, 0, 0, 0, 0, 0, 0, 0, 0, 0, 0, 40, 0, 0, 0, 0, 0, 0, 0, 8, 0, 0, 0, 9, 0, 0, 0,
   2, 0, 0, 0, 1, 0, 0, 0, 0, 0, 0, 0, 0, 0, 0, 0, 48, 0, 0, 0, 0, 0, 0, 0, 8, 0, 0, 0, 3, 0, 0, 0]

/-- A collaborator whose first request fails and whose later requests deliver
`lateParentPage`. -/
def retryFetch : RangeFetch := fun history _ _ =>
  match history with
  | [] => .failed
  | _ :: _ => .content lateParentPage

/-- A table with the resolved root (10 points), the unresolved child `1-0-0-0` whose page is at
`(300, 32)`, and the resolved child `1-1-1-0` (4 points). -/
def twoLevels : IndexState :=
  { mHierarchy := ((QHash.empty.insert rootNode 10).insert ⟨1, 0, 0, 0⟩ (-1)).insert ⟨1, 1, 1, 0⟩ 4
    mHierarchyNodePos :=
      ((QHash.empty.insert rootNode (1000, 50)).insert ⟨1, 0, 0, 0⟩ (300, 32)).insert
        ⟨1, 1, 1, 0⟩ (1050, 20)
    fetched := [] }

/-! ## Conditions on the collaborator and the table used for `nodeChildren` -/

/-- Every successful reply holds all the entries that the parsing loop reads for the
request. -/
def RepliesCoverRequest (net : RangeFetch) : Prop :=
  ∀ history offset byteSize data, net history offset byteSize = .content data →
    32 * entryCount byteSize ≤ data.length

/-- No entry read from a reply records a positive point count under the key `n`. -/
def NeverPositiveFor (net : RangeFetch) (n : IndexedPointCloudNode) : Prop :=
  ∀ history offset byteSize data, net history offset byteSize = .content data →
    ∀ j, j < entryCount byteSize → nodeId (readEntry data (32 * j)) = n →
      (readEntry data (32 * j)).pointCount ≤ 0

/-- The entry of `n`, if there is one, has a point count that is not positive. -/
def NotPositive (s : IndexState) (n : IndexedPointCloudNode) : Prop :=
  ∀ c, s.mHierarchy n = some c → c ≤ 0

/-- A table with the root holding no points and its unresolved child `1-0-0-0`, whose page is
at `(300, 32)`. -/
def emptyRoot : IndexState :=
  { mHierarchy := (QHash.empty.insert rootNode 0).insert ⟨1, 0, 0, 0⟩ (-1)
    mHierarchyNodePos := (QHash.empty.insert rootNode (1000, 0)).insert ⟨1, 0, 0, 0⟩ (300, 32)
    fetched := [] }

/-- A 32-byte page with the single entry `0-0-0-0`, point count 7. -/
def rootAgainPage : List Nat :=
  [0, 0, 0, 0, 0, 0, 0, 0, 0, 0, 0, 0, 0, 0, 0, 0, 40, 0, 0, 0, 0, 0, 0, 0, 8, 0, 0, 0, 7, 0, 0, 0]

/-- A collaborator that answers every request with `rootAgainPage`. -/
def rootAgainFetch : RangeFetch := fun _ _ _ => .content rootAgainPage

/-- A 32-byte page with the single entry `1-0-0-0`, point count 5. -/
def childPage : List Nat :=
  [1, 0, 0, 0, 0, 0, 0, 0, 0, 0, 0, 0, 0, 0, 0, 0, 40, 0, 0, 0, 0, 0, 0, 0, 8, 0, 0, 0, 5, 0, 0, 0]

/-- A collaborator that delivers `childPage` for every 32-byte request and fails for every
other request. -/
def childPageFetch : RangeFetch := fun _ _ byteSize =>
  if byteSize = 32 then .content childPage else .failed

/-! ## The index object: loading, validity and node data -/

/-- The value produced by the header parser `QgsLazInfo::fromUrl`, as far as the index reads
it: validity, error text and the location `(offset, byteSize)` of the root hierarchy page. -/
structure QgsLazInfo where
  isValid : Bool
  error : String
  rootHierarchyPage : Nat × Nat
deriving DecidableEq, Repr

/-- A point-cloud attribute: its name and the code of its data type. -/
structure QgsPointCloudAttribute where
  name : String
  type : Nat
deriving DecidableEq, Repr

/-- An attribute collection, in order. -/
abbrev QgsPointCloudAttributeCollection := List QgsPointCloudAttribute

/-- Modelled from the spec: `QgsPointCloudAttributeCollection::extend` is declared outside
the sources at hand. The spec has the requested attributes merged with the attributes that
the filter expression references: each dataset attribute of `other` whose name is among
`matchingNames` and not yet in the collection is appended. -/
def QgsPointCloudAttributeCollection.extend (self other : QgsPointCloudAttributeCollection)
    (matchingNames : List String) : QgsPointCloudAttributeCollection :=
  matchingNames.foldl
    (fun acc attributeName =>
      if acc.any (fun a => a.name == attributeName) then acc
      else
        match other.find? (fun a => a.name == attributeName) with
        | some attr => acc ++ [attr]
        | none => acc)
    self

/-- A filter expression: its text and the names of the attributes it references. -/
structure QgsPointCloudExpression where
  expression : String
  referencedAttributes : List String
deriving DecidableEq, Repr

/-- The caller's request: the attributes asked for. -/
structure QgsPointCloudRequest where
  attributes : QgsPointCloudAttributeCollection
deriving DecidableEq, Repr

/-- The arguments with which `asyncNodeData` constructs a `QgsCopcPointCloudBlockRequest`
(`scale()` and `offset()`, floating-point vectors passed through, are left out). -/
structure QgsCopcPointCloudBlockRequest where
  node : IndexedPointCloudNode
  uri : String
  attributes : QgsPointCloudAttributeCollection
  requestedAttributes : QgsPointCloudAttributeCollection
  filterExpression : QgsPointCloudExpression
  blockOffset : Nat
  blockSize : Int
  pointCount : Int
  lazInfo : QgsLazInfo
deriving DecidableEq, Repr

/-- A decoded block, as the bytes of its point records. -/
structure QgsPointCloudBlock where
  data : List Nat
deriving DecidableEq, Repr

/-- The members of `QgsRemoteCopcPointCloudIndex`: the URL, the header information (empty
until `load`), the validity flag, the dataset attributes and the filter expression, and the
mutable hierarchy tables. -/
structure QgsRemoteCopcPointCloudIndex where
  mUrl : String
  mLazInfo : Option QgsLazInfo
  mIsValid : Bool
  mAttributes : QgsPointCloudAttributeCollection
  mFilterExpression : QgsPointCloudExpression
  hierarchy : IndexState

/-- The index as constructed: invalid, nothing loaded, empty tables. -/
def QgsRemoteCopcPointCloudIndex.constructed : QgsRemoteCopcPointCloudIndex :=
  { mUrl := ""
    mLazInfo := none
    mIsValid := false
    mAttributes := []
    mFilterExpression := ⟨"", []⟩
    hierarchy := ⟨QHash.empty, QHash.empty, []⟩ }

/-- Member `isValid()`. -/
def QgsRemoteCopcPointCloudIndex.isValid (idx : QgsRemoteCopcPointCloudIndex) : Bool :=
  idx.mIsValid

/-- Modelled from the spec: `loadHierarchy()` is a member of the base class, outside the
sources at hand. The spec has `load` fetch the root hierarchy page, whose location comes
with the header information. -/
def QgsRemoteCopcPointCloudIndex.loadHierarchy (net : RangeFetch)
    (idx : QgsRemoteCopcPointCloudIndex) : Outcome QgsRemoteCopcPointCloudIndex :=
  match idx.mLazInfo with
  | none => .nullDereference
  | some lazInfo =>
    (fetchHierarchyPage net idx.hierarchy lazInfo.rootHierarchyPage.1
      lazInfo.rootHierarchyPage.2).bind (fun s => .returned { idx with hierarchy := s })

/-- Member `load( url )`. The header parser `fromUrl` and the base-class member `loadSchema`
are collaborators: `loadSchema` fails (`none`) or succeeds and sets the dataset
attributes. -/
def QgsRemoteCopcPointCloudIndex.load (net : RangeFetch) (fromUrl : String → QgsLazInfo)
    (loadSchema : QgsLazInfo → Option QgsPointCloudAttributeCollection)
    (idx : QgsRemoteCopcPointCloudIndex) (url : String) :
    Outcome QgsRemoteCopcPointCloudIndex :=
  let lazInfo := fromUrl url
  let idx1 : QgsRemoteCopcPointCloudIndex :=
    { idx with mUrl := url, mLazInfo := some lazInfo, mIsValid := lazInfo.isValid }
  if idx1.mIsValid then
    match loadSchema lazInfo with
    | some attrs =>
      QgsRemoteCopcPointCloudIndex.loadHierarchy net
        { idx1 with mIsValid := true, mAttributes := attrs }
    | none => .returned { idx1 with mIsValid := false }
  else .returned idx1

/-- Member `asyncNodeData( n, request )`: `none` is the null pointer. -/
def QgsRemoteCopcPointCloudIndex.asyncNodeData (net : RangeFetch) (fuel : Nat)
    (idx : QgsRemoteCopcPointCloudIndex) (n : IndexedPointCloudNode)
    (request : QgsPointCloudRequest) :
    Outcome (Option QgsCopcPointCloudBlockRequest × QgsRemoteCopcPointCloudIndex) :=
  (fetchNodeHierarchy net fuel idx.hierarchy n).bind (fun r =>
    if r.1 then
      let filterExpression := idx.mFilterExpression
      let requestAttributes :=
        request.attributes.extend idx.mAttributes filterExpression.referencedAttributes
      let pos := r.2.mHierarchyNodePos.subscript n (0, 0)
      let pointCount := r.2.mHierarchy.subscript n 0
      let s2 : IndexState :=
        { r.2 with mHierarchyNodePos := pos.2, mHierarchy := pointCount.2 }
      match idx.mLazInfo with
      | none => .nullDereference
      | some lazInfo =>
        .returned
          (some
            { node := n
              uri := idx.mUrl
              attributes := idx.mAttributes
              requestedAttributes := requestAttributes
              filterExpression := filterExpression
              blockOffset := pos.1.1
              blockSize := pos.1.2
              pointCount := pointCount.1
              lazInfo := lazInfo },
            { idx with hierarchy := s2 })
    else .returned (none, { idx with hierarchy := r.2 }))

/-- What `nodeData` hands back: the block (`none` is the null pointer) and the block request
whose `finished` signal the local event loop waited for, if it waited at all. -/
structure NodeDataResult where
  block : Option QgsPointCloudBlock
  waitedFor : Option QgsCopcPointCloudBlockRequest
deriving DecidableEq, Repr

/-- Member `nodeData( n, request )`. The collaborator `finished` gives the block that a
block request holds once it has finished (`none` after a download or decoding error). -/
def QgsRemoteCopcPointCloudIndex.nodeData (net : RangeFetch)
    (finished : QgsCopcPointCloudBlockRequest → Option QgsPointCloudBlock) (fuel : Nat)
    (idx : QgsRemoteCopcPointCloudIndex) (n : IndexedPointCloudNode)
    (request : QgsPointCloudRequest) : Outcome (NodeDataResult × QgsRemoteCopcPointCloudIndex) :=
  (QgsRemoteCopcPointCloudIndex.asyncNodeData net fuel idx n request).bind (fun r =>
    match r.1 with
    | none => .returned (⟨none, none⟩, r.2)
    | some blockRequest => .returned (⟨finished blockRequest, some blockRequest⟩, r.2))

/-- Member `hasNode( n )` on the index object: a `const` member, it can change the `mutable`
hierarchy tables only. -/
def QgsRemoteCopcPointCloudIndex.hasNode (net : RangeFetch) (fuel : Nat)
    (idx : QgsRemoteCopcPointCloudIndex) (n : IndexedPointCloudNode) :
    Outcome (Bool × QgsRemoteCopcPointCloudIndex) :=
  (RemoteCopc.hasNode net fuel idx.hierarchy n).bind (fun r =>
    .returned (r.1, { idx with hierarchy := r.2 }))

/-- Member `nodeChildren( n )` on the index object: a `const` member, it can change the
`mutable` hierarchy tables only. -/
def QgsRemoteCopcPointCloudIndex.nodeChildren (net : RangeFetch) (assertsEnabled : Bool)
    (fuel : Nat) (idx : QgsRemoteCopcPointCloudIndex) (n : IndexedPointCloudNode) :
    Outcome (List IndexedPointCloudNode × QgsRemoteCopcPointCloudIndex) :=
  (RemoteCopc.nodeChildren net assertsEnabled fuel idx.hierarchy n).bind (fun r =>
    .returned (r.1, { idx with hierarchy := r.2 }))

/-! ## Invariants of the tables -/

/-- A property of the state that every elementary write of the index preserves: storing an
entry read from a reply of `net`, logging a request, and the default insertions of the two
`operator[]` reads. -/
def Stable (net : RangeFetch) (P : IndexState → Prop) : Prop :=
  (∀ (s : IndexState) history offset byteSize data j,
    net history offset byteSize = .content data → j < entryCount byteSize → P s →
      P (storeEntry s (readEntry data (32 * j)))) ∧
  (∀ (s : IndexState) log, P s → P { s with fetched := log }) ∧
  (∀ (s : IndexState) a, P s →
    P { s with mHierarchyNodePos := (s.mHierarchyNodePos.subscript a (0, 0)).2 }) ∧
  (∀ (s : IndexState) a, P s → P { s with mHierarchy := (s.mHierarchy.subscript a 0).2 })

/-- No entry read from a reply has the key `k`. -/
def NeverDelivers (net : RangeFetch) (k : IndexedPointCloudNode) : Prop :=
  ∀ history offset byteSize data, net history offset byteSize = .content data →
    ∀ j, j < entryCount byteSize → nodeId (readEntry data (32 * j)) ≠ k

/-- The key `k` has point count `c` in the hierarchy table and position `p` in the
side-table. -/
def Records (s : IndexState) (k : IndexedPointCloudNode) (c : Int) (p : Nat × Int) : Prop :=
  s.mHierarchy k = some c ∧ s.mHierarchyNodePos k = some p

/-- An index object loaded from a dataset whose table is `emptyRoot`. -/
def emptyRootIndex : QgsRemoteCopcPointCloudIndex :=
  { mUrl := "http://example.org/cloud.copc.laz"
    mLazInfo := some ⟨true, "", (900, 64)⟩
    mIsValid := true
    mAttributes := [⟨"X", 0⟩, ⟨"Y", 0⟩, ⟨"Z", 0⟩, ⟨"Intensity", 1⟩]
    mFilterExpression := ⟨"Intensity > 5", ["Intensity"]⟩
    hierarchy := emptyRoot }

/-- A header parser for the examples: one URL has a valid header, whose root hierarchy page is
at `(900, 32)`; every other URL has not. -/
def sampleFromUrl : String → QgsLazInfo := fun url =>
  if url = "http://example.org/cloud.copc.laz" then ⟨true, "", (900, 32)⟩
  else ⟨false, "not a LAZ file", (0, 0)⟩

/-- A schema loader for the examples: it always succeeds. -/
def sampleLoadSchema : QgsLazInfo → Option QgsPointCloudAttributeCollection := fun _ =>
  some [⟨"X", 0⟩, ⟨"Y", 0⟩, ⟨"Z", 0⟩]

/-- A block-request collaborator for the examples: every request ends in an error. -/
def sampleFinished : QgsCopcPointCloudBlockRequest → Option QgsPointCloudBlock := fun _ => none

/-! ## Provider metadata (`qgscopcprovider.cpp`) -/

/-- The `QVariant` values that occur: the invalid variant and strings. -/
inductive QVariant where
  | invalid : QVariant
  | string : String → QVariant
deriving DecidableEq, Repr

/-- Member `QVariant::toString()`: the invalid variant converts to the empty string. -/
def QVariant.toString : QVariant → String
  | .invalid => ""
  | .string s => s

/-- A `QVariantMap`, from keys to values. -/
abbrev QVariantMap := String → Option QVariant

/-- The empty `QVariantMap`. -/
def QVariantMap.empty : QVariantMap := fun _ => none

/-- Member `QVariantMap::insert( key, value )`. -/
def QVariantMap.insert (m : QVariantMap) (key : String) (v : QVariant) : QVariantMap :=
  fun k => if k = key then some v else m k

/-- Member `QVariantMap::value( key )`: a default-constructed (invalid) variant when the key
is missing. -/
def QVariantMap.value (m : QVariantMap) (key : String) : QVariant :=
  match m key with
  | some v => v
  | none => .invalid

/-- The library call `s.endsWith( suffix, Qt::CaseInsensitive )`. Characters are compared
after lower-casing the letters `A`-`Z`; for the suffix `.copc.laz` this is the whole of
Unicode case folding, no other character folding to one of its letters. -/
def endsWithCaseInsensitive (s suffix : String) : Bool :=
  (suffix.toList.map Char.toLower).isSuffixOf (s.toList.map Char.toLower)

/-- The enumeration `QgsMapLayerType`. -/
inductive QgsMapLayerType where
  | VectorLayer
  | RasterLayer
  | PluginLayer
  | MeshLayer
  | VectorTileLayer
  | AnnotationLayer
  | PointCloudLayer
  | GroupLayer
deriving DecidableEq, Repr

/-- The fields of `QgsProviderSublayerDetails` that `querySublayers` sets. -/
structure QgsProviderSublayerDetails where
  uri : String
  providerKey : String
  type : QgsMapLayerType
  name : String
deriving DecidableEq, Repr

/-- Member `QgsCopcProviderMetadata::decodeUri( uri )`. -/
def decodeUri (uri : String) : QVariantMap :=
  let path := uri
  QVariantMap.empty.insert "path" (.string path)

/-- Member `QgsCopcProviderMetadata::encodeUri( parts )`. -/
def encodeUri (parts : QVariantMap) : String :=
  let path := (parts.value "path").toString
  path

/-- Member `QgsCopcProviderMetadata::priorityForUri( uri )`. -/
def priorityForUri (uri : String) : Int :=
  let parts := decodeUri uri
  if endsWithCaseInsensitive (parts.value "path").toString ".copc.laz" then 100 else 0

/-- Member `QgsCopcProviderMetadata::validLayerTypesForUri( uri )`. -/
def validLayerTypesForUri (uri : String) : List QgsMapLayerType :=
  let parts := decodeUri uri
  if endsWithCaseInsensitive (parts.value "path").toString ".copc.laz" then
    [] ++ [QgsMapLayerType.PointCloudLayer]
  else []

/-- Member `QgsCopcProviderMetadata::querySublayers( uri )`. The layer name comes from
`QgsProviderUtils::suggestLayerNameFromFilePath`, a collaborator. -/
def querySublayers (suggestLayerNameFromFilePath : String → String) (uri : String) :
    List QgsProviderSublayerDetails :=
  let parts := decodeUri uri
  if endsWithCaseInsensitive (parts.value "path").toString ".copc.laz" then
    [{ uri := uri
       providerKey := "copc"
       type := QgsMapLayerType.PointCloudLayer
       name := suggestLayerNameFromFilePath uri }]
  else []

/-- The uri ends with `.copc.laz`, compared without regard to case: it splits into a front
part and a back part that is `.copc.laz` once lower-cased. -/
def EndsWithCopcLaz (uri : String) : Prop :=
  ∃ front back : List Char, uri.toList = front ++ back ∧
    back.map Char.toLower = ['.', 'c', 'o', 'p', 'c', '.', 'l', 'a', 'z']

/-! ## The visits of the resolution loop -/

/-- One iteration of the loop `for ( IndexedPointCloudNode n : ancestors )` for the chain
address `a`: `none` is the early `return false`, `some` the state in which the loop goes on. -/
def visitStep (net : RangeFetch) (a : IndexedPointCloudNode) (s : IndexState) :
    Outcome (Option IndexState) :=
  if s.mHierarchy.contains a then
    let nodesCount := s.mHierarchy.subscript a 0
    let s1 : IndexState := { s with mHierarchy := nodesCount.2 }
    if nodesCount.1 < 0 then
      let pos := s1.mHierarchyNodePos.subscript a (0, 0)
      (fetchHierarchyPage net { s1 with mHierarchyNodePos := pos.2 } pos.1.1 (toU64 pos.1.2)).bind
        (fun s2 => .returned (some s2))
    else .returned (some s1)
  else .returned none

/-- The chain addresses that the loop visits, in order, each with the state of the index at
the moment of the visit: the loop stops visiting at an early return or when a page fetch
does not return. -/
def visits (net : RangeFetch) :
    List IndexedPointCloudNode → IndexState → List (IndexedPointCloudNode × IndexState)
  | [], _ => []
  | a :: rest, s =>
    (a, s) ::
      (match visitStep net a s with
        | .returned (some s2) => visits net rest s2
        | _ => [])

/-- The entry of `a` carries the unresolved sentinel, a negative point count. -/
def carriesSentinel (s : IndexState) (a : IndexedPointCloudNode) : Bool :=
  match s.mHierarchy a with
  | some c => decide (c < 0)
  | none => false

/-- The recorded pages of the visited chain addresses whose entry carries the sentinel at
the moment of the visit, in visiting order. -/
def sentinelPages (net : RangeFetch) (chain : List IndexedPointCloudNode) (s : IndexState) :
    List (Nat × Nat) :=
  ((visits net chain s).filter (fun v => carriesSentinel v.2 v.1)).map
    (fun v => recordedPage v.2 v.1)

/-- A table whose only key lies below the root: `(-1, 0, 0, 0)`, unresolved, with its page at
`(100, 32)`. -/
def belowRoot : IndexState :=
  { mHierarchy := QHash.empty.insert ⟨-1, 0, 0, 0⟩ (-1)
    mHierarchyNodePos := QHash.empty.insert ⟨-1, 0, 0, 0⟩ (100, 32)
    fetched := [] }

/-- A 32-byte page with the single entry `0-0-0-0`, unresolved (point count -1), its page at
`(200, 32)`. -/
def sentinelRootPage : List Nat :=
  [0, 0, 0, 0, 0, 0, 0, 0, 0, 0, 0, 0, 0, 0, 0, 0, 200, 0, 0, 0, 0, 0, 0, 0, 32, 0, 0, 0,
   255, 255, 255, 255]

/-- A collaborator that delivers `sentinelRootPage` for the first request and fails
afterwards. -/
def sentinelRootThenFail : RangeFetch := fun history _ _ =>
  match history with
  | [] => .content sentinelRootPage
  | _ :: _ => .failed

/-! ## The page wire format as the spec words it -/

/-- Byte `p` of a reply. -/
def byteAt (data : List Nat) (p : Nat) : Nat := data.getD p 0

/-- The little-endian unsigned 32-bit value of the four bytes from `p`. -/
def specUInt32 (data : List Nat) (p : Nat) : Nat :=
  byteAt data p + 256 * byteAt data (p + 1) + 65536 * byteAt data (p + 2) +
    16777216 * byteAt data (p + 3)

/-- A little-endian `i32` field at byte `p`: the unsigned value, read in two's complement. -/
def specInt32 (data : List Nat) (p : Nat) : Int :=
  if specUInt32 data p < 2147483648 then (specUInt32 data p : Int)
  else (specUInt32 data p : Int) - 4294967296

/-- A little-endian `u64` field at byte `p`. -/
def specUInt64 (data : List Nat) (p : Nat) : Nat :=
  specUInt32 data p + 4294967296 * specUInt32 data (p + 4)

/-- Entry `i` of a page, from the bytes `[32i, 32i+32)`:
`level:i32, x:i32, y:i32, z:i32, offset:u64, byteSize:i32, pointCount:i32`. -/
def specEntry (data : List Nat) (i : Nat) : CopcEntry :=
  { key := ⟨specInt32 data (32 * i), specInt32 data (32 * i + 4), specInt32 data (32 * i + 8),
      specInt32 data (32 * i + 12)⟩
    offset := specUInt64 data (32 * i + 16)
    byteSize := specInt32 data (32 * i + 24)
    pointCount := specInt32 data (32 * i + 28) }

/-- The `byteSize/32` entries of a page, in page order. -/
def specEntries (data : List Nat) (byteSize : Nat) : List CopcEntry :=
  (List.range (byteSize / 32)).map (specEntry data)

/-- The last entry of the list whose voxel key is `k`. -/
def lastWithKey (entries : List CopcEntry) (k : IndexedPointCloudNode) : Option CopcEntry :=
  entries.reverse.find? (fun e => decide (nodeId e = k))

/-- A collaborator that answers every request with `lateParentPage`. -/
def twoEntryFetch : RangeFetch := fun _ _ _ => .content lateParentPage

/-! ## Consistency of the two tables -/

/-- Every key of the hierarchy table has an entry in the position side-table. -/
def Consistent (s : IndexState) : Prop :=
  ∀ k, s.mHierarchy.contains k = true → s.mHierarchyNodePos.contains k = true

/-- A property of the state preserved by storing an entry read from a reply of `net`, by
logging a request and by the default insertion of `mHierarchyNodePos[a]`; the default
insertion of `mHierarchy[a]` is not asked for. -/
def StableCore (net : RangeFetch) (P : IndexState → Prop) : Prop :=
  (∀ (s : IndexState) history offset byteSize data j,
    net history offset byteSize = .content data → j < entryCount byteSize → P s →
      P (storeEntry s (readEntry data (32 * j)))) ∧
  (∀ (s : IndexState) log, P s → P { s with fetched := log }) ∧
  (∀ (s : IndexState) a, P s →
    P { s with mHierarchyNodePos := (s.mHierarchyNodePos.subscript a (0, 0)).2 })

/-- The property `P` holds of the state in which each operation returns when started in `s`:
`fetchHierarchyPage`, `fetchNodeHierarchy`, `hasNode`, `asyncNodeData`, and `nodeChildren( n )`
for a node `n` that has an entry in the hierarchy table once it has been resolved. -/
def KeptByOperations (net : RangeFetch) (P : IndexState → Prop) (s : IndexState) : Prop :=
  (∀ offset byteSize t, fetchHierarchyPage net s offset byteSize = .returned t → P t) ∧
  (∀ fuel n b t, fetchNodeHierarchy net fuel s n = .returned (b, t) → P t) ∧
  (∀ fuel n b t, hasNode net fuel s n = .returned (b, t) → P t) ∧
  (∀ fuel (idx idx2 : QgsRemoteCopcPointCloudIndex) n request out, idx.hierarchy = s →
    QgsRemoteCopcPointCloudIndex.asyncNodeData net fuel idx n request = .returned (out, idx2) →
    P idx2.hierarchy) ∧
  (∀ assertsEnabled fuel n b s1 out t, fetchNodeHierarchy net fuel s n = .returned (b, s1) →
    s1.mHierarchy.contains n = true →
    nodeChildren net assertsEnabled fuel s n = .returned (out, t) → P t)

/-! ## The hierarchy lock along one thread of execution -/

/-- What a thread does that matters to the locking discipline: taking and releasing
`mHierarchyMutex` (by `QMutexLocker`, its destructor, `lock()` or `unlock()`), reading or
writing one of the two tables, and issuing the blocking range request of a page. -/
inductive TraceEvent where
  | lock : TraceEvent
  | unlock : TraceEvent
  | tableRead : TraceEvent
  | tableWrite : TraceEvent
  | pageFetch : Nat → Nat → TraceEvent
deriving DecidableEq, Repr

/-- The event is a page fetch. -/
def TraceEvent.isPageFetch : TraceEvent → Bool
  | .pageFetch _ _ => true
  | _ => false

/-- The event is a read or a write of `mHierarchy` or `mHierarchyNodePos`. -/
def TraceEvent.isTableAccess : TraceEvent → Bool
  | .tableRead => true
  | .tableWrite => true
  | _ => false

/-- Whether the thread holds the lock after the event, given whether it held it before. -/
def heldAfter (held : Bool) : TraceEvent → Bool
  | .lock => true
  | .unlock => false
  | _ => held

/-- Each event of a trace paired with whether the thread holds the lock when the event
occurs, given whether it holds it at the start. -/
def annotate : Bool → List TraceEvent → List (TraceEvent × Bool)
  | _, [] => []
  | held, e :: rest => (e, held) :: annotate (heldAfter held e) rest

/-- The events of the parsing loop of `fetchHierarchyPage`: per entry the write
`mHierarchy[nodeId] = ...` and the write `mHierarchyNodePos.insert( ... )`. -/
def parseEntriesTrace (data : List Nat) : Nat → Nat → List TraceEvent
  | 0, _ => []
  | remaining + 1, i =>
    if i + sizeofCopcEntry ≤ data.length then
      .tableWrite :: .tableWrite :: parseEntriesTrace data remaining (i + sizeofCopcEntry)
    else []

/-- The events of `fetchHierarchyPage( offset, byteSize )`: the blocking request, then the
parsing loop. The function takes no lock itself. -/
def fetchHierarchyPageTrace (net : RangeFetch) (s : IndexState) (offset byteSize : Nat) :
    List TraceEvent :=
  .pageFetch offset byteSize ::
    (match net s.fetched offset byteSize with
      | .failed => []
      | .content data => parseEntriesTrace data (entryCount byteSize) 0)

/-- The events of the loop `while ( !mHierarchy.contains( foundRoot ) )`: one read per test. -/
def collectAncestorsTrace (h : QHash Int) : Nat → IndexedPointCloudNode → List TraceEvent
  | 0, _ => []
  | fuel + 1, foundRoot =>
    .tableRead ::
      (if h.contains foundRoot then [] else collectAncestorsTrace h fuel foundRoot.parentNode)

/-- The events of the loop over `ancestors` in `fetchNodeHierarchy` and of its returns: the
`contains` test, the read `mHierarchy[n]`, the two reads `mHierarchyNodePos[n]` and the page
fetch for a sentinel; each `return` runs the destructor of the `QMutexLocker`. -/
def resolveChainTrace (net : RangeFetch) : List IndexedPointCloudNode → IndexState →
    List TraceEvent
  | [], _ => [.tableRead, .unlock]
  | a :: rest, s =>
    .tableRead ::
      (if s.mHierarchy.contains a then
        .tableRead ::
          (let nodesCount := s.mHierarchy.subscript a 0
           let s1 : IndexState := { s with mHierarchy := nodesCount.2 }
           if nodesCount.1 < 0 then
             let pos := s1.mHierarchyNodePos.subscript a (0, 0)
             let s2 : IndexState := { s1 with mHierarchyNodePos := pos.2 }
             .tableRead :: .tableRead ::
               (fetchHierarchyPageTrace net s2 pos.1.1 (toU64 pos.1.2) ++
                 (match fetchHierarchyPage net s2 pos.1.1 (toU64 pos.1.2) with
                   | .returned s3 => resolveChainTrace net rest s3
                   | _ => []))
           else resolveChainTrace net rest s1)
      else [.unlock])

/-- The events of `fetchNodeHierarchy( n )`: the `QMutexLocker` at its entry, the walk up, the
loop over the chain. -/
def fetchNodeHierarchyTrace (net : RangeFetch) (fuel : Nat) (s : IndexState)
    (n : IndexedPointCloudNode) : List TraceEvent :=
  .lock ::
    (collectAncestorsTrace s.mHierarchy fuel n ++
      (match collectAncestors s.mHierarchy fuel n [] with
        | none => []
        | some ancestors => resolveChainTrace net ancestors s))

/-- The events of `hasNode( n )`. -/
def hasNodeTrace (net : RangeFetch) (fuel : Nat) (s : IndexState) (n : IndexedPointCloudNode) :
    List TraceEvent :=
  fetchNodeHierarchyTrace net fuel s n

/-- The events of the loop over the eight children in `nodeChildren`: the resolution of the
child and, when it succeeded, the read `mHierarchy[n]`. -/
def childrenLoopTrace (net : RangeFetch) (fuel : Nat) (n : IndexedPointCloudNode)
    (d x y z : Int) : List Nat → IndexState → List TraceEvent
  | [], _ => []
  | i :: more, s =>
    let n2 := childNode d x y z i
    fetchNodeHierarchyTrace net fuel s n2 ++
      (match fetchNodeHierarchy net fuel s n2 with
        | .returned r =>
          if r.1 then
            .tableRead ::
              childrenLoopTrace net fuel n d x y z more
                { r.2 with mHierarchy := (r.2.mHierarchy.subscript n 0).2 }
          else childrenLoopTrace net fuel n d x y z more r.2
        | _ => [])

/-- The events of `nodeChildren( n )`: the resolution of `n`, `mHierarchyMutex.lock()`, the
read of `Q_ASSERT` when it is compiled in, `mHierarchyMutex.unlock()`, the loop. -/
def nodeChildrenTrace (net : RangeFetch) (assertsEnabled : Bool) (fuel : Nat) (s : IndexState)
    (n : IndexedPointCloudNode) : List TraceEvent :=
  fetchNodeHierarchyTrace net fuel s n ++
    (match fetchNodeHierarchy net fuel s n with
      | .returned r =>
        let loop := childrenLoopTrace net fuel n (wrap32 (n.d + 1)) (wrap32 (n.x * 2))
          (wrap32 (n.y * 2)) (wrap32 (n.z * 2)) (List.range 8) r.2
        .lock ::
          (if assertsEnabled then
            .tableRead :: (if r.2.mHierarchy.contains n then .unlock :: loop else [])
          else .unlock :: loop)
      | _ => [])

/-- The events of `asyncNodeData( n, request )`: the resolution of `n` and, when it succeeded,
the `QMutexLocker`, the reads `mHierarchyNodePos[n]` and `mHierarchy[n]`, and the return. -/
def asyncNodeDataTrace (net : RangeFetch) (fuel : Nat) (idx : QgsRemoteCopcPointCloudIndex)
    (n : IndexedPointCloudNode) : List TraceEvent :=
  fetchNodeHierarchyTrace net fuel idx.hierarchy n ++
    (match fetchNodeHierarchy net fuel idx.hierarchy n with
      | .returned r =>
        if r.1 then
          .lock :: .tableRead :: .tableRead ::
            (match idx.mLazInfo with
              | none => []
              | some _ => [.unlock])
        else []
      | _ => [])

/-- Every page fetch of the trace is issued while the thread holds the lock, whether or not
it held the lock when the trace began. -/
def FetchesWhileLocked (trace : List TraceEvent) : Prop :=
  ∀ (held : Bool) (e : TraceEvent) (b : Bool),
    (e, b) ∈ annotate held trace → e.isPageFetch = true → b = true

/-- All events of the trace occur with the lock held, when it is held at the start. -/
def AllHeld (trace : List TraceEvent) : Prop :=
  ∀ (e : TraceEvent) (b : Bool), (e, b) ∈ annotate true trace → b = true

/-! # Theorems -/

/-! ## Basic facts about the tables -/

theorem QHash.subscript_of_some {V : Type} (m : QHash V) (k : IndexedPointCloudNode)
    (dflt v : V) (h : m k = some v) : m.subscript k dflt = (v, m) := by
  simp [QHash.subscript, h]

theorem QHash.subscript_of_none {V : Type} (m : QHash V) (k : IndexedPointCloudNode)
    (dflt : V) (h : m k = none) : m.subscript k dflt = (dflt, m.insert k dflt) := by
  simp [QHash.subscript, h]

theorem QHash.contains_insert {V : Type} (m : QHash V) (k k2 : IndexedPointCloudNode) (v : V)
    (h : m.contains k2 = true) : (m.insert k v).contains k2 = true := by
  unfold QHash.contains QHash.insert
  by_cases hk : k2 = k
  · simp [hk]
  · simpa [hk] using h

theorem QHash.contains_subscript {V : Type} (m : QHash V) (k k2 : IndexedPointCloudNode)
    (dflt : V) (h : m.contains k2 = true) : (m.subscript k dflt).2.contains k2 = true := by
  unfold QHash.subscript
  cases hk : m k with
  | some v => simpa using h
  | none => exact QHash.contains_insert m k k2 dflt h

theorem QHash.contains_iff {V : Type} (m : QHash V) (k : IndexedPointCloudNode) :
    m.contains k = true ↔ ∃ v, m k = some v := by
  unfold QHash.contains
  cases m k <;> simp

theorem QHash.contains_eq_false {V : Type} (m : QHash V) (k : IndexedPointCloudNode) :
    m.contains k = false ↔ m k = none := by
  unfold QHash.contains
  cases m k <;> simp

theorem KeysKept.refl (s : IndexState) : KeysKept s s := fun _ h => h

theorem KeysKept.trans {s t u : IndexState} (h1 : KeysKept s t) (h2 : KeysKept t u) :
    KeysKept s u := fun k h => h2 k (h1 k h)

theorem storeEntry_keysKept (s : IndexState) (e : CopcEntry) : KeysKept s (storeEntry s e) := by
  intro k h
  exact QHash.contains_insert _ _ _ _ h

theorem parseEntries_keysKept (data : List Nat) (remaining : Nat) :
    ∀ (i : Nat) (s t : IndexState), parseEntries data remaining i s = .returned t → KeysKept s t := by
  induction remaining with
  | zero =>
    intro i s t h
    simp only [parseEntries, Outcome.returned.injEq] at h
    subst h
    exact KeysKept.refl s
  | succ r ih =>
    intro i s t h
    simp only [parseEntries] at h
    split at h
    · exact (storeEntry_keysKept s _).trans (ih _ _ _ h)
    · cases h

theorem fetchHierarchyPage_keysKept (net : RangeFetch) (s t : IndexState) (offset byteSize : Nat)
    (h : fetchHierarchyPage net s offset byteSize = .returned t) : KeysKept s t := by
  unfold fetchHierarchyPage at h
  split at h
  · simp only [Outcome.returned.injEq] at h
    subst h
    exact fun _ hk => hk
  · exact fun k hk => parseEntries_keysKept _ _ _ _ _ h k hk

theorem resolveChain_keysKept (net : RangeFetch) (n : IndexedPointCloudNode)
    (chain : List IndexedPointCloudNode) :
    ∀ (s t : IndexState) (b : Bool), resolveChain net n chain s = .returned (b, t) → KeysKept s t := by
  induction chain with
  | nil =>
    intro s t b h
    simp only [resolveChain, Outcome.returned.injEq, Prod.mk.injEq] at h
    rw [← h.2]
    exact KeysKept.refl s
  | cons a rest ih =>
    intro s t b h
    simp only [resolveChain] at h
    split at h
    · rename_i ha
      obtain ⟨v, hv⟩ := (QHash.contains_iff _ _).1 ha
      rw [QHash.subscript_of_some _ _ _ _ hv] at h
      simp only at h
      split at h
      · cases hf : fetchHierarchyPage net
            { s with mHierarchyNodePos := (s.mHierarchyNodePos.subscript a (0, 0)).2 }
            (s.mHierarchyNodePos.subscript a (0, 0)).1.1
            (toU64 (s.mHierarchyNodePos.subscript a (0, 0)).1.2) with
        | returned s2 =>
          rw [hf] at h
          simp only [Outcome.bind] at h
          have h1 : KeysKept s s2 := fun k hk => fetchHierarchyPage_keysKept _ _ _ _ _ hf k hk
          exact h1.trans (ih _ _ _ h)
        | readPastEnd => rw [hf] at h; cases h
        | assertFailed => rw [hf] at h; cases h
        | outOfFuel => rw [hf] at h; cases h
        | nullDereference => rw [hf] at h; cases h
      · exact ih _ _ _ h
    · simp only [Outcome.returned.injEq, Prod.mk.injEq] at h
      rw [← h.2]
      exact KeysKept.refl s

theorem fetchNodeHierarchy_keysKept (net : RangeFetch) (fuel : Nat) (s t : IndexState)
    (n : IndexedPointCloudNode) (b : Bool)
    (h : fetchNodeHierarchy net fuel s n = .returned (b, t)) : KeysKept s t := by
  unfold fetchNodeHierarchy at h
  split at h
  · cases h
  · exact resolveChain_keysKept _ _ _ _ _ _ h

/-! ## The walked chain -/

theorem chainUp_succ (k : Nat) : ∀ (m : IndexedPointCloudNode) (acc : List IndexedPointCloudNode),
    chainUp (k + 1) m acc = (IndexedPointCloudNode.parentNode^[k + 1] m) :: chainUp k m acc := by
  induction k with
  | zero => intro m acc; rfl
  | succ k ih =>
    intro m acc
    have h := ih m.parentNode (m :: acc)
    simp only [chainUp] at h ⊢
    rw [h]
    rfl

theorem mem_chainUp (k : Nat) (m a : IndexedPointCloudNode) :
    a ∈ chainUp k m [] ↔ ∃ j, j ≤ k ∧ a = IndexedPointCloudNode.parentNode^[j] m := by
  induction k with
  | zero =>
    simp only [chainUp, List.mem_singleton]
    constructor
    · intro h; exact ⟨0, le_refl 0, h⟩
    · rintro ⟨j, hj, h⟩
      have : j = 0 := by omega
      subst this
      exact h
  | succ k ih =>
    rw [chainUp_succ, List.mem_cons, ih]
    constructor
    · rintro (h | ⟨j, hj, h⟩)
      · exact ⟨k + 1, le_refl _, h⟩
      · exact ⟨j, by omega, h⟩
    · rintro ⟨j, hj, h⟩
      by_cases hjk : j = k + 1
      · subst hjk; exact Or.inl h
      · exact Or.inr ⟨j, by omega, h⟩

theorem collectAncestors_of_ancestor (h : QHash Int) (k : Nat) :
    ∀ (fuel : Nat) (m : IndexedPointCloudNode) (acc : List IndexedPointCloudNode), k < fuel →
      (∀ j, j < k → h (IndexedPointCloudNode.parentNode^[j] m) = none) →
      h.contains (IndexedPointCloudNode.parentNode^[k] m) = true →
      collectAncestors h fuel m acc = some (chainUp k m acc) := by
  induction k with
  | zero =>
    intro fuel m acc hf _ hk
    obtain ⟨f, rfl⟩ : ∃ f, fuel = f + 1 := ⟨fuel - 1, by omega⟩
    have hk2 : h.contains m = true := hk
    simp [collectAncestors, hk2, chainUp]
  | succ k ih =>
    intro fuel m acc hf habs hk
    obtain ⟨f, rfl⟩ : ∃ f, fuel = f + 1 := ⟨fuel - 1, by omega⟩
    have h0 : h.contains m = false := (QHash.contains_eq_false h m).2 (habs 0 (by omega))
    simp only [collectAncestors, h0, chainUp]
    apply ih f m.parentNode (m :: acc) (by omega)
    · intro j hj
      have := habs (j + 1) (by omega)
      simpa [Function.iterate_succ_apply] using this
    · simpa [Function.iterate_succ_apply] using hk

theorem collectAncestors_some (h : QHash Int) :
    ∀ (fuel : Nat) (m : IndexedPointCloudNode) (acc chain : List IndexedPointCloudNode),
      collectAncestors h fuel m acc = some chain →
      ∃ k, k < fuel ∧ (∀ j, j < k → h (IndexedPointCloudNode.parentNode^[j] m) = none) ∧
        h.contains (IndexedPointCloudNode.parentNode^[k] m) = true ∧ chain = chainUp k m acc := by
  intro fuel
  induction fuel with
  | zero => intro m acc chain hc; simp [collectAncestors] at hc
  | succ f ih =>
    intro m acc chain hc
    simp only [collectAncestors] at hc
    split at hc
    · rename_i hm
      refine ⟨0, by omega, ?_, hm, ?_⟩
      · intro j hj; omega
      · simp only [Option.some.injEq] at hc
        rw [← hc]; rfl
    · rename_i hm
      obtain ⟨k, hk, habs, hpres, hchain⟩ := ih _ _ _ hc
      refine ⟨k + 1, by omega, ?_, ?_, ?_⟩
      · intro j hj
        cases j with
        | zero =>
          have : h.contains m = false := by simpa using hm
          exact (QHash.contains_eq_false h m).1 this
        | succ j =>
          have := habs j (by omega)
          simpa [Function.iterate_succ_apply] using this
      · simpa [Function.iterate_succ_apply] using hpres
      · rw [hchain]; rfl

/-! ## One step of the resolution loop -/

theorem resolveChain_cons_absent (net : RangeFetch) (n a : IndexedPointCloudNode)
    (rest : List IndexedPointCloudNode) (s : IndexState) (h : s.mHierarchy a = none) :
    resolveChain net n (a :: rest) s = .returned (false, s) := by
  have hc : s.mHierarchy.contains a = false := (QHash.contains_eq_false _ _).2 h
  simp [resolveChain, hc]

theorem resolveChain_cons_resolved (net : RangeFetch) (n a : IndexedPointCloudNode)
    (rest : List IndexedPointCloudNode) (s : IndexState) (c : Int) (h : s.mHierarchy a = some c)
    (hc : 0 ≤ c) : resolveChain net n (a :: rest) s = resolveChain net n rest s := by
  have hp : s.mHierarchy.contains a = true := (QHash.contains_iff _ _).2 ⟨c, h⟩
  have hn : ¬ c < 0 := by omega
  simp [resolveChain, hp, QHash.subscript_of_some _ _ _ _ h, hn]

theorem resolveChain_cons_sentinel (net : RangeFetch) (n a : IndexedPointCloudNode)
    (rest : List IndexedPointCloudNode) (s : IndexState) (c : Int) (h : s.mHierarchy a = some c)
    (hc : c < 0) :
    resolveChain net n (a :: rest) s =
      (fetchHierarchyPage net { s with mHierarchyNodePos := (s.mHierarchyNodePos.subscript a (0, 0)).2 }
        (recordedPage s a).1 (recordedPage s a).2).bind (fun s2 => resolveChain net n rest s2) := by
  have hp : s.mHierarchy.contains a = true := (QHash.contains_iff _ _).2 ⟨c, h⟩
  simp [resolveChain, hp, QHash.subscript_of_some _ _ _ _ h, hc, recordedPage]

theorem fetchHierarchyPage_failed (net : RangeFetch) (s : IndexState) (offset byteSize : Nat)
    (h : net s.fetched offset byteSize = .failed) :
    fetchHierarchyPage net s offset byteSize =
      .returned { s with fetched := s.fetched ++ [(offset, byteSize)] } := by
  simp [fetchHierarchyPage, h]

/-! ## The result of a resolution -/

theorem parseEntries_fetched (data : List Nat) (remaining : Nat) :
    ∀ (i : Nat) (s t : IndexState), parseEntries data remaining i s = .returned t →
      t.fetched = s.fetched := by
  induction remaining with
  | zero =>
    intro i s t h
    simp only [parseEntries, Outcome.returned.injEq] at h
    rw [← h]
  | succ r ih =>
    intro i s t h
    simp only [parseEntries] at h
    split at h
    · rw [ih _ _ _ h]; rfl
    · cases h

theorem fetchHierarchyPage_fetched (net : RangeFetch) (s t : IndexState) (offset byteSize : Nat)
    (h : fetchHierarchyPage net s offset byteSize = .returned t) :
    t.fetched = s.fetched ++ [(offset, byteSize)] := by
  unfold fetchHierarchyPage at h
  split at h
  · simp only [Outcome.returned.injEq] at h
    rw [← h]
  · rw [parseEntries_fetched _ _ _ _ _ h]

theorem resolveChain_true_iff (net : RangeFetch) (n : IndexedPointCloudNode)
    (chain : List IndexedPointCloudNode) :
    ∀ (s t : IndexState) (b : Bool), resolveChain net n chain s = .returned (b, t) →
      (b = true ↔ (∀ a, a ∈ chain → t.mHierarchy.contains a = true) ∧
        t.mHierarchy.contains n = true) := by
  induction chain with
  | nil =>
    intro s t b h
    simp only [resolveChain, Outcome.returned.injEq, Prod.mk.injEq] at h
    rw [← h.1, ← h.2]
    simp
  | cons a rest ih =>
    intro s t b h
    cases ha : s.mHierarchy a with
    | none =>
      rw [resolveChain_cons_absent net n a rest s ha] at h
      simp only [Outcome.returned.injEq, Prod.mk.injEq] at h
      rw [← h.1, ← h.2]
      have hf : s.mHierarchy.contains a = false := (QHash.contains_eq_false _ _).2 ha
      constructor
      · intro hb; cases hb
      · rintro ⟨hall, _⟩
        have := hall a (List.mem_cons_self a rest)
        rw [hf] at this
        cases this
    | some c =>
      have hsa : s.mHierarchy.contains a = true := (QHash.contains_iff _ _).2 ⟨c, ha⟩
      by_cases hc : c < 0
      · rw [resolveChain_cons_sentinel net n a rest s c ha hc] at h
        cases hf : fetchHierarchyPage net
            { s with mHierarchyNodePos := (s.mHierarchyNodePos.subscript a (0, 0)).2 }
            (recordedPage s a).1 (recordedPage s a).2 with
        | returned s2 =>
          rw [hf] at h
          simp only [Outcome.bind] at h
          have h1 : t.mHierarchy.contains a = true :=
            resolveChain_keysKept _ _ _ _ _ _ h a (fetchHierarchyPage_keysKept _ _ _ _ _ hf a hsa)
          rw [ih _ _ _ h]
          constructor
          · rintro ⟨hall, hn⟩
            refine ⟨?_, hn⟩
            intro a2 ha2
            rcases List.mem_cons.1 ha2 with rfl | hr
            · exact h1
            · exact hall a2 hr
          · rintro ⟨hall, hn⟩
            exact ⟨fun a2 ha2 => hall a2 (List.mem_cons_of_mem a ha2), hn⟩
        | readPastEnd => rw [hf] at h; cases h
        | assertFailed => rw [hf] at h; cases h
        | outOfFuel => rw [hf] at h; cases h
        | nullDereference => rw [hf] at h; cases h
      · rw [resolveChain_cons_resolved net n a rest s c ha (by omega)] at h
        have h1 : t.mHierarchy.contains a = true := resolveChain_keysKept _ _ _ _ _ _ h a hsa
        rw [ih _ _ _ h]
        constructor
        · rintro ⟨hall, hn⟩
          refine ⟨?_, hn⟩
          intro a2 ha2
          rcases List.mem_cons.1 ha2 with rfl | hr
          · exact h1
          · exact hall a2 hr
        · rintro ⟨hall, hn⟩
          exact ⟨fun a2 ha2 => hall a2 (List.mem_cons_of_mem a ha2), hn⟩

theorem fetchNodeHierarchy_of_resolved (net : RangeFetch) (fuel : Nat) (s : IndexState)
    (n : IndexedPointCloudNode) (c : Int) (h : s.mHierarchy n = some c) (hc : 0 ≤ c) :
    fetchNodeHierarchy net (fuel + 1) s n = .returned (true, s) := by
  have hp : s.mHierarchy.contains n = true := (QHash.contains_iff _ _).2 ⟨c, h⟩
  have hw : collectAncestors s.mHierarchy (fuel + 1) n [] = some [n] := by
    simp [collectAncestors, hp]
  simp only [fetchNodeHierarchy, hw]
  rw [resolveChain_cons_resolved net n n [] s c h hc]
  simp [resolveChain, hp]

theorem fetchNodeHierarchy_of_sentinel (net : RangeFetch) (fuel : Nat) (s : IndexState)
    (n : IndexedPointCloudNode) (c : Int) (h : s.mHierarchy n = some c) (hc : c < 0) :
    fetchNodeHierarchy net (fuel + 1) s n =
      (fetchHierarchyPage net { s with mHierarchyNodePos := (s.mHierarchyNodePos.subscript n (0, 0)).2 }
        (recordedPage s n).1 (recordedPage s n).2).bind
        (fun s2 => .returned (s2.mHierarchy.contains n, s2)) := by
  have hp : s.mHierarchy.contains n = true := (QHash.contains_iff _ _).2 ⟨c, h⟩
  have hw : collectAncestors s.mHierarchy (fuel + 1) n [] = some [n] := by
    simp [collectAncestors, hp]
  simp only [fetchNodeHierarchy, hw]
  rw [resolveChain_cons_sentinel net n n [] s c h hc]
  rfl

/-- C1 (amended). Whenever `fetchNodeHierarchy( n )` returns, the walk went up `k` steps to the
nearest address present in the table, and the result is `true` exactly when every address of
the walked chain - `n`, its parent, up to that `k`-th ancestor - has an entry in the hierarchy
table at the moment of return. -/
theorem fetchNodeHierarchy_true_iff_chain (net : RangeFetch) (fuel : Nat) (s t : IndexState)
    (n : IndexedPointCloudNode) (b : Bool)
    (h : fetchNodeHierarchy net fuel s n = .returned (b, t)) :
    ∃ k, k < fuel ∧
      (∀ j, j < k → s.mHierarchy (IndexedPointCloudNode.parentNode^[j] n) = none) ∧
      s.mHierarchy.contains (IndexedPointCloudNode.parentNode^[k] n) = true ∧
      (b = true ↔
        ∀ j, j ≤ k → t.mHierarchy.contains (IndexedPointCloudNode.parentNode^[j] n) = true) := by
  unfold fetchNodeHierarchy at h
  split at h
  · cases h
  · rename_i chain hw
    obtain ⟨k, hk, habs, hpres, rfl⟩ := collectAncestors_some _ _ _ _ _ hw
    refine ⟨k, hk, habs, hpres, ?_⟩
    rw [resolveChain_true_iff net n _ _ _ _ h]
    constructor
    · rintro ⟨hall, _⟩ j hj
      exact hall _ ((mem_chainUp k n _).2 ⟨j, hj, rfl⟩)
    · intro hall
      refine ⟨?_, hall 0 (Nat.zero_le k)⟩
      intro a ha
      obtain ⟨j, hj, rfl⟩ := (mem_chainUp k n a).1 ha
      exact hall j hj

/-- C1 (counterexample). With the root unresolved and its page holding only `2-0-0-0`,
`fetchNodeHierarchy( 2-0-0-0 )` returns `false` because `1-0-0-0` is missing, although
`2-0-0-0` has an entry in the table when the call returns. -/
theorem fetchNodeHierarchy_false_with_entry :
    ∃ t, fetchNodeHierarchy grandchildFetch 3 pendingRoot ⟨2, 0, 0, 0⟩ = .returned (false, t) ∧
      t.mHierarchy ⟨2, 0, 0, 0⟩ = some 5 :=
  ⟨_, rfl, by decide⟩

/-- C1 (witness). The amended statement at the same call. -/
theorem fetchNodeHierarchy_true_iff_chain_witness :
    ∃ t, fetchNodeHierarchy grandchildFetch 3 pendingRoot ⟨2, 0, 0, 0⟩ = .returned (false, t) ∧
      ∃ k, k < 3 ∧
        (∀ j, j < k →
          pendingRoot.mHierarchy (IndexedPointCloudNode.parentNode^[j] ⟨2, 0, 0, 0⟩) = none) ∧
        pendingRoot.mHierarchy.contains (IndexedPointCloudNode.parentNode^[k] ⟨2, 0, 0, 0⟩) = true ∧
        (false = true ↔ ∀ j, j ≤ k →
          t.mHierarchy.contains (IndexedPointCloudNode.parentNode^[j] ⟨2, 0, 0, 0⟩) = true) :=
  ⟨_, rfl, fetchNodeHierarchy_true_iff_chain grandchildFetch 3 pendingRoot _ ⟨2, 0, 0, 0⟩ false rfl⟩

/-! ## Resolved nodes, structural absence, transport failure -/

/-- C2. When `n` has a hierarchy-table entry with point count `>= 0`, `fetchNodeHierarchy( n )`
returns `true` and the whole state - hierarchy table, position side-table and the log of
issued page requests - is the one it started from: no page fetch is issued. -/
theorem fetchNodeHierarchy_resolved_noop (net : RangeFetch) (fuel : Nat) (s : IndexState)
    (n : IndexedPointCloudNode) (c : Int) (h : s.mHierarchy n = some c) (hc : 0 ≤ c) :
    fetchNodeHierarchy net (fuel + 1) s n = .returned (true, s) :=
  fetchNodeHierarchy_of_resolved net fuel s n c h hc

/-- C5. Structural absence: when `n` and its ancestors below the `k`-th are absent from the
hierarchy table and the `k`-th ancestor (the nearest one present) has point count `>= 0`,
`hasNode( n )` returns `false` and `hasNode` of that ancestor returns `true`, both leaving the
state as it was, without any page fetch. -/
theorem hasNode_structural_absence (net : RangeFetch) (fuel : Nat) (s : IndexState)
    (n : IndexedPointCloudNode) (k : Nat) (c : Int) (hk : 0 < k) (hfuel : k < fuel)
    (habs : ∀ j, j < k → s.mHierarchy (IndexedPointCloudNode.parentNode^[j] n) = none)
    (hanc : s.mHierarchy (IndexedPointCloudNode.parentNode^[k] n) = some c) (hc : 0 ≤ c) :
    hasNode net fuel s n = .returned (false, s) ∧
      hasNode net fuel s (IndexedPointCloudNode.parentNode^[k] n) = .returned (true, s) := by
  obtain ⟨f, rfl⟩ : ∃ f, fuel = f + 1 := ⟨fuel - 1, by omega⟩
  obtain ⟨k, rfl⟩ : ∃ k2, k = k2 + 1 := ⟨k - 1, by omega⟩
  constructor
  · have hw := collectAncestors_of_ancestor s.mHierarchy (k + 1) (f + 1) n [] hfuel habs
      ((QHash.contains_iff _ _).2 ⟨c, hanc⟩)
    unfold hasNode
    simp only [fetchNodeHierarchy, hw]
    rw [chainUp_succ, resolveChain_cons_resolved net n _ _ s c hanc hc]
    have h2 : s.mHierarchy (IndexedPointCloudNode.parentNode^[k] n) = none := habs k (by omega)
    cases k with
    | zero => exact resolveChain_cons_absent net n _ _ s h2
    | succ k2 =>
      rw [chainUp_succ]
      exact resolveChain_cons_absent net n _ _ s h2
  · exact fetchNodeHierarchy_of_resolved net f s _ c hanc hc

/-- C9. A failed byte-range fetch leaves both tables as they were and `fetchHierarchyPage`
returns normally; and `fetchNodeHierarchy( n )` for an absent `n` whose nearest known ancestor
carries the unresolved sentinel and whose page fetch fails returns `false`, the hierarchy
table unchanged and that one page requested. -/
theorem fetch_failure_leaves_tables (net : RangeFetch) (s : IndexState) :
    (∀ offset byteSize, net s.fetched offset byteSize = .failed →
      ∃ t, fetchHierarchyPage net s offset byteSize = .returned t ∧
        t.mHierarchy = s.mHierarchy ∧ t.mHierarchyNodePos = s.mHierarchyNodePos) ∧
    (∀ (fuel : Nat) (n : IndexedPointCloudNode) (k : Nat) (c : Int), 0 < k → k < fuel →
      (∀ j, j < k → s.mHierarchy (IndexedPointCloudNode.parentNode^[j] n) = none) →
      s.mHierarchy (IndexedPointCloudNode.parentNode^[k] n) = some c → c < 0 →
      net s.fetched (recordedPage s (IndexedPointCloudNode.parentNode^[k] n)).1
        (recordedPage s (IndexedPointCloudNode.parentNode^[k] n)).2 = .failed →
      ∃ t, fetchNodeHierarchy net fuel s n = .returned (false, t) ∧
        t.mHierarchy = s.mHierarchy ∧
        t.fetched = s.fetched ++ [recordedPage s (IndexedPointCloudNode.parentNode^[k] n)]) := by
  constructor
  · intro offset byteSize h
    exact ⟨_, fetchHierarchyPage_failed net s offset byteSize h, rfl, rfl⟩
  · intro fuel n k c hk hfuel habs hanc hc hnet
    obtain ⟨k, rfl⟩ : ∃ k2, k = k2 + 1 := ⟨k - 1, by omega⟩
    have hw := collectAncestors_of_ancestor s.mHierarchy (k + 1) fuel n [] hfuel habs
      ((QHash.contains_iff _ _).2 ⟨c, hanc⟩)
    simp only [fetchNodeHierarchy, hw]
    rw [chainUp_succ, resolveChain_cons_sentinel net n _ _ s c hanc hc]
    rw [fetchHierarchyPage_failed net
      { s with mHierarchyNodePos :=
          (s.mHierarchyNodePos.subscript (IndexedPointCloudNode.parentNode^[k + 1] n) (0, 0)).2 }
      _ _ hnet]
    simp only [Outcome.bind]
    have h2 : s.mHierarchy (IndexedPointCloudNode.parentNode^[k] n) = none := habs k (by omega)
    refine ⟨{ s with
        mHierarchyNodePos :=
          (s.mHierarchyNodePos.subscript (IndexedPointCloudNode.parentNode^[k + 1] n) (0, 0)).2
        fetched := s.fetched ++ [recordedPage s (IndexedPointCloudNode.parentNode^[k + 1] n)] },
      ?_, rfl, rfl⟩
    cases k with
    | zero => exact resolveChain_cons_absent net n _ _ _ h2
    | succ k2 =>
      rw [chainUp_succ]
      exact resolveChain_cons_absent net n _ _ _ h2

/-- C2 (witness). The resolved root of a single-page dataset. -/
theorem fetchNodeHierarchy_resolved_noop_witness :
    singlePage.mHierarchy rootNode = some 253 ∧ (0 : Int) ≤ 253 ∧
      fetchNodeHierarchy failingFetch (0 + 1) singlePage rootNode = .returned (true, singlePage) :=
  ⟨rfl, by decide,
    fetchNodeHierarchy_resolved_noop failingFetch 0 singlePage rootNode 253 rfl (by decide)⟩

/-- C5 (witness). The single-page dataset: the root is a node, `1-0-0-0` is not. -/
theorem hasNode_structural_absence_witness :
    hasNode failingFetch 2 singlePage ⟨1, 0, 0, 0⟩ = .returned (false, singlePage) ∧
      hasNode failingFetch 2 singlePage (IndexedPointCloudNode.parentNode^[1] ⟨1, 0, 0, 0⟩) =
        .returned (true, singlePage) :=
  hasNode_structural_absence failingFetch 2 singlePage ⟨1, 0, 0, 0⟩ 1 253 (by decide) (by decide)
    (fun j hj => by
      have h0 : j = 0 := by omega
      subst h0
      rfl)
    rfl (by decide)

/-- C9 (witness). The unresolved root with a failing collaborator: the page fetch changes
nothing, and `1-0-0-0` is reported as not found. -/
theorem fetch_failure_leaves_tables_witness :
    (∃ t, fetchHierarchyPage failingFetch pendingRoot 100 32 = .returned t ∧
        t.mHierarchy = pendingRoot.mHierarchy ∧
        t.mHierarchyNodePos = pendingRoot.mHierarchyNodePos) ∧
    (∃ t, fetchNodeHierarchy failingFetch 2 pendingRoot ⟨1, 0, 0, 0⟩ = .returned (false, t) ∧
        t.mHierarchy = pendingRoot.mHierarchy ∧
        t.fetched = pendingRoot.fetched ++
          [recordedPage pendingRoot (IndexedPointCloudNode.parentNode^[1] ⟨1, 0, 0, 0⟩)]) :=
  ⟨(fetch_failure_leaves_tables failingFetch pendingRoot).1 100 32 rfl,
    (fetch_failure_leaves_tables failingFetch pendingRoot).2 2 ⟨1, 0, 0, 0⟩ 1 (-1) (by decide)
      (by decide)
      (fun j hj => by
        have h0 : j = 0 := by omega
        subst h0
        rfl)
      rfl (by decide) rfl⟩

/-! ## Repeated resolution and the unresolved sentinel -/

/-- C3 (amended). If `hasNode( n )` has returned `true` and the entry of `n` then has a point
count `>= 0` (it is no longer, or never was, the unresolved sentinel), a second `hasNode( n )`
made immediately afterwards returns `true` and leaves the state, the log of page requests
included, as it was: it performs no page fetch. -/
theorem hasNode_again_no_fetch (net : RangeFetch) (fuel : Nat) (s t : IndexState)
    (n : IndexedPointCloudNode) (c : Int) (h1 : hasNode net fuel s n = .returned (true, t))
    (h : t.mHierarchy n = some c) (hc : 0 ≤ c) :
    hasNode net fuel t n = .returned (true, t) := by
  cases fuel with
  | zero => simp [hasNode, fetchNodeHierarchy, collectAncestors] at h1
  | succ f => exact fetchNodeHierarchy_of_resolved net f t n c h hc

/-- C3 (counterexample). The root is unresolved and the collaborator fails: `hasNode( root )`
returns `true`, and the second call, which also returns `true`, issues one more page fetch. -/
theorem hasNode_again_fetches :
    ∃ t u, hasNode failingFetch 1 pendingRoot rootNode = .returned (true, t) ∧
      hasNode failingFetch 1 t rootNode = .returned (true, u) ∧
      u.fetched = t.fetched ++ [(100, 32)] :=
  ⟨_, _, rfl, rfl, rfl⟩

/-- C3 (witness). A second `hasNode( root )` on the single-page dataset. -/
theorem hasNode_again_no_fetch_witness :
    hasNode failingFetch 1 singlePage rootNode = .returned (true, singlePage) ∧
      singlePage.mHierarchy rootNode = some 253 ∧ (0 : Int) ≤ 253 ∧
      hasNode failingFetch 1 singlePage rootNode = .returned (true, singlePage) :=
  ⟨rfl, rfl, by decide,
    hasNode_again_no_fetch failingFetch 1 singlePage singlePage rootNode 253 rfl rfl (by decide)⟩

/-- C4 (amended). When the entry of `n` carries the unresolved sentinel, a returning
`fetchNodeHierarchy( n )` has issued exactly one page fetch, the one of the page recorded for
`n`, and its result is `true` whatever that fetch produced; in particular, when the fetch
fails the call returns `true` and the entry of `n` is still the sentinel. -/
theorem fetchNodeHierarchy_sentinel_true (net : RangeFetch) (fuel : Nat) (s : IndexState)
    (n : IndexedPointCloudNode) (c : Int) (h : s.mHierarchy n = some c) (hc : c < 0) :
    (∀ b t, fetchNodeHierarchy net (fuel + 1) s n = .returned (b, t) →
      b = true ∧ t.fetched = s.fetched ++ [recordedPage s n]) ∧
    (net s.fetched (recordedPage s n).1 (recordedPage s n).2 = .failed →
      ∃ t, fetchNodeHierarchy net (fuel + 1) s n = .returned (true, t) ∧
        t.mHierarchy n = some c) := by
  have hp : s.mHierarchy.contains n = true := (QHash.contains_iff _ _).2 ⟨c, h⟩
  rw [fetchNodeHierarchy_of_sentinel net fuel s n c h hc]
  constructor
  · intro b t hr
    cases hf : fetchHierarchyPage net
        { s with mHierarchyNodePos := (s.mHierarchyNodePos.subscript n (0, 0)).2 }
        (recordedPage s n).1 (recordedPage s n).2 with
    | returned s2 =>
      rw [hf] at hr
      simp only [Outcome.bind, Outcome.returned.injEq, Prod.mk.injEq] at hr
      obtain ⟨hb, rfl⟩ := hr
      refine ⟨?_, ?_⟩
      · rw [← hb]
        exact fetchHierarchyPage_keysKept _ _ _ _ _ hf n hp
      · exact fetchHierarchyPage_fetched net
          { s with mHierarchyNodePos := (s.mHierarchyNodePos.subscript n (0, 0)).2 } _ _ _ hf
    | readPastEnd => rw [hf] at hr; cases hr
    | assertFailed => rw [hf] at hr; cases hr
    | outOfFuel => rw [hf] at hr; cases hr
    | nullDereference => rw [hf] at hr; cases hr
  · intro hnet
    rw [fetchHierarchyPage_failed net
      { s with mHierarchyNodePos := (s.mHierarchyNodePos.subscript n (0, 0)).2 } _ _ hnet]
    simp only [Outcome.bind]
    refine ⟨{ s with
        mHierarchyNodePos := (s.mHierarchyNodePos.subscript n (0, 0)).2
        fetched := s.fetched ++ [((recordedPage s n).1, (recordedPage s n).2)] }, ?_, h⟩
    have hp2 : QHash.contains s.mHierarchy n = true := hp
    simp only [hp2]

/-- C4 (counterexample). The root carries the sentinel and the fetch of its page fails:
`hasNode( root )` returns `true` while the entry of the root is still the sentinel `-1`. -/
theorem hasNode_true_on_sentinel :
    ∃ t, hasNode failingFetch 1 pendingRoot rootNode = .returned (true, t) ∧
      t.mHierarchy rootNode = some (-1) :=
  ⟨_, rfl, rfl⟩

/-- C4 (witness). The amended statement at the unresolved root with a failing collaborator. -/
theorem fetchNodeHierarchy_sentinel_true_witness :
    pendingRoot.mHierarchy rootNode = some (-1) ∧ (-1 : Int) < 0 ∧
    (∀ b t, fetchNodeHierarchy failingFetch (0 + 1) pendingRoot rootNode = .returned (b, t) →
      b = true ∧ t.fetched = pendingRoot.fetched ++ [recordedPage pendingRoot rootNode]) ∧
    (∃ t, fetchNodeHierarchy failingFetch (0 + 1) pendingRoot rootNode = .returned (true, t) ∧
        t.mHierarchy rootNode = some (-1)) :=
  ⟨rfl, by decide,
    (fetchNodeHierarchy_sentinel_true failingFetch 0 pendingRoot rootNode (-1) rfl (by decide)).1,
    (fetchNodeHierarchy_sentinel_true failingFetch 0 pendingRoot rootNode (-1) rfl (by decide)).2
      rfl⟩

/-! ## Parent of a derived child -/

theorem wrap32_depth_roundtrip (d : Int) (h : isInt32 d) : wrap32 (wrap32 (d + 1) - 1) = d := by
  unfold isInt32 at h
  unfold wrap32
  omega

theorem wrap32_child_coordinate (v b : Int) (h : fitsDoubled v) (hb : b = 0 ∨ b = 1) :
    wrap32 (wrap32 (v * 2) + b) >>> (1 : Nat) = v := by
  unfold fitsDoubled at h
  rw [Int.shiftRight_eq_div_pow]
  unfold wrap32
  rcases hb with rfl | rfl <;> omega

theorem childNode_bits (d x y z : Int) (i : Nat) :
    ∃ bx pby bz : Int, (bx = 0 ∨ bx = 1) ∧ (pby = 0 ∨ pby = 1) ∧ (bz = 0 ∨ bz = 1) ∧
      childNode d x y z i = ⟨d, wrap32 (x + bx), wrap32 (y + pby), wrap32 (z + bz)⟩ := by
  refine ⟨((i &&& 1 : Nat) : Int), if i &&& 2 = 0 then 0 else 1, if i &&& 4 = 0 then 0 else 1,
    ?_, ?_, ?_, rfl⟩
  · rw [Nat.and_one_is_mod]
    omega
  · split <;> simp
  · split <;> simp

/-- C8 (amended). For every node address `n` whose depth is an `int32_t` and whose coordinates
lie in `[-2^30, 2^30)` (so that `2*x + 1` is representable), each of the 8 addresses that
`nodeChildren` derives from `n` has `parentNode()` equal to `n`. -/
theorem parentNode_derivedChild (n : IndexedPointCloudNode) (i : Nat) (hd : isInt32 n.d)
    (hx : fitsDoubled n.x) (hy : fitsDoubled n.y) (hz : fitsDoubled n.z) :
    (derivedChild n i).parentNode = n := by
  obtain ⟨d, x, y, z⟩ := n
  simp only at hd hx hy hz
  obtain ⟨bx, pby, bz, hbx, hby, hbz, hc⟩ :=
    childNode_bits (wrap32 (d + 1)) (wrap32 (x * 2)) (wrap32 (y * 2)) (wrap32 (z * 2)) i
  simp only [derivedChild, hc, IndexedPointCloudNode.parentNode, IndexedPointCloudNode.mk.injEq]
  exact ⟨wrap32_depth_roundtrip d hd, wrap32_child_coordinate x bx hx hbx,
    wrap32_child_coordinate y pby hy hby, wrap32_child_coordinate z bz hz hbz⟩

/-- C8 (counterexample). At `n = (31, 2^30, 0, 0)` the doubled coordinate leaves the
32-bit range: the child derived for `i = 0` has a parent different from `n`. -/
theorem parentNode_derivedChild_overflow :
    isInt32 31 ∧ isInt32 1073741824 ∧
      (derivedChild ⟨31, 1073741824, 0, 0⟩ 0).parentNode ≠ ⟨31, 1073741824, 0, 0⟩ := by
  decide

/-- C8 (witness). Child 5 of `2-3-3-1`. -/
theorem parentNode_derivedChild_witness :
    (derivedChild ⟨2, 3, 3, 1⟩ 5).parentNode = ⟨2, 3, 3, 1⟩ :=
  parentNode_derivedChild ⟨2, 3, 3, 1⟩ 5 (by decide) (by decide) (by decide) (by decide)

/-! ## Page length -/

theorem parseEntries_posKept (data : List Nat) (remaining : Nat) :
    ∀ (i : Nat) (s t : IndexState) (k : IndexedPointCloudNode),
      parseEntries data remaining i s = .returned t → s.mHierarchyNodePos.contains k = true →
      t.mHierarchyNodePos.contains k = true := by
  induction remaining with
  | zero =>
    intro i s t k h hk
    simp only [parseEntries, Outcome.returned.injEq] at h
    rw [← h]
    exact hk
  | succ r ih =>
    intro i s t k h hk
    simp only [parseEntries] at h
    split at h
    · exact ih _ _ _ k h (QHash.contains_insert _ _ _ _ hk)
    · cases h

theorem parseEntries_stores (data : List Nat) (remaining : Nat) :
    ∀ (i : Nat) (s : IndexState), i + 32 * remaining ≤ data.length →
      ∃ t, parseEntries data remaining i s = .returned t ∧
        ∀ j, j < remaining →
          t.mHierarchy.contains (nodeId (readEntry data (i + 32 * j))) = true ∧
          t.mHierarchyNodePos.contains (nodeId (readEntry data (i + 32 * j))) = true := by
  induction remaining with
  | zero =>
    intro i s _
    exact ⟨s, rfl, fun j hj => by omega⟩
  | succ r ih =>
    intro i s hlen
    have hin : i + sizeofCopcEntry ≤ data.length := by unfold sizeofCopcEntry; omega
    obtain ⟨t, ht, hall⟩ := ih (i + sizeofCopcEntry) (storeEntry s (readEntry data i))
      (by unfold sizeofCopcEntry; omega)
    refine ⟨t, ?_, ?_⟩
    · simp only [parseEntries, hin, if_true]
      exact ht
    · intro j hj
      cases j with
      | zero =>
        constructor
        · apply parseEntries_keysKept _ _ _ _ _ ht
          simp [storeEntry, QHash.contains, QHash.insert]
        · apply parseEntries_posKept _ _ _ _ _ _ ht
          simp [storeEntry, QHash.contains, QHash.insert]
      | succ j =>
        have := hall j (by omega)
        have e : i + sizeofCopcEntry + 32 * j = i + 32 * (j + 1) := by
          unfold sizeofCopcEntry; omega
        rw [e] at this
        exact this

/-- C10 (amended). `fetchHierarchyPage` has no check of the reply length. For a successful
fetch whose reply holds at least the `⌈byteSize/32⌉` entries that the loop reads, it returns
normally and every one of these entries has its key in the hierarchy table and in the position
side-table afterwards, whether or not the reply length equals `byteSize` or is a multiple
of 32. -/
theorem fetchHierarchyPage_no_length_check (net : RangeFetch) (s : IndexState)
    (offset byteSize : Nat) (data : List Nat)
    (hnet : net s.fetched offset byteSize = .content data)
    (hlen : 32 * entryCount byteSize ≤ data.length) :
    ∃ t, fetchHierarchyPage net s offset byteSize = .returned t ∧
      ∀ j, j < entryCount byteSize →
        t.mHierarchy.contains (nodeId (readEntry data (32 * j))) = true ∧
        t.mHierarchyNodePos.contains (nodeId (readEntry data (32 * j))) = true := by
  obtain ⟨t, ht, hall⟩ := parseEntries_stores data (entryCount byteSize) 0
    { s with fetched := s.fetched ++ [(offset, byteSize)] } (by omega)
  refine ⟨t, ?_, ?_⟩
  · simp only [fetchHierarchyPage, hnet]
    exact ht
  · intro j hj
    have := hall j hj
    simpa using this

/-- C10 (counterexample). A 33-byte reply to a 32-byte request is not rejected: the entry
`2-0-0-0` is inserted. A 32-byte reply to a 64-byte request is not rejected either: the second
entry is read past the end of the reply. -/
theorem fetchHierarchyPage_malformed_not_detected :
    (∃ t, fetchHierarchyPage oversizedFetch pendingRoot 100 32 = .returned t ∧
      pendingRoot.mHierarchy ⟨2, 0, 0, 0⟩ = none ∧ t.mHierarchy ⟨2, 0, 0, 0⟩ = some 5 ∧
      t.mHierarchyNodePos ⟨2, 0, 0, 0⟩ = some (7, 9)) ∧
    fetchHierarchyPage grandchildFetch pendingRoot 100 64 = .readPastEnd :=
  ⟨⟨_, rfl, by decide, by decide, by decide⟩, rfl⟩

/-- C10 (witness). The 33-byte reply to a 32-byte request. -/
theorem fetchHierarchyPage_no_length_check_witness :
    ∃ t, fetchHierarchyPage oversizedFetch pendingRoot 100 32 = .returned t ∧
      ∀ j, j < entryCount 32 →
        t.mHierarchy.contains (nodeId (readEntry (grandchildPage ++ [0]) (32 * j))) = true ∧
        t.mHierarchyNodePos.contains (nodeId (readEntry (grandchildPage ++ [0]) (32 * j))) =
          true :=
  fetchHierarchyPage_no_length_check oversizedFetch pendingRoot 100 32 (grandchildPage ++ [0])
    rfl (by decide)

/-! ## Children enumeration against the spec -/

theorem Outcome.bind_assoc {α β γ : Type} (o : Outcome α) (f : α → Outcome β)
    (g : β → Outcome γ) : (o.bind f).bind g = o.bind (fun a => (f a).bind g) := by
  cases o <;> rfl

theorem wrap32_add_wrap32 (a b : Int) : wrap32 (wrap32 a + b) = wrap32 (a + b) := by
  unfold wrap32
  omega

theorem derivedChild_eq_specChild (n : IndexedPointCloudNode) (i : Nat) (hi : i < 8) :
    derivedChild n i = specChild n i := by
  have hx : ∀ b : Int, wrap32 (wrap32 (n.x * 2) + b) = wrap32 (2 * n.x + b) := fun b => by
    rw [wrap32_add_wrap32, Int.mul_comm]
  have hy : ∀ b : Int, wrap32 (wrap32 (n.y * 2) + b) = wrap32 (2 * n.y + b) := fun b => by
    rw [wrap32_add_wrap32, Int.mul_comm]
  have hz : ∀ b : Int, wrap32 (wrap32 (n.z * 2) + b) = wrap32 (2 * n.z + b) := fun b => by
    rw [wrap32_add_wrap32, Int.mul_comm]
  interval_cases i <;>
    simp only [derivedChild, childNode, specChild, hx, hy, hz] <;> rfl

theorem childrenLoop_eq_specKept (net : RangeFetch) (fuel : Nat) (n : IndexedPointCloudNode)
    (is : List Nat) (his : ∀ i, i ∈ is → i < 8) :
    ∀ (s : IndexState) (lst : List IndexedPointCloudNode), s.mHierarchy.contains n = true →
      childrenLoop net fuel n (wrap32 (n.d + 1)) (wrap32 (n.x * 2)) (wrap32 (n.y * 2))
          (wrap32 (n.z * 2)) is s lst =
        (specKeptChildren net fuel n is s).bind (fun r => .returned (lst ++ r.1, r.2)) := by
  induction is with
  | nil =>
    intro s lst _
    simp [childrenLoop, specKeptChildren, Outcome.bind]
  | cons i more ih =>
    intro s lst hn
    have hchild : childNode (wrap32 (n.d + 1)) (wrap32 (n.x * 2)) (wrap32 (n.y * 2))
        (wrap32 (n.z * 2)) i = specChild n i :=
      derivedChild_eq_specChild n i (his i (List.mem_cons_self i more))
    have ih2 := ih (fun j hj => his j (List.mem_cons_of_mem i hj))
    simp only [childrenLoop, specKeptChildren, hchild]
    cases hf : fetchNodeHierarchy net fuel s (specChild n i) with
    | returned r =>
      obtain ⟨b, t⟩ := r
      have hnt : t.mHierarchy.contains n = true := fetchNodeHierarchy_keysKept _ _ _ _ _ _ hf n hn
      obtain ⟨v, hv⟩ := (QHash.contains_iff _ _).1 hnt
      simp only [Outcome.bind]
      cases b with
      | false =>
        simp only [Bool.false_and, Bool.false_eq_true, if_false]
        rw [ih2 t lst hnt]
        cases specKeptChildren net fuel n more t <;> rfl
      | true =>
        simp only [if_true, QHash.subscript_of_some _ _ _ _ hv, Bool.true_and, hasPositiveCount, hv]
        by_cases hpos : v > 0
        · simp only [hpos, if_true, decide_True]
          rw [ih2 t (lst ++ [specChild n i]) hnt]
          cases specKeptChildren net fuel n more t <;> simp [Outcome.bind]
        · simp only [hpos, if_false, decide_False, Bool.false_eq_true]
          rw [ih2 t lst hnt]
          cases specKeptChildren net fuel n more t <;> rfl
    | readPastEnd => rfl
    | assertFailed => rfl
    | outOfFuel => rfl
    | nullDereference => rfl

/-- C7 (amended). Whenever the resolution of `n` leaves `n` with an entry in the hierarchy
table (the condition `nodeChildren` asserts), `nodeChildren( n )` is the spec's enumeration:
the addresses `child_i = (d+1, 2x+(i&1), 2y+((i>>1)&1), 2z+((i>>2)&1))`, taken for
`i = 0..7` in increasing order and resolved in that order after `n`, restricted to those whose
resolution succeeds with the entry of `n` then having a point count `> 0`; the final states
agree too. -/
theorem nodeChildren_eq_spec (net : RangeFetch) (assertsEnabled : Bool) (fuel : Nat)
    (s s1 : IndexState) (n : IndexedPointCloudNode) (b : Bool)
    (h1 : fetchNodeHierarchy net fuel s n = .returned (b, s1))
    (hn : s1.mHierarchy.contains n = true) :
    nodeChildren net assertsEnabled fuel s n = nodeChildrenSpec net fuel s n := by
  have hrange : List.range 8 = [0, 1, 2, 3, 4, 5, 6, 7] := by decide
  simp only [nodeChildren, nodeChildrenSpec, h1, Outcome.bind, hn, hrange]
  rw [childrenLoop_eq_specKept net fuel n _ (by intro i hi; simp at hi; omega) s1 [] hn]
  cases assertsEnabled <;>
    cases specKeptChildren net fuel n [0, 1, 2, 3, 4, 5, 6, 7] s1 <;> simp [Outcome.bind]

/-- C7 (counterexample). For a node without an entry after its resolution the code does not
return the spec's list. With assertions compiled in, `nodeChildren( 1-0-0-0 )` on the
single-page dataset stops at `Q_ASSERT`, where the spec's enumeration is the empty list. With
assertions compiled out, `mHierarchy[n]` inserts a zero entry for `n`, which cuts the walk of
the later children short: on `gapState` the code returns the empty list where the spec's
enumeration returns `[2-1-0-0]`. -/
theorem nodeChildren_differs_from_spec :
    nodeChildren failingFetch true 3 singlePage ⟨1, 0, 0, 0⟩ = .assertFailed ∧
    nodeChildrenSpec failingFetch 3 singlePage ⟨1, 0, 0, 0⟩ = .returned ([], singlePage) ∧
    (∃ t, nodeChildren retryFetch false 3 gapState ⟨1, 0, 0, 0⟩ = .returned ([], t)) ∧
    (∃ t, nodeChildrenSpec retryFetch 3 gapState ⟨1, 0, 0, 0⟩ = .returned ([⟨2, 1, 0, 0⟩], t)) :=
  ⟨rfl, rfl, ⟨_, rfl⟩, ⟨_, rfl⟩⟩

/-- C7 (witness). The children of the root of `twoLevels`: the unresolved `1-0-0-0` and the
resolved `1-1-1-0`, in this order. -/
theorem nodeChildren_eq_spec_witness :
    nodeChildren failingFetch true 2 twoLevels rootNode =
        nodeChildrenSpec failingFetch 2 twoLevels rootNode ∧
      ∃ t, nodeChildrenSpec failingFetch 2 twoLevels rootNode =
        .returned ([⟨1, 0, 0, 0⟩, ⟨1, 1, 1, 0⟩], t) :=
  ⟨nodeChildren_eq_spec failingFetch true 2 twoLevels twoLevels rootNode true rfl rfl,
    ⟨_, rfl⟩⟩

/-! ## Children of a node without points -/

theorem parseEntries_invariant (P : IndexState → Prop) (data : List Nat) (remaining : Nat) :
    ∀ (i : Nat) (s : IndexState), i + 32 * remaining ≤ data.length → P s →
      (∀ u j, j < remaining → P u → P (storeEntry u (readEntry data (i + 32 * j)))) →
      ∃ t, parseEntries data remaining i s = .returned t ∧ P t := by
  induction remaining with
  | zero =>
    intro i s _ hP _
    exact ⟨s, rfl, hP⟩
  | succ r ih =>
    intro i s hlen hP hstep
    have hin : i + sizeofCopcEntry ≤ data.length := by unfold sizeofCopcEntry; omega
    have h0 : P (storeEntry s (readEntry data i)) := by
      have := hstep s 0 (by omega) hP
      simpa using this
    obtain ⟨t, ht, hPt⟩ := ih (i + sizeofCopcEntry) (storeEntry s (readEntry data i))
      (by unfold sizeofCopcEntry; omega) h0
      (fun u j hj hu => by
        have := hstep u (j + 1) (by omega) hu
        have e : i + sizeofCopcEntry + 32 * j = i + 32 * (j + 1) := by
          unfold sizeofCopcEntry; omega
        rw [e]
        exact this)
    refine ⟨t, ?_, hPt⟩
    simp only [parseEntries, hin, if_true]
    exact ht

theorem storeEntry_notPositive (u : IndexState) (e : CopcEntry) (n : IndexedPointCloudNode)
    (hu : NotPositive u n) (he : nodeId e = n → e.pointCount ≤ 0) :
    NotPositive (storeEntry u e) n := by
  intro c hc
  simp only [storeEntry, QHash.insert] at hc
  by_cases hk : n = nodeId e
  · simp only [hk, if_true, Option.some.injEq] at hc
    rw [← hc]
    exact he hk.symm
  · simp only [hk, if_false] at hc
    exact hu c hc

theorem fetchHierarchyPage_notPositive (net : RangeFetch) (n : IndexedPointCloudNode)
    (hcover : RepliesCoverRequest net) (hnever : NeverPositiveFor net n) (s : IndexState)
    (offset byteSize : Nat) (hs : NotPositive s n) :
    ∃ t, fetchHierarchyPage net s offset byteSize = .returned t ∧ NotPositive t n := by
  unfold fetchHierarchyPage
  cases hnet : net s.fetched offset byteSize with
  | failed => exact ⟨_, rfl, hs⟩
  | content data =>
    simp only
    apply parseEntries_invariant (fun u => NotPositive u n) data (entryCount byteSize) 0
      { s with fetched := s.fetched ++ [(offset, byteSize)] }
      (by have := hcover _ _ _ _ hnet; omega) hs
    intro u j hj hu
    apply storeEntry_notPositive u _ n hu
    intro hk
    have := hnever _ _ _ _ hnet j hj
    simp only [Nat.zero_add] at hk ⊢
    exact this hk

theorem resolveChain_notPositive (net : RangeFetch) (n m : IndexedPointCloudNode)
    (hcover : RepliesCoverRequest net) (hnever : NeverPositiveFor net n)
    (chain : List IndexedPointCloudNode) :
    ∀ s : IndexState, NotPositive s n →
      ∃ b t, resolveChain net m chain s = .returned (b, t) ∧ NotPositive t n := by
  induction chain with
  | nil =>
    intro s hs
    exact ⟨_, s, rfl, hs⟩
  | cons a rest ih =>
    intro s hs
    cases ha : s.mHierarchy a with
    | none => exact ⟨false, s, resolveChain_cons_absent net m a rest s ha, hs⟩
    | some c =>
      by_cases hc : c < 0
      · rw [resolveChain_cons_sentinel net m a rest s c ha hc]
        obtain ⟨s2, hf, hs2⟩ := fetchHierarchyPage_notPositive net n hcover hnever
          { s with mHierarchyNodePos := (s.mHierarchyNodePos.subscript a (0, 0)).2 }
          (recordedPage s a).1 (recordedPage s a).2 hs
        rw [hf]
        exact ih s2 hs2
      · rw [resolveChain_cons_resolved net m a rest s c ha (by omega)]
        exact ih s hs

theorem collectAncestors_terminates (h : QHash Int) :
    ∀ (fuel j : Nat) (m : IndexedPointCloudNode) (acc : List IndexedPointCloudNode), j < fuel →
      h.contains (IndexedPointCloudNode.parentNode^[j] m) = true →
      ∃ chain, collectAncestors h fuel m acc = some chain := by
  intro fuel
  induction fuel with
  | zero => intro j m acc hj; omega
  | succ f ih =>
    intro j m acc hj hpres
    by_cases hm : h.contains m = true
    · exact ⟨m :: acc, by simp [collectAncestors, hm]⟩
    · simp only [collectAncestors, hm]
      cases j with
      | zero => exact absurd hpres hm
      | succ j2 =>
        apply ih j2 m.parentNode (m :: acc) (by omega)
        simpa [Function.iterate_succ_apply] using hpres

theorem collectAncestors_more_fuel (h : QHash Int) :
    ∀ (fuel : Nat) (m : IndexedPointCloudNode) (acc chain : List IndexedPointCloudNode),
      collectAncestors h fuel m acc = some chain →
      collectAncestors h (fuel + 1) m acc = some chain := by
  intro fuel
  induction fuel with
  | zero => intro m acc chain hc; simp [collectAncestors] at hc
  | succ f ih =>
    intro m acc chain hc
    by_cases hm : h.contains m = true
    · simp only [collectAncestors, hm, if_true] at hc ⊢
      exact hc
    · simp only [collectAncestors, hm] at hc
      have := ih _ _ _ hc
      rw [collectAncestors]
      simp only [hm]
      exact this

theorem fetchNodeHierarchy_notPositive (net : RangeFetch) (n m : IndexedPointCloudNode)
    (hcover : RepliesCoverRequest net) (hnever : NeverPositiveFor net n) (fuel j : Nat)
    (s : IndexState) (hj : j < fuel)
    (hpres : s.mHierarchy.contains (IndexedPointCloudNode.parentNode^[j] m) = true)
    (hs : NotPositive s n) :
    ∃ b t, fetchNodeHierarchy net fuel s m = .returned (b, t) ∧ NotPositive t n := by
  obtain ⟨chain, hchain⟩ := collectAncestors_terminates s.mHierarchy fuel j m [] hj hpres
  simp only [fetchNodeHierarchy, hchain]
  exact resolveChain_notPositive net n m hcover hnever chain s hs

theorem childrenLoop_keeps_list (net : RangeFetch) (n : IndexedPointCloudNode)
    (hcover : RepliesCoverRequest net) (hnever : NeverPositiveFor net n) (fuel k : Nat)
    (hk : k + 1 < fuel) (hparent : ∀ i, (derivedChild n i).parentNode = n) (is : List Nat) :
    ∀ (s : IndexState) (lst : List IndexedPointCloudNode), NotPositive s n →
      s.mHierarchy.contains (IndexedPointCloudNode.parentNode^[k] n) = true →
      ∃ t, childrenLoop net fuel n (wrap32 (n.d + 1)) (wrap32 (n.x * 2)) (wrap32 (n.y * 2))
        (wrap32 (n.z * 2)) is s lst = .returned (lst, t) := by
  induction is with
  | nil =>
    intro s lst _ _
    exact ⟨s, rfl⟩
  | cons i more ih =>
    intro s lst hs hanc
    have hchild : childNode (wrap32 (n.d + 1)) (wrap32 (n.x * 2)) (wrap32 (n.y * 2))
        (wrap32 (n.z * 2)) i = derivedChild n i := rfl
    have hup : s.mHierarchy.contains
        (IndexedPointCloudNode.parentNode^[k + 1] (derivedChild n i)) = true := by
      rw [Function.iterate_succ_apply, hparent i]
      exact hanc
    obtain ⟨b, t, hf, ht⟩ := fetchNodeHierarchy_notPositive net n (derivedChild n i) hcover hnever
      fuel (k + 1) s hk hup hs
    have hanc2 : t.mHierarchy.contains (IndexedPointCloudNode.parentNode^[k] n) = true :=
      fetchNodeHierarchy_keysKept _ _ _ _ _ _ hf _ hanc
    simp only [childrenLoop, hchild, hf, Outcome.bind]
    cases b with
    | false =>
      simp only [Bool.false_eq_true, if_false]
      exact ih t lst ht hanc2
    | true =>
      simp only [if_true]
      cases hv : t.mHierarchy n with
      | some v =>
        have hle : ¬ v > 0 := by have := ht v hv; omega
        simp only [QHash.subscript_of_some _ _ _ _ hv, hle, if_false]
        exact ih t lst ht hanc2
      | none =>
        have hle : ¬ (0 : Int) > 0 := by omega
        simp only [QHash.subscript_of_none _ _ _ hv, hle, if_false]
        apply ih
        · intro c hc
          simp only [QHash.insert, if_true, Option.some.injEq] at hc
          omega
        · exact QHash.contains_insert _ _ _ _ hanc2

/-- C6 (amended). Let the pages delivered during the call hold the entries that are read from
them and no entry that gives `n` a positive point count, and let `n` have an `int32_t` depth
and coordinates in `[-2^30, 2^30)`. If after its resolution `n` has an entry with a point
count that is not positive (0 in particular), or - with `Q_ASSERT` compiled out - no entry at
all, then `nodeChildren( n )` returns the empty list. -/
theorem nodeChildren_empty (net : RangeFetch) (n : IndexedPointCloudNode)
    (hcover : RepliesCoverRequest net) (hnever : NeverPositiveFor net n)
    (hd : isInt32 n.d) (hx : fitsDoubled n.x) (hy : fitsDoubled n.y) (hz : fitsDoubled n.z)
    (assertsEnabled : Bool) (fuel : Nat) (s s1 : IndexState) (b : Bool)
    (h1 : fetchNodeHierarchy net fuel s n = .returned (b, s1))
    (hcount : NotPositive s1 n)
    (hassert : assertsEnabled = true → s1.mHierarchy.contains n = true) :
    ∃ t, nodeChildren net assertsEnabled (fuel + 1) s n = .returned ([], t) := by
  have hparent : ∀ i, (derivedChild n i).parentNode = n := fun i => by
    obtain ⟨d, x, y, z⟩ := n
    simp only at hd hx hy hz
    obtain ⟨bx, pby, bz, hbx, hby, hbz, hc⟩ :=
      childNode_bits (wrap32 (d + 1)) (wrap32 (x * 2)) (wrap32 (y * 2)) (wrap32 (z * 2)) i
    simp only [derivedChild, hc, IndexedPointCloudNode.parentNode, IndexedPointCloudNode.mk.injEq]
    exact ⟨wrap32_depth_roundtrip d hd, wrap32_child_coordinate x bx hx hbx,
      wrap32_child_coordinate y pby hy hby, wrap32_child_coordinate z bz hz hbz⟩
  have hkeys := fetchNodeHierarchy_keysKept _ _ _ _ _ _ h1
  unfold fetchNodeHierarchy at h1
  split at h1
  · cases h1
  · rename_i chain hw
    obtain ⟨k, hk, _, hpres, _⟩ := collectAncestors_some _ _ _ _ _ hw
    have hw2 := collectAncestors_more_fuel _ _ _ _ _ hw
    have hgo : ¬ ((assertsEnabled && !s1.mHierarchy.contains n) = true) := by
      cases assertsEnabled with
      | false => simp
      | true => simp [hassert rfl]
    simp only [nodeChildren, fetchNodeHierarchy, hw2, h1, Outcome.bind, hgo, if_false]
    exact childrenLoop_keeps_list net n hcover hnever (fuel + 1) k (by omega) hparent
      (List.range 8) s1 [] hcount (hkeys _ hpres)

/-- C6 (counterexample). The root has point count 0 and its child `1-0-0-0` is unresolved; the
page fetched for the child rewrites the root's entry to 7 points, and `nodeChildren( root )`
returns `[1-0-0-0]`. And for `1-0-0-0`, which has no entry after its resolution on the
single-page dataset, `nodeChildren` with assertions compiled in stops at `Q_ASSERT`. -/
theorem nodeChildren_nonempty_or_fails :
    (emptyRoot.mHierarchy rootNode = some 0 ∧
      ∃ t, nodeChildren rootAgainFetch true 2 emptyRoot rootNode =
        .returned ([⟨1, 0, 0, 0⟩], t)) ∧
    (fetchNodeHierarchy failingFetch 2 singlePage ⟨1, 0, 0, 0⟩ = .returned (false, singlePage) ∧
      singlePage.mHierarchy ⟨1, 0, 0, 0⟩ = none ∧
      nodeChildren failingFetch true 2 singlePage ⟨1, 0, 0, 0⟩ = .assertFailed) :=
  ⟨⟨rfl, _, rfl⟩, rfl, rfl, rfl⟩

/-- C6 (witness). The root without points and its unresolved child `1-0-0-0`, whose page is
delivered and resolves the child: no children are listed. -/
theorem nodeChildren_empty_witness :
    fetchNodeHierarchy childPageFetch 1 emptyRoot rootNode = .returned (true, emptyRoot) ∧
      ∃ t, nodeChildren childPageFetch true (1 + 1) emptyRoot rootNode = .returned ([], t) :=
  ⟨rfl,
    nodeChildren_empty childPageFetch rootNode
      (fun _ _ byteSize data h => by
        unfold childPageFetch at h
        split at h
        · rename_i hsz
          cases h
          subst hsz
          decide
        · cases h)
      (fun _ _ byteSize data h => by
        unfold childPageFetch at h
        split at h
        · rename_i hsz
          cases h
          subst hsz
          intro j hj hk
          have h1 : entryCount 32 = 1 := by decide
          have h0 : j = 0 := by omega
          subst h0
          exact absurd hk (by decide)
        · cases h)
      (by decide) (by decide) (by decide) (by decide) true 1 emptyRoot emptyRoot true rfl
      (fun c hc => by
        cases (show some (0 : Int) = some c from hc)
        decide)
      (fun _ => rfl)⟩

/-! ## Properties preserved by every operation -/

theorem parseEntries_stable (P : IndexState → Prop) (data : List Nat) (remaining : Nat) :
    ∀ (i : Nat) (s t : IndexState),
      (∀ u j, j < remaining → P u → P (storeEntry u (readEntry data (i + 32 * j)))) → P s →
      parseEntries data remaining i s = .returned t → P t := by
  induction remaining with
  | zero =>
    intro i s t _ hP h
    simp only [parseEntries, Outcome.returned.injEq] at h
    rw [← h]
    exact hP
  | succ r ih =>
    intro i s t hstep hP h
    simp only [parseEntries] at h
    split at h
    · apply ih (i + sizeofCopcEntry) (storeEntry s (readEntry data i)) t _ _ h
      · intro u j hj hu
        have := hstep u (j + 1) (by omega) hu
        have e : i + sizeofCopcEntry + 32 * j = i + 32 * (j + 1) := by
          unfold sizeofCopcEntry; omega
        rw [e]
        exact this
      · have := hstep s 0 (by omega) hP
        simpa using this
    · cases h

theorem fetchHierarchyPage_stable (net : RangeFetch) (P : IndexState → Prop)
    (hP : Stable net P) (s t : IndexState) (offset byteSize : Nat) (hs : P s)
    (h : fetchHierarchyPage net s offset byteSize = .returned t) : P t := by
  unfold fetchHierarchyPage at h
  cases hnet : net s.fetched offset byteSize with
  | failed =>
    rw [hnet] at h
    simp only [Outcome.returned.injEq] at h
    rw [← h]
    exact hP.2.1 s _ hs
  | content data =>
    rw [hnet] at h
    simp only at h
    apply parseEntries_stable P data (entryCount byteSize) 0 _ t _ (hP.2.1 s _ hs) h
    intro u j hj hu
    have := hP.1 u _ _ _ _ j hnet hj hu
    simpa using this

theorem resolveChain_stable (net : RangeFetch) (P : IndexState → Prop) (hP : Stable net P)
    (n : IndexedPointCloudNode) (chain : List IndexedPointCloudNode) :
    ∀ (s t : IndexState) (b : Bool), P s → resolveChain net n chain s = .returned (b, t) →
      P t := by
  induction chain with
  | nil =>
    intro s t b hs h
    simp only [resolveChain, Outcome.returned.injEq, Prod.mk.injEq] at h
    rw [← h.2]
    exact hs
  | cons a rest ih =>
    intro s t b hs h
    cases ha : s.mHierarchy a with
    | none =>
      rw [resolveChain_cons_absent net n a rest s ha] at h
      simp only [Outcome.returned.injEq, Prod.mk.injEq] at h
      rw [← h.2]
      exact hs
    | some c =>
      by_cases hc : c < 0
      · rw [resolveChain_cons_sentinel net n a rest s c ha hc] at h
        cases hf : fetchHierarchyPage net
            { s with mHierarchyNodePos := (s.mHierarchyNodePos.subscript a (0, 0)).2 }
            (recordedPage s a).1 (recordedPage s a).2 with
        | returned s2 =>
          rw [hf] at h
          exact ih s2 t b (fetchHierarchyPage_stable net P hP _ s2 _ _ (hP.2.2.1 s a hs) hf) h
        | readPastEnd => rw [hf] at h; cases h
        | assertFailed => rw [hf] at h; cases h
        | outOfFuel => rw [hf] at h; cases h
        | nullDereference => rw [hf] at h; cases h
      · rw [resolveChain_cons_resolved net n a rest s c ha (by omega)] at h
        exact ih s t b hs h

theorem fetchNodeHierarchy_stable (net : RangeFetch) (P : IndexState → Prop)
    (hP : Stable net P) (fuel : Nat) (s t : IndexState) (n : IndexedPointCloudNode) (b : Bool)
    (hs : P s) (h : fetchNodeHierarchy net fuel s n = .returned (b, t)) : P t := by
  unfold fetchNodeHierarchy at h
  split at h
  · cases h
  · exact resolveChain_stable net P hP n _ s t b hs h

theorem childrenLoop_stable (net : RangeFetch) (P : IndexState → Prop) (hP : Stable net P)
    (fuel : Nat) (n : IndexedPointCloudNode) (d x y z : Int) (is : List Nat) :
    ∀ (s t : IndexState) (lst out : List IndexedPointCloudNode), P s →
      childrenLoop net fuel n d x y z is s lst = .returned (out, t) → P t := by
  induction is with
  | nil =>
    intro s t lst out hs h
    simp only [childrenLoop, Outcome.returned.injEq, Prod.mk.injEq] at h
    rw [← h.2]
    exact hs
  | cons i more ih =>
    intro s t lst out hs h
    simp only [childrenLoop] at h
    cases hf : fetchNodeHierarchy net fuel s (childNode d x y z i) with
    | returned r =>
      obtain ⟨b, s1⟩ := r
      rw [hf] at h
      simp only [Outcome.bind] at h
      have hs1 : P s1 := fetchNodeHierarchy_stable net P hP fuel s s1 _ b hs hf
      cases b with
      | false =>
        simp only [Bool.false_eq_true, if_false] at h
        exact ih s1 t lst out hs1 h
      | true =>
        simp only [if_true] at h
        split at h
        · exact ih _ t _ out (hP.2.2.2 s1 n hs1) h
        · exact ih _ t _ out (hP.2.2.2 s1 n hs1) h
    | readPastEnd => rw [hf] at h; cases h
    | assertFailed => rw [hf] at h; cases h
    | outOfFuel => rw [hf] at h; cases h
    | nullDereference => rw [hf] at h; cases h

theorem nodeChildren_stable (net : RangeFetch) (P : IndexState → Prop) (hP : Stable net P)
    (assertsEnabled : Bool) (fuel : Nat) (s t : IndexState) (n : IndexedPointCloudNode)
    (out : List IndexedPointCloudNode) (hs : P s)
    (h : nodeChildren net assertsEnabled fuel s n = .returned (out, t)) : P t := by
  unfold nodeChildren at h
  cases hf : fetchNodeHierarchy net fuel s n with
  | returned r =>
    obtain ⟨b, s1⟩ := r
    rw [hf] at h
    simp only [Outcome.bind] at h
    have hs1 : P s1 := fetchNodeHierarchy_stable net P hP fuel s s1 _ b hs hf
    split at h
    · cases h
    · exact childrenLoop_stable net P hP fuel n _ _ _ _ _ s1 t [] out hs1 h
  | readPastEnd => rw [hf] at h; cases h
  | assertFailed => rw [hf] at h; cases h
  | outOfFuel => rw [hf] at h; cases h
  | nullDereference => rw [hf] at h; cases h

theorem asyncNodeData_stable (net : RangeFetch) (P : IndexState → Prop) (hP : Stable net P)
    (fuel : Nat) (idx idx2 : QgsRemoteCopcPointCloudIndex) (n : IndexedPointCloudNode)
    (request : QgsPointCloudRequest) (out : Option QgsCopcPointCloudBlockRequest)
    (hs : P idx.hierarchy)
    (h : QgsRemoteCopcPointCloudIndex.asyncNodeData net fuel idx n request =
      .returned (out, idx2)) : P idx2.hierarchy := by
  unfold QgsRemoteCopcPointCloudIndex.asyncNodeData at h
  cases hf : fetchNodeHierarchy net fuel idx.hierarchy n with
  | returned r =>
    obtain ⟨b, s1⟩ := r
    rw [hf] at h
    simp only [Outcome.bind] at h
    have hs1 : P s1 := fetchNodeHierarchy_stable net P hP fuel _ s1 _ b hs hf
    cases b with
    | false =>
      simp only [Bool.false_eq_true, if_false, Outcome.returned.injEq, Prod.mk.injEq] at h
      rw [← h.2]
      exact hs1
    | true =>
      simp only [if_true] at h
      split at h
      · cases h
      · simp only [Outcome.returned.injEq, Prod.mk.injEq] at h
        rw [← h.2]
        have h1 := hP.2.2.1 s1 n hs1
        exact hP.2.2.2 _ n h1
  | readPastEnd => rw [hf] at h; cases h
  | assertFailed => rw [hf] at h; cases h
  | outOfFuel => rw [hf] at h; cases h
  | nullDereference => rw [hf] at h; cases h

theorem QHash.subscript_keeps {V : Type} (m : QHash V) (a k : IndexedPointCloudNode)
    (dflt v : V) (h : m k = some v) : (m.subscript a dflt).2 k = some v := by
  unfold QHash.subscript
  cases ha : m a with
  | some w => exact h
  | none =>
    have hk : k ≠ a := fun e => by rw [e, ha] at h; cases h
    simp [QHash.insert, hk, h]

theorem stable_contains (net : RangeFetch) (k : IndexedPointCloudNode) :
    Stable net (fun s => s.mHierarchy.contains k = true) :=
  ⟨fun _ _ _ _ _ _ _ _ hs => QHash.contains_insert _ _ _ _ hs,
    fun _ _ hs => hs,
    fun _ _ hs => hs,
    fun _ _ hs => QHash.contains_subscript _ _ _ _ hs⟩

theorem stable_records (net : RangeFetch) (k : IndexedPointCloudNode) (c : Int) (p : Nat × Int)
    (hnd : NeverDelivers net k) : Stable net (fun s => Records s k c p) := by
  refine ⟨?_, fun _ _ hs => hs, ?_, ?_⟩
  · intro s history offset byteSize data j hnet hj hs
    have hk : k ≠ nodeId (readEntry data (32 * j)) :=
      fun e => hnd history offset byteSize data hnet j hj e.symm
    exact ⟨by simp [storeEntry, QHash.insert, hk, hs.1],
      by simp [storeEntry, QHash.insert, hk, hs.2]⟩
  · intro s a hs
    exact ⟨hs.1, QHash.subscript_keeps _ _ _ _ _ hs.2⟩
  · intro s a hs
    exact ⟨QHash.subscript_keeps _ _ _ _ _ hs.1, hs.2⟩

theorem childPageFetch_neverDelivers_root : NeverDelivers childPageFetch rootNode := by
  intro history offset byteSize data h
  unfold childPageFetch at h
  split at h
  · rename_i hsz
    cases h
    subst hsz
    intro j hj
    have h1 : entryCount 32 = 1 := by decide
    have h0 : j = 0 := by omega
    subst h0
    decide
  · cases h

/-! ## The table only grows; entries change only through delivered pages -/

/-- C11. The hierarchy table only grows: whatever the collaborator does, every address that is
a key of the hierarchy table before `fetchHierarchyPage`, `fetchNodeHierarchy`, `hasNode`,
`nodeChildren` or `asyncNodeData` is still a key when the operation returns. -/
theorem hierarchy_keys_only_grow (net : RangeFetch) (s : IndexState) :
    (∀ offset byteSize t, fetchHierarchyPage net s offset byteSize = .returned t →
      KeysKept s t) ∧
    (∀ fuel n b t, fetchNodeHierarchy net fuel s n = .returned (b, t) → KeysKept s t) ∧
    (∀ fuel n b t, hasNode net fuel s n = .returned (b, t) → KeysKept s t) ∧
    (∀ assertsEnabled fuel n out t,
      nodeChildren net assertsEnabled fuel s n = .returned (out, t) → KeysKept s t) ∧
    (∀ fuel (idx idx2 : QgsRemoteCopcPointCloudIndex) n request out, idx.hierarchy = s →
      QgsRemoteCopcPointCloudIndex.asyncNodeData net fuel idx n request = .returned (out, idx2) →
      KeysKept s idx2.hierarchy) := by
  refine ⟨?_, ?_, ?_, ?_, ?_⟩
  · intro offset byteSize t h k hk
    exact fetchHierarchyPage_stable net _ (stable_contains net k) s t _ _ hk h
  · intro fuel n b t h k hk
    exact fetchNodeHierarchy_stable net _ (stable_contains net k) fuel s t n b hk h
  · intro fuel n b t h k hk
    exact fetchNodeHierarchy_stable net _ (stable_contains net k) fuel s t n b hk h
  · intro assertsEnabled fuel n out t h k hk
    exact nodeChildren_stable net _ (stable_contains net k) assertsEnabled fuel s t n out hk h
  · intro fuel idx idx2 n request out hidx h k hk
    subst hidx
    exact asyncNodeData_stable net _ (stable_contains net k) fuel idx idx2 n request out hk h

/-- C11 (witness). The five operations on concrete states: the unresolved root is still a key
after its page was fetched, and the keys of `emptyRoot` are kept by `nodeChildren` and
`asyncNodeData`. -/
theorem hierarchy_keys_only_grow_witness :
    (∃ t, fetchHierarchyPage grandchildFetch pendingRoot 100 32 = .returned t ∧
      KeysKept pendingRoot t) ∧
    (∃ t, fetchNodeHierarchy grandchildFetch 3 pendingRoot ⟨2, 0, 0, 0⟩ = .returned (false, t) ∧
      KeysKept pendingRoot t) ∧
    (∃ t, hasNode grandchildFetch 1 pendingRoot rootNode = .returned (true, t) ∧
      KeysKept pendingRoot t) ∧
    (∃ t, nodeChildren childPageFetch true 2 emptyRoot rootNode = .returned ([], t) ∧
      KeysKept emptyRoot t) ∧
    (∃ out idx2, QgsRemoteCopcPointCloudIndex.asyncNodeData childPageFetch 1 emptyRootIndex
        ⟨1, 0, 0, 0⟩ ⟨[]⟩ = .returned (some out, idx2) ∧
      KeysKept emptyRoot idx2.hierarchy) :=
  ⟨⟨_, rfl, (hierarchy_keys_only_grow grandchildFetch pendingRoot).1 100 32 _ rfl⟩,
    ⟨_, rfl, (hierarchy_keys_only_grow grandchildFetch pendingRoot).2.1 3 ⟨2, 0, 0, 0⟩ false _ rfl⟩,
    ⟨_, rfl, (hierarchy_keys_only_grow grandchildFetch pendingRoot).2.2.1 1 rootNode true _ rfl⟩,
    ⟨_, rfl,
      (hierarchy_keys_only_grow childPageFetch emptyRoot).2.2.2.1 true 2 rootNode [] _ rfl⟩,
    ⟨_, _, rfl,
      (hierarchy_keys_only_grow childPageFetch emptyRoot).2.2.2.2 1 emptyRootIndex _
        ⟨1, 0, 0, 0⟩ ⟨[]⟩ _ rfl rfl⟩⟩

/-- C12 (amended). An entry recorded for `k` - its point count in the hierarchy table and its
`(offset, byteSize)` in the position side-table - is the same after `fetchHierarchyPage`,
`fetchNodeHierarchy`, `hasNode`, `nodeChildren` and `asyncNodeData` as before, provided no
page delivered by the collaborator holds an entry with the key `k`. -/
theorem entry_kept_unless_delivered (net : RangeFetch) (s : IndexState)
    (k : IndexedPointCloudNode) (c : Int) (p : Nat × Int) (hnd : NeverDelivers net k)
    (hrec : Records s k c p) :
    (∀ offset byteSize t, fetchHierarchyPage net s offset byteSize = .returned t →
      Records t k c p) ∧
    (∀ fuel n b t, fetchNodeHierarchy net fuel s n = .returned (b, t) → Records t k c p) ∧
    (∀ fuel n b t, hasNode net fuel s n = .returned (b, t) → Records t k c p) ∧
    (∀ assertsEnabled fuel n out t,
      nodeChildren net assertsEnabled fuel s n = .returned (out, t) → Records t k c p) ∧
    (∀ fuel (idx idx2 : QgsRemoteCopcPointCloudIndex) n request out, idx.hierarchy = s →
      QgsRemoteCopcPointCloudIndex.asyncNodeData net fuel idx n request = .returned (out, idx2) →
      Records idx2.hierarchy k c p) := by
  have hst := stable_records net k c p hnd
  refine ⟨?_, ?_, ?_, ?_, ?_⟩
  · intro offset byteSize t h
    exact fetchHierarchyPage_stable net _ hst s t _ _ hrec h
  · intro fuel n b t h
    exact fetchNodeHierarchy_stable net _ hst fuel s t n b hrec h
  · intro fuel n b t h
    exact fetchNodeHierarchy_stable net _ hst fuel s t n b hrec h
  · intro assertsEnabled fuel n out t h
    exact nodeChildren_stable net _ hst assertsEnabled fuel s t n out hrec h
  · intro fuel idx idx2 n request out hidx h
    subst hidx
    exact asyncNodeData_stable net _ hst fuel idx idx2 n request out hrec h

/-- C12 (counterexample). The root of the single-page dataset is resolved with 253 points at
`(1000, 2000)`; a page fetch whose page holds the key `0-0-0-0` again rewrites it to 7 points
at `(40, 8)`. The same happens through `hasNode`: resolving the unresolved child of
`emptyRoot` rewrites the root's point count from 0 to 7. -/
theorem resolved_entry_overwritten :
    (Records singlePage rootNode 253 (1000, 2000) ∧
      ∃ t, fetchHierarchyPage rootAgainFetch singlePage 500 32 = .returned t ∧
        Records t rootNode 7 (40, 8)) ∧
    (emptyRoot.mHierarchy rootNode = some 0 ∧
      ∃ t, hasNode rootAgainFetch 1 emptyRoot ⟨1, 0, 0, 0⟩ = .returned (true, t) ∧
        t.mHierarchy rootNode = some 7) :=
  ⟨⟨⟨rfl, rfl⟩, _, rfl, rfl, rfl⟩, rfl, _, rfl, rfl⟩

/-- C12 (witness). The root of `emptyRoot` keeps its entry while the page of its child is
fetched by each of the operations. -/
theorem entry_kept_unless_delivered_witness :
    (∃ t, fetchHierarchyPage childPageFetch emptyRoot 300 32 = .returned t ∧
      Records t rootNode 0 (1000, 0)) ∧
    (∃ t, fetchNodeHierarchy childPageFetch 1 emptyRoot ⟨1, 0, 0, 0⟩ = .returned (true, t) ∧
      Records t rootNode 0 (1000, 0)) ∧
    (∃ t, hasNode childPageFetch 1 emptyRoot ⟨1, 0, 0, 0⟩ = .returned (true, t) ∧
      Records t rootNode 0 (1000, 0)) ∧
    (∃ t, nodeChildren childPageFetch true 2 emptyRoot rootNode = .returned ([], t) ∧
      Records t rootNode 0 (1000, 0)) ∧
    (∃ out idx2, QgsRemoteCopcPointCloudIndex.asyncNodeData childPageFetch 1 emptyRootIndex
        ⟨1, 0, 0, 0⟩ ⟨[]⟩ = .returned (some out, idx2) ∧
      Records idx2.hierarchy rootNode 0 (1000, 0)) :=
  ⟨⟨_, rfl,
      (entry_kept_unless_delivered childPageFetch emptyRoot rootNode 0 (1000, 0)
        childPageFetch_neverDelivers_root ⟨rfl, rfl⟩).1 300 32 _ rfl⟩,
    ⟨_, rfl,
      (entry_kept_unless_delivered childPageFetch emptyRoot rootNode 0 (1000, 0)
        childPageFetch_neverDelivers_root ⟨rfl, rfl⟩).2.1 1 ⟨1, 0, 0, 0⟩ true _ rfl⟩,
    ⟨_, rfl,
      (entry_kept_unless_delivered childPageFetch emptyRoot rootNode 0 (1000, 0)
        childPageFetch_neverDelivers_root ⟨rfl, rfl⟩).2.2.1 1 ⟨1, 0, 0, 0⟩ true _ rfl⟩,
    ⟨_, rfl,
      (entry_kept_unless_delivered childPageFetch emptyRoot rootNode 0 (1000, 0)
        childPageFetch_neverDelivers_root ⟨rfl, rfl⟩).2.2.2.1 true 2 rootNode [] _ rfl⟩,
    ⟨_, _, rfl,
      (entry_kept_unless_delivered childPageFetch emptyRoot rootNode 0 (1000, 0)
        childPageFetch_neverDelivers_root ⟨rfl, rfl⟩).2.2.2.2 1 emptyRootIndex _
        ⟨1, 0, 0, 0⟩ ⟨[]⟩ _ rfl rfl⟩⟩

/-! ## Provider metadata -/

theorem value_path_decodeUri (uri : String) :
    ((decodeUri uri).value "path").toString = uri := by
  simp [decodeUri, QVariantMap.value, QVariantMap.insert, QVariant.toString]

theorem endsWithCaseInsensitive_copcLaz (uri : String) :
    endsWithCaseInsensitive uri ".copc.laz" = true ↔ EndsWithCopcLaz uri := by
  have hs : (".copc.laz".toList.map Char.toLower) =
      ['.', 'c', 'o', 'p', 'c', '.', 'l', 'a', 'z'] := by decide
  unfold endsWithCaseInsensitive EndsWithCopcLaz
  rw [hs, List.isSuffixOf_iff_suffix]
  constructor
  · rintro ⟨t, ht⟩
    obtain ⟨front, back, h1, _, h3⟩ := List.map_eq_append_iff.1 ht.symm
    exact ⟨front, back, h1, h3⟩
  · rintro ⟨front, back, h1, h2⟩
    refine ⟨front.map Char.toLower, ?_⟩
    rw [h1, List.map_append, h2]

/-- C15. URI round trip: for every uri, `decodeUri( uri )` is a map whose `"path"` value is
the uri, and `encodeUri( decodeUri( uri ) )` is the uri. -/
theorem encodeUri_decodeUri (uri : String) :
    (decodeUri uri).value "path" = .string uri ∧ encodeUri (decodeUri uri) = uri := by
  constructor
  · simp [decodeUri, QVariantMap.value, QVariantMap.insert]
  · exact value_path_decodeUri uri

/-- C16. For every uri that ends with `.copc.laz`, compared without regard to case,
`priorityForUri` is 100 and `validLayerTypesForUri` is the list with the single element
`PointCloudLayer`; for every other uri they are 0 and the empty list. -/
theorem priority_and_layerTypes (uri : String) :
    (EndsWithCopcLaz uri →
      priorityForUri uri = 100 ∧
        validLayerTypesForUri uri = [QgsMapLayerType.PointCloudLayer]) ∧
    (¬ EndsWithCopcLaz uri → priorityForUri uri = 0 ∧ validLayerTypesForUri uri = []) := by
  constructor
  · intro h
    have hb := (endsWithCaseInsensitive_copcLaz uri).2 h
    simp [priorityForUri, validLayerTypesForUri, value_path_decodeUri, hb]
  · intro h
    have hb : endsWithCaseInsensitive uri ".copc.laz" = false := by
      cases hc : endsWithCaseInsensitive uri ".copc.laz" with
      | false => rfl
      | true => exact absurd ((endsWithCaseInsensitive_copcLaz uri).1 hc) h
    simp [priorityForUri, validLayerTypesForUri, value_path_decodeUri, hb]

/-- C16 (witness). An upper-case `.COPC.LAZ` uri, and `ept.json`, which has no split with
a nine-character back part of the right form. -/
theorem priority_and_layerTypes_witness :
    (priorityForUri "/home/test/dataset.COPC.LAZ" = 100 ∧
      validLayerTypesForUri "/home/test/dataset.COPC.LAZ" = [QgsMapLayerType.PointCloudLayer]) ∧
    (priorityForUri "/home/test/ept.json" = 0 ∧ validLayerTypesForUri "/home/test/ept.json" = []) :=
  ⟨(priority_and_layerTypes "/home/test/dataset.COPC.LAZ").1
      ⟨"/home/test/dataset".toList, ".COPC.LAZ".toList, by decide, by decide⟩,
    (priority_and_layerTypes "/home/test/ept.json").2
      (fun h => by
        have hb := (endsWithCaseInsensitive_copcLaz "/home/test/ept.json").2 h
        revert hb
        decide)⟩

/-- C17. For every uri that ends with `.copc.laz`, compared without regard to case,
`querySublayers` returns exactly one sublayer, with the input uri, the provider key `copc`
and the type `PointCloudLayer`; for every other uri, the empty string among them, it returns
the empty list. -/
theorem querySublayers_result (suggest : String → String) (uri : String) :
    (EndsWithCopcLaz uri →
      ∃ details, querySublayers suggest uri = [details] ∧ details.uri = uri ∧
        details.providerKey = "copc" ∧ details.type = QgsMapLayerType.PointCloudLayer) ∧
    (¬ EndsWithCopcLaz uri → querySublayers suggest uri = []) ∧
    querySublayers suggest "" = [] := by
  refine ⟨?_, ?_, ?_⟩
  · intro h
    have hb := (endsWithCaseInsensitive_copcLaz uri).2 h
    exact ⟨⟨uri, "copc", QgsMapLayerType.PointCloudLayer, suggest uri⟩,
      by simp [querySublayers, value_path_decodeUri, hb], rfl, rfl, rfl⟩
  · intro h
    have hb : endsWithCaseInsensitive uri ".copc.laz" = false := by
      cases hc : endsWithCaseInsensitive uri ".copc.laz" with
      | false => rfl
      | true => exact absurd ((endsWithCaseInsensitive_copcLaz uri).1 hc) h
    simp [querySublayers, value_path_decodeUri, hb]
  · have hb : endsWithCaseInsensitive "" ".copc.laz" = false := by decide
    simp [querySublayers, value_path_decodeUri, hb]

/-- C17 (witness). The sublayer of a `.copc.laz` file, and no sublayer for a shapefile. -/
theorem querySublayers_result_witness :
    (∃ details, querySublayers (fun s => s) "/data/sunshine-coast.copc.laz" = [details] ∧
      details.uri = "/data/sunshine-coast.copc.laz" ∧ details.providerKey = "copc" ∧
      details.type = QgsMapLayerType.PointCloudLayer) ∧
    querySublayers (fun s => s) "/data/lines.shp" = [] :=
  ⟨(querySublayers_result (fun s => s) "/data/sunshine-coast.copc.laz").1
      ⟨"/data/sunshine-coast".toList, ".copc.laz".toList, by decide, by decide⟩,
    (querySublayers_result (fun s => s) "/data/lines.shp").2.1
      (fun h => by
        have hb := (endsWithCaseInsensitive_copcLaz "/data/lines.shp").2 h
        revert hb
        decide)⟩

/-! ## Node data of an unresolved node; validity -/

/-- C13. Let the resolution `fetchNodeHierarchy( n )` made by `asyncNodeData( n, request )`
return `b`. Then `asyncNodeData` returns the null pointer exactly when `b` is `false`; in
that case `nodeData( n, request )` returns the null pointer too, normally and without
waiting for any block request; and when `b` is `true` and the header information is loaded,
a block request is returned. -/
theorem asyncNodeData_null_iff_unresolved (net : RangeFetch)
    (finished : QgsCopcPointCloudBlockRequest → Option QgsPointCloudBlock) (fuel : Nat)
    (idx : QgsRemoteCopcPointCloudIndex) (n : IndexedPointCloudNode)
    (request : QgsPointCloudRequest) (b : Bool) (s1 : IndexState)
    (h : fetchNodeHierarchy net fuel idx.hierarchy n = .returned (b, s1)) :
    (∀ out idx2,
      QgsRemoteCopcPointCloudIndex.asyncNodeData net fuel idx n request = .returned (out, idx2) →
        (out = none ↔ b = false)) ∧
    (b = false →
      QgsRemoteCopcPointCloudIndex.asyncNodeData net fuel idx n request =
          .returned (none, { idx with hierarchy := s1 }) ∧
        QgsRemoteCopcPointCloudIndex.nodeData net finished fuel idx n request =
          .returned (⟨none, none⟩, { idx with hierarchy := s1 })) ∧
    (b = true → ∀ lazInfo, idx.mLazInfo = some lazInfo →
      ∃ blockRequest idx2,
        QgsRemoteCopcPointCloudIndex.asyncNodeData net fuel idx n request =
          .returned (some blockRequest, idx2)) := by
  refine ⟨?_, ?_, ?_⟩
  · intro out idx2 ha
    cases b with
    | false =>
      simp only [QgsRemoteCopcPointCloudIndex.asyncNodeData, h, Outcome.bind,
        Bool.false_eq_true, if_false, Outcome.returned.injEq, Prod.mk.injEq] at ha
      simp [← ha.1]
    | true =>
      simp only [QgsRemoteCopcPointCloudIndex.asyncNodeData, h, Outcome.bind, if_true] at ha
      split at ha
      · cases ha
      · simp only [Outcome.returned.injEq, Prod.mk.injEq] at ha
        simp [← ha.1]
  · intro hb
    subst hb
    have ha : QgsRemoteCopcPointCloudIndex.asyncNodeData net fuel idx n request =
        .returned (none, { idx with hierarchy := s1 }) := by
      simp [QgsRemoteCopcPointCloudIndex.asyncNodeData, h, Outcome.bind]
    exact ⟨ha, by simp [QgsRemoteCopcPointCloudIndex.nodeData, ha, Outcome.bind]⟩
  · intro hb lazInfo hl
    subst hb
    simp only [QgsRemoteCopcPointCloudIndex.asyncNodeData, h, Outcome.bind, if_true, hl]
    exact ⟨_, _, rfl⟩

/-- C13 (witness). On `emptyRootIndex` with a failing collaborator the node `2-0-0-0` does not
resolve: `asyncNodeData` and `nodeData` return the null pointer. The child `1-0-0-0` resolves
and gets a block request. -/
theorem asyncNodeData_null_iff_unresolved_witness :
    (∃ s1, fetchNodeHierarchy failingFetch 2 emptyRootIndex.hierarchy ⟨2, 0, 0, 0⟩ =
        .returned (false, s1) ∧
      QgsRemoteCopcPointCloudIndex.asyncNodeData failingFetch 2 emptyRootIndex ⟨2, 0, 0, 0⟩ ⟨[]⟩ =
        .returned (none, { emptyRootIndex with hierarchy := s1 }) ∧
      QgsRemoteCopcPointCloudIndex.nodeData failingFetch sampleFinished 2 emptyRootIndex
          ⟨2, 0, 0, 0⟩ ⟨[]⟩ =
        .returned (⟨none, none⟩, { emptyRootIndex with hierarchy := s1 })) ∧
    (∃ blockRequest idx2,
      QgsRemoteCopcPointCloudIndex.asyncNodeData failingFetch 2 emptyRootIndex ⟨1, 0, 0, 0⟩ ⟨[]⟩ =
        .returned (some blockRequest, idx2)) :=
  ⟨⟨_, rfl,
      (asyncNodeData_null_iff_unresolved failingFetch sampleFinished 2 emptyRootIndex
        ⟨2, 0, 0, 0⟩ ⟨[]⟩ false _ rfl).2.1 rfl⟩,
    (asyncNodeData_null_iff_unresolved failingFetch sampleFinished 2 emptyRootIndex
      ⟨1, 0, 0, 0⟩ ⟨[]⟩ true _ rfl).2.2 rfl _ rfl⟩

theorem loadHierarchy_isValid (net : RangeFetch) (idx idx2 : QgsRemoteCopcPointCloudIndex)
    (h : QgsRemoteCopcPointCloudIndex.loadHierarchy net idx = .returned idx2) :
    idx2.mIsValid = idx.mIsValid := by
  unfold QgsRemoteCopcPointCloudIndex.loadHierarchy at h
  split at h
  · cases h
  · rename_i lazInfo _
    cases hf : fetchHierarchyPage net idx.hierarchy lazInfo.rootHierarchyPage.1
        lazInfo.rootHierarchyPage.2 with
    | returned s =>
      rw [hf] at h
      simp only [Outcome.bind, Outcome.returned.injEq] at h
      rw [← h]
    | readPastEnd => rw [hf] at h; cases h
    | assertFailed => rw [hf] at h; cases h
    | outOfFuel => rw [hf] at h; cases h
    | nullDereference => rw [hf] at h; cases h

/-- C14 (amended). The validity flag is written by `load` alone. After a returning
`load( url )` the index is valid exactly when the header of `url` is valid and its schema
loads, whatever the state, valid or invalid, of the index before; `hasNode`, `nodeChildren`,
`asyncNodeData` and `nodeData` leave `isValid()` as it was, so an index left invalid by
`load` stays invalid until the next `load`. -/
theorem isValid_written_by_load_only (net : RangeFetch) (fromUrl : String → QgsLazInfo)
    (loadSchema : QgsLazInfo → Option QgsPointCloudAttributeCollection)
    (finished : QgsCopcPointCloudBlockRequest → Option QgsPointCloudBlock)
    (idx : QgsRemoteCopcPointCloudIndex) :
    (∀ url idx2, QgsRemoteCopcPointCloudIndex.load net fromUrl loadSchema idx url =
        .returned idx2 →
      idx2.isValid = ((fromUrl url).isValid && (loadSchema (fromUrl url)).isSome)) ∧
    (∀ fuel n b idx2, QgsRemoteCopcPointCloudIndex.hasNode net fuel idx n = .returned (b, idx2) →
      idx2.isValid = idx.isValid) ∧
    (∀ assertsEnabled fuel n out idx2,
      QgsRemoteCopcPointCloudIndex.nodeChildren net assertsEnabled fuel idx n =
        .returned (out, idx2) → idx2.isValid = idx.isValid) ∧
    (∀ fuel n request out idx2,
      QgsRemoteCopcPointCloudIndex.asyncNodeData net fuel idx n request = .returned (out, idx2) →
      idx2.isValid = idx.isValid) ∧
    (∀ fuel n request out idx2,
      QgsRemoteCopcPointCloudIndex.nodeData net finished fuel idx n request =
        .returned (out, idx2) → idx2.isValid = idx.isValid) := by
  have hasync : ∀ fuel n request out idx2,
      QgsRemoteCopcPointCloudIndex.asyncNodeData net fuel idx n request = .returned (out, idx2) →
      idx2.isValid = idx.isValid := by
    intro fuel n request out idx2 h
    unfold QgsRemoteCopcPointCloudIndex.asyncNodeData at h
    cases hf : fetchNodeHierarchy net fuel idx.hierarchy n with
    | returned r =>
      rw [hf] at h
      simp only [Outcome.bind] at h
      split at h
      · split at h
        · cases h
        · simp only [Outcome.returned.injEq, Prod.mk.injEq] at h
          rw [← h.2]
          rfl
      · simp only [Outcome.returned.injEq, Prod.mk.injEq] at h
        rw [← h.2]
        rfl
    | readPastEnd => rw [hf] at h; cases h
    | assertFailed => rw [hf] at h; cases h
    | outOfFuel => rw [hf] at h; cases h
    | nullDereference => rw [hf] at h; cases h
  refine ⟨?_, ?_, ?_, hasync, ?_⟩
  · intro url idx2 h
    unfold QgsRemoteCopcPointCloudIndex.load at h
    simp only at h
    cases hv : (fromUrl url).isValid with
    | false =>
      simp only [hv, Bool.false_eq_true, if_false, Outcome.returned.injEq] at h
      rw [← h]
      simp [QgsRemoteCopcPointCloudIndex.isValid, hv]
    | true =>
      simp only [hv, if_true] at h
      cases hl : loadSchema (fromUrl url) with
      | none =>
        rw [hl] at h
        simp only [Outcome.returned.injEq] at h
        rw [← h]
        simp [QgsRemoteCopcPointCloudIndex.isValid]
      | some attrs =>
        rw [hl] at h
        simp only at h
        have := loadHierarchy_isValid net _ idx2 h
        simp [QgsRemoteCopcPointCloudIndex.isValid, this]
  · intro fuel n b idx2 h
    unfold QgsRemoteCopcPointCloudIndex.hasNode at h
    cases hf : RemoteCopc.hasNode net fuel idx.hierarchy n with
    | returned r =>
      rw [hf] at h
      simp only [Outcome.bind, Outcome.returned.injEq, Prod.mk.injEq] at h
      rw [← h.2]
      rfl
    | readPastEnd => rw [hf] at h; cases h
    | assertFailed => rw [hf] at h; cases h
    | outOfFuel => rw [hf] at h; cases h
    | nullDereference => rw [hf] at h; cases h
  · intro assertsEnabled fuel n out idx2 h
    unfold QgsRemoteCopcPointCloudIndex.nodeChildren at h
    cases hf : RemoteCopc.nodeChildren net assertsEnabled fuel idx.hierarchy n with
    | returned r =>
      rw [hf] at h
      simp only [Outcome.bind, Outcome.returned.injEq, Prod.mk.injEq] at h
      rw [← h.2]
      rfl
    | readPastEnd => rw [hf] at h; cases h
    | assertFailed => rw [hf] at h; cases h
    | outOfFuel => rw [hf] at h; cases h
    | nullDereference => rw [hf] at h; cases h
  · intro fuel n request out idx2 h
    unfold QgsRemoteCopcPointCloudIndex.nodeData at h
    cases ha : QgsRemoteCopcPointCloudIndex.asyncNodeData net fuel idx n request with
    | returned r =>
      obtain ⟨o, idx1⟩ := r
      rw [ha] at h
      simp only [Outcome.bind] at h
      have h1 := hasync fuel n request o idx1 ha
      cases o with
      | none =>
        simp only [Outcome.returned.injEq, Prod.mk.injEq] at h
        rw [← h.2]
        exact h1
      | some blockRequest =>
        simp only [Outcome.returned.injEq, Prod.mk.injEq] at h
        rw [← h.2]
        exact h1
    | readPastEnd => rw [ha] at h; cases h
    | assertFailed => rw [ha] at h; cases h
    | outOfFuel => rw [ha] at h; cases h
    | nullDereference => rw [ha] at h; cases h

/-- C14 (counterexample). A freshly constructed index is left invalid by `load` of a URL
without a valid header; a further `load` of a URL with a valid header makes the same instance
valid. -/
theorem load_again_makes_valid :
    ∃ idx1 idx2,
      QgsRemoteCopcPointCloudIndex.load failingFetch sampleFromUrl sampleLoadSchema
        QgsRemoteCopcPointCloudIndex.constructed "http://example.org/broken" = .returned idx1 ∧
      idx1.isValid = false ∧
      QgsRemoteCopcPointCloudIndex.load failingFetch sampleFromUrl sampleLoadSchema idx1
        "http://example.org/cloud.copc.laz" = .returned idx2 ∧
      idx2.isValid = true :=
  ⟨_, _, rfl, rfl, rfl, rfl⟩

/-- C14 (witness). The index left invalid by a failed `load` is still invalid after `hasNode`
of a node of its (empty-rooted) table, and its validity after a second `load` is that of the
new URL. -/
theorem isValid_written_by_load_only_witness :
    (∃ idx2, QgsRemoteCopcPointCloudIndex.load failingFetch sampleFromUrl sampleLoadSchema
        { emptyRootIndex with mIsValid := false } "http://example.org/broken" = .returned idx2 ∧
      idx2.isValid = ((sampleFromUrl "http://example.org/broken").isValid &&
        (sampleLoadSchema (sampleFromUrl "http://example.org/broken")).isSome)) ∧
    (∃ idx2, QgsRemoteCopcPointCloudIndex.hasNode failingFetch 1
        { emptyRootIndex with mIsValid := false } rootNode = .returned (true, idx2) ∧
      idx2.isValid = false) :=
  ⟨⟨_, rfl,
      (isValid_written_by_load_only failingFetch sampleFromUrl sampleLoadSchema sampleFinished
        { emptyRootIndex with mIsValid := false }).1 "http://example.org/broken" _ rfl⟩,
    ⟨_, rfl,
      (isValid_written_by_load_only failingFetch sampleFromUrl sampleLoadSchema sampleFinished
        { emptyRootIndex with mIsValid := false }).2.1 1 rootNode true _ rfl⟩⟩

/-! ## Gaps, issued fetches and the walk without a known ancestor -/

theorem visitStep_absent (net : RangeFetch) (a : IndexedPointCloudNode) (s : IndexState)
    (h : s.mHierarchy a = none) : visitStep net a s = .returned none := by
  have hc : s.mHierarchy.contains a = false := (QHash.contains_eq_false _ _).2 h
  simp [visitStep, hc]

theorem visitStep_resolved (net : RangeFetch) (a : IndexedPointCloudNode) (s : IndexState)
    (c : Int) (h : s.mHierarchy a = some c) (hc : 0 ≤ c) :
    visitStep net a s = .returned (some s) := by
  have hp : s.mHierarchy.contains a = true := (QHash.contains_iff _ _).2 ⟨c, h⟩
  have hn : ¬ c < 0 := by omega
  simp [visitStep, hp, QHash.subscript_of_some _ _ _ _ h, hn]

theorem visitStep_sentinel (net : RangeFetch) (a : IndexedPointCloudNode) (s : IndexState)
    (c : Int) (h : s.mHierarchy a = some c) (hc : c < 0) :
    visitStep net a s =
      (fetchHierarchyPage net { s with mHierarchyNodePos := (s.mHierarchyNodePos.subscript a (0, 0)).2 }
        (recordedPage s a).1 (recordedPage s a).2).bind (fun s2 => .returned (some s2)) := by
  have hp : s.mHierarchy.contains a = true := (QHash.contains_iff _ _).2 ⟨c, h⟩
  simp [visitStep, hp, QHash.subscript_of_some _ _ _ _ h, hc, recordedPage]

theorem resolveChain_gap (net : RangeFetch) (n a : IndexedPointCloudNode) (u : IndexState)
    (hgap : u.mHierarchy a = none) (chain : List IndexedPointCloudNode) :
    ∀ s : IndexState, (a, u) ∈ visits net chain s →
      resolveChain net n chain s = .returned (false, u) := by
  induction chain with
  | nil => intro s hv; simp [visits] at hv
  | cons a0 rest ih =>
    intro s hv
    simp only [visits, List.mem_cons] at hv
    rcases hv with hv | hv
    · simp only [Prod.mk.injEq] at hv
      obtain ⟨rfl, rfl⟩ := hv
      exact resolveChain_cons_absent net n a rest u hgap
    · cases ha : s.mHierarchy a0 with
      | none =>
        rw [visitStep_absent net a0 s ha] at hv
        simp at hv
      | some c =>
        by_cases hc : c < 0
        · rw [visitStep_sentinel net a0 s c ha hc] at hv
          rw [resolveChain_cons_sentinel net n a0 rest s c ha hc]
          cases hf : fetchHierarchyPage net
              { s with mHierarchyNodePos := (s.mHierarchyNodePos.subscript a0 (0, 0)).2 }
              (recordedPage s a0).1 (recordedPage s a0).2 with
          | returned s2 =>
            rw [hf] at hv
            simp only [Outcome.bind] at hv ⊢
            exact ih s2 hv
          | readPastEnd => rw [hf] at hv; simp [Outcome.bind] at hv
          | assertFailed => rw [hf] at hv; simp [Outcome.bind] at hv
          | outOfFuel => rw [hf] at hv; simp [Outcome.bind] at hv
          | nullDereference => rw [hf] at hv; simp [Outcome.bind] at hv
        · rw [visitStep_resolved net a0 s c ha (by omega)] at hv
          rw [resolveChain_cons_resolved net n a0 rest s c ha (by omega)]
          exact ih s hv

/-- C18. An unresolved gap is never skipped: if an address of the walked chain is absent from
the hierarchy table at the moment the loop visits it, `fetchNodeHierarchy( n )` returns `false`
in the very state of that visit, so no page fetch is issued for any address after the gap. -/
theorem fetchNodeHierarchy_gap_returns_false (net : RangeFetch) (fuel : Nat) (s u : IndexState)
    (n a : IndexedPointCloudNode) (chain : List IndexedPointCloudNode)
    (hchain : collectAncestors s.mHierarchy fuel n [] = some chain)
    (hvisit : (a, u) ∈ visits net chain s) (hgap : u.mHierarchy a = none) :
    fetchNodeHierarchy net fuel s n = .returned (false, u) := by
  simp only [fetchNodeHierarchy, hchain]
  exact resolveChain_gap net n a u hgap chain s hvisit

/-- C18 (witness). The root is unresolved and its page holds only `2-0-0-0`: the chain address
`1-0-0-0` is visited after the one fetch, is absent, and the call returns `false` there. -/
theorem fetchNodeHierarchy_gap_returns_false_witness :
    ∃ u, u.fetched = [(100, 32)] ∧
      fetchNodeHierarchy grandchildFetch 3 pendingRoot ⟨2, 0, 0, 0⟩ = .returned (false, u) :=
  ⟨{ mHierarchy := (QHash.empty.insert rootNode (-1)).insert ⟨2, 0, 0, 0⟩ 5
     mHierarchyNodePos := (QHash.empty.insert rootNode (100, 32)).insert ⟨2, 0, 0, 0⟩ (7, 9)
     fetched := [(100, 32)] },
    rfl,
    fetchNodeHierarchy_gap_returns_false grandchildFetch 3 pendingRoot _ ⟨2, 0, 0, 0⟩ ⟨1, 0, 0, 0⟩
      [rootNode, ⟨1, 0, 0, 0⟩, ⟨2, 0, 0, 0⟩] rfl
      (List.mem_cons_of_mem _ (List.mem_cons_self _ _)) rfl⟩

theorem visits_length_le (net : RangeFetch) (chain : List IndexedPointCloudNode) :
    ∀ s : IndexState, (visits net chain s).length ≤ chain.length := by
  induction chain with
  | nil => intro s; simp [visits]
  | cons a rest ih =>
    intro s
    simp only [visits, List.length_cons]
    split
    · have := ih ‹IndexState›
      omega
    · simp

theorem visits_addresses (net : RangeFetch) (chain : List IndexedPointCloudNode) :
    ∀ s : IndexState, ∃ rest, (visits net chain s).map Prod.fst ++ rest = chain := by
  induction chain with
  | nil => intro s; exact ⟨[], rfl⟩
  | cons a more ih =>
    intro s
    simp only [visits, List.map_cons, List.cons_append, List.cons.injEq, true_and]
    split
    · exact ih _
    · exact ⟨more, rfl⟩

theorem sentinelPages_length_le (net : RangeFetch) (chain : List IndexedPointCloudNode)
    (s : IndexState) : (sentinelPages net chain s).length ≤ chain.length := by
  unfold sentinelPages
  rw [List.length_map]
  exact le_trans (List.length_filter_le _ _) (visits_length_le net chain s)

theorem sentinelPages_cons_absent (net : RangeFetch) (a : IndexedPointCloudNode)
    (rest : List IndexedPointCloudNode) (s : IndexState) (h : s.mHierarchy a = none) :
    sentinelPages net (a :: rest) s = [] := by
  simp [sentinelPages, visits, visitStep_absent net a s h, carriesSentinel, h]

theorem sentinelPages_cons_resolved (net : RangeFetch) (a : IndexedPointCloudNode)
    (rest : List IndexedPointCloudNode) (s : IndexState) (c : Int) (h : s.mHierarchy a = some c)
    (hc : 0 ≤ c) : sentinelPages net (a :: rest) s = sentinelPages net rest s := by
  have hn : ¬ c < 0 := by omega
  simp [sentinelPages, visits, visitStep_resolved net a s c h hc, carriesSentinel, h, hn]

theorem sentinelPages_cons_sentinel (net : RangeFetch) (a : IndexedPointCloudNode)
    (rest : List IndexedPointCloudNode) (s s2 : IndexState) (c : Int)
    (h : s.mHierarchy a = some c) (hc : c < 0)
    (hf : fetchHierarchyPage net
      { s with mHierarchyNodePos := (s.mHierarchyNodePos.subscript a (0, 0)).2 }
      (recordedPage s a).1 (recordedPage s a).2 = .returned s2) :
    sentinelPages net (a :: rest) s = recordedPage s a :: sentinelPages net rest s2 := by
  have hv : visits net (a :: rest) s = (a, s) :: visits net rest s2 := by
    simp only [visits]
    rw [visitStep_sentinel net a s c h hc, hf]
    rfl
  unfold sentinelPages
  rw [hv]
  simp [carriesSentinel, h, hc]

theorem resolveChain_fetched (net : RangeFetch) (n : IndexedPointCloudNode)
    (chain : List IndexedPointCloudNode) :
    ∀ (s t : IndexState) (b : Bool), resolveChain net n chain s = .returned (b, t) →
      t.fetched = s.fetched ++ sentinelPages net chain s := by
  induction chain with
  | nil =>
    intro s t b h
    simp only [resolveChain, Outcome.returned.injEq, Prod.mk.injEq] at h
    rw [← h.2]
    simp [sentinelPages, visits]
  | cons a rest ih =>
    intro s t b h
    cases ha : s.mHierarchy a with
    | none =>
      rw [resolveChain_cons_absent net n a rest s ha] at h
      simp only [Outcome.returned.injEq, Prod.mk.injEq] at h
      rw [← h.2, sentinelPages_cons_absent net a rest s ha]
      simp
    | some c =>
      by_cases hc : c < 0
      · rw [resolveChain_cons_sentinel net n a rest s c ha hc] at h
        cases hf : fetchHierarchyPage net
            { s with mHierarchyNodePos := (s.mHierarchyNodePos.subscript a (0, 0)).2 }
            (recordedPage s a).1 (recordedPage s a).2 with
        | returned s2 =>
          rw [hf] at h
          simp only [Outcome.bind] at h
          rw [ih s2 t b h, sentinelPages_cons_sentinel net a rest s s2 c ha hc hf,
            fetchHierarchyPage_fetched net _ s2 _ _ hf]
          simp
        | readPastEnd => rw [hf] at h; cases h
        | assertFailed => rw [hf] at h; cases h
        | outOfFuel => rw [hf] at h; cases h
        | nullDereference => rw [hf] at h; cases h
      · rw [resolveChain_cons_resolved net n a rest s c ha (by omega)] at h
        rw [ih s t b h, sentinelPages_cons_resolved net a rest s c ha (by omega)]

theorem chainUp_length (k : Nat) :
    ∀ (m : IndexedPointCloudNode) (acc : List IndexedPointCloudNode),
      (chainUp k m acc).length = k + 1 + acc.length := by
  induction k with
  | zero => intro m acc; simp [chainUp]; omega
  | succ k ih =>
    intro m acc
    simp only [chainUp, ih, List.length_cons]
    omega

theorem depth_of_ancestor (n : IndexedPointCloudNode) (hd : isInt32 n.d) (k : Nat)
    (hnn : ∀ j, j ≤ k → 0 ≤ (IndexedPointCloudNode.parentNode^[j] n).d) :
    (IndexedPointCloudNode.parentNode^[k] n).d = n.d - k := by
  induction k with
  | zero => simp
  | succ k ih =>
    have h1 := ih (fun j hj => hnn j (by omega))
    have h2 := hnn k (by omega)
    rw [Function.iterate_succ_apply']
    simp only [IndexedPointCloudNode.parentNode, h1]
    unfold isInt32 at hd
    rw [h1] at h2
    unfold wrap32
    push_cast
    omega

/-- C19 (amended). The page fetches issued by a returning `fetchNodeHierarchy( n )` are
exactly, in root-to-leaf order, the recorded `(offset, size)` pages of those addresses of the
walked chain - the nearest known ancestor, `k` parent steps above `n`, down to `n` - whose
entry carries the unresolved sentinel at the moment they are visited. The visited addresses
are an initial part of the chain, each visited once, so there are at most `k + 1` fetches; this
is at most `depth(n) + 1` when no chain address has a negative depth. -/
theorem fetchNodeHierarchy_fetches_sentinel_pages (net : RangeFetch) (fuel : Nat)
    (s t : IndexState) (n : IndexedPointCloudNode) (b : Bool)
    (h : fetchNodeHierarchy net fuel s n = .returned (b, t)) :
    ∃ k, k < fuel ∧
      (∀ j, j < k → s.mHierarchy (IndexedPointCloudNode.parentNode^[j] n) = none) ∧
      s.mHierarchy.contains (IndexedPointCloudNode.parentNode^[k] n) = true ∧
      t.fetched = s.fetched ++ sentinelPages net (chainUp k n []) s ∧
      (∃ rest, (visits net (chainUp k n []) s).map Prod.fst ++ rest = chainUp k n []) ∧
      (sentinelPages net (chainUp k n []) s).length ≤ k + 1 ∧
      (isInt32 n.d → (∀ j, j ≤ k → 0 ≤ (IndexedPointCloudNode.parentNode^[j] n).d) →
        ((sentinelPages net (chainUp k n []) s).length : Int) ≤ n.d + 1) := by
  unfold fetchNodeHierarchy at h
  split at h
  · cases h
  · rename_i chain hw
    obtain ⟨k, hk, habs, hpres, rfl⟩ := collectAncestors_some _ _ _ _ _ hw
    have hlen : (sentinelPages net (chainUp k n []) s).length ≤ k + 1 := by
      have := sentinelPages_length_le net (chainUp k n []) s
      rw [chainUp_length] at this
      simpa using this
    refine ⟨k, hk, habs, hpres, resolveChain_fetched net n _ s t b h,
      visits_addresses net _ s, hlen, ?_⟩
    intro hd hnn
    have h1 := depth_of_ancestor n hd k hnn
    have h2 := hnn k (le_refl k)
    rw [h1] at h2
    omega

/-- C19 (counterexample). The table knows only the address `(-1, 0, 0, 0)` below the root,
unresolved. Resolving the root, of depth 0, fetches the page of that address, which delivers
the root as unresolved, and then the page of the root: two fetches, more than
`depth(n) + 1 = 1`. -/
theorem fetchNodeHierarchy_more_fetches_than_depth :
    ∃ t, fetchNodeHierarchy sentinelRootThenFail 2 belowRoot rootNode = .returned (true, t) ∧
      t.fetched = [(100, 32), (200, 32)] ∧
      ¬ ((t.fetched.length : Int) ≤ rootNode.d + 1) :=
  ⟨_, rfl, rfl, by decide⟩

/-- C19 (witness). Resolving `1-0-0-0` on `emptyRoot`: the root is resolved and costs no fetch,
the child is unresolved and its recorded page `(300, 32)` is the one fetch. -/
theorem fetchNodeHierarchy_fetches_sentinel_pages_witness :
    ∃ t, fetchNodeHierarchy childPageFetch 1 emptyRoot ⟨1, 0, 0, 0⟩ = .returned (true, t) ∧
      t.fetched = [(300, 32)] ∧
      ∃ k, k < 1 ∧
        (∀ j, j < k →
          emptyRoot.mHierarchy (IndexedPointCloudNode.parentNode^[j] ⟨1, 0, 0, 0⟩) = none) ∧
        emptyRoot.mHierarchy.contains (IndexedPointCloudNode.parentNode^[k] ⟨1, 0, 0, 0⟩) = true ∧
        t.fetched = emptyRoot.fetched ++
          sentinelPages childPageFetch (chainUp k ⟨1, 0, 0, 0⟩ []) emptyRoot ∧
        (∃ rest, (visits childPageFetch (chainUp k ⟨1, 0, 0, 0⟩ []) emptyRoot).map Prod.fst ++
          rest = chainUp k ⟨1, 0, 0, 0⟩ []) ∧
        (sentinelPages childPageFetch (chainUp k ⟨1, 0, 0, 0⟩ []) emptyRoot).length ≤ k + 1 ∧
        (isInt32 (1 : Int) →
          (∀ j, j ≤ k →
            0 ≤ (IndexedPointCloudNode.parentNode^[j] (⟨1, 0, 0, 0⟩ : IndexedPointCloudNode)).d) →
          ((sentinelPages childPageFetch (chainUp k ⟨1, 0, 0, 0⟩ []) emptyRoot).length : Int) ≤
            1 + 1) :=
  ⟨_, rfl, rfl,
    fetchNodeHierarchy_fetches_sentinel_pages childPageFetch 1 emptyRoot _ ⟨1, 0, 0, 0⟩ true rfl⟩

theorem collectAncestors_none (h : QHash Int) (fuel : Nat) (m : IndexedPointCloudNode)
    (acc : List IndexedPointCloudNode)
    (habs : ∀ j, h (IndexedPointCloudNode.parentNode^[j] m) = none) :
    collectAncestors h fuel m acc = none := by
  cases hc : collectAncestors h fuel m acc with
  | none => rfl
  | some chain =>
    obtain ⟨k, _, _, hpres, _⟩ := collectAncestors_some h fuel m acc chain hc
    rw [(QHash.contains_eq_false _ _).2 (habs k)] at hpres
    cases hpres

/-- C20 (the code at the failing input). When neither `n` nor any address reached from `n` by
`parentNode()` is a key of the hierarchy table - the empty table in particular - the loop
`while ( !mHierarchy.contains( foundRoot ) )` of `fetchNodeHierarchy( n )` is not left within
any number of steps: the call does not return `false`, it does not return. -/
theorem fetchNodeHierarchy_without_ancestor (net : RangeFetch) (fuel : Nat) (s : IndexState)
    (n : IndexedPointCloudNode)
    (habs : ∀ j, s.mHierarchy (IndexedPointCloudNode.parentNode^[j] n) = none) :
    fetchNodeHierarchy net fuel s n = .outOfFuel := by
  simp only [fetchNodeHierarchy, collectAncestors_none s.mHierarchy fuel n [] habs]

/-- C20 (witness). `fetchNodeHierarchy( 0-0-0-0 )` on the freshly constructed index, whose
table is empty, with a budget of a million steps. -/
theorem fetchNodeHierarchy_without_ancestor_witness :
    fetchNodeHierarchy failingFetch 1000000 QgsRemoteCopcPointCloudIndex.constructed.hierarchy
      rootNode = .outOfFuel :=
  fetchNodeHierarchy_without_ancestor failingFetch 1000000
    QgsRemoteCopcPointCloudIndex.constructed.hierarchy rootNode (fun _ => rfl)

/-! ## Decoding of a well-formed page -/

theorem take_succ_drop (l : List Nat) (a n : Nat) (h : a < l.length) :
    (l.drop a).take (n + 1) = byteAt l a :: (l.drop (a + 1)).take n := by
  rw [List.drop_eq_getElem_cons h, List.take_succ_cons, byteAt, List.getD_eq_getElem _ _ h]

theorem byteAt_lt (data : List Nat) (hbytes : ∀ b, b ∈ data → b < 256) (p : Nat)
    (h : p < data.length) : byteAt data p < 256 := by
  rw [byteAt, List.getD_eq_getElem _ _ h]
  exact hbytes _ (List.getElem_mem h)

theorem readUnsigned_four (data : List Nat) (hbytes : ∀ b, b ∈ data → b < 256) (p : Nat)
    (h : p + 4 ≤ data.length) : readUnsigned data p 4 = specUInt32 data p := by
  have b0 := byteAt_lt data hbytes p (by omega)
  have b1 := byteAt_lt data hbytes (p + 1) (by omega)
  have b2 := byteAt_lt data hbytes (p + 2) (by omega)
  have b3 := byteAt_lt data hbytes (p + 3) (by omega)
  unfold readUnsigned specUInt32
  rw [take_succ_drop data p 3 (by omega), take_succ_drop data (p + 1) 2 (by omega),
    take_succ_drop data (p + 2) 1 (by omega), take_succ_drop data (p + 3) 0 (by omega)]
  simp only [List.take_zero, leValue, Nat.mod_eq_of_lt b0, Nat.mod_eq_of_lt b1,
    Nat.mod_eq_of_lt b2, Nat.mod_eq_of_lt b3]
  omega

theorem specUInt32_lt (data : List Nat) (hbytes : ∀ b, b ∈ data → b < 256) (p : Nat)
    (h : p + 4 ≤ data.length) : specUInt32 data p < 4294967296 := by
  have b0 := byteAt_lt data hbytes p (by omega)
  have b1 := byteAt_lt data hbytes (p + 1) (by omega)
  have b2 := byteAt_lt data hbytes (p + 2) (by omega)
  have b3 := byteAt_lt data hbytes (p + 3) (by omega)
  unfold specUInt32
  omega

theorem readInt32_eq_spec (data : List Nat) (hbytes : ∀ b, b ∈ data → b < 256) (p : Nat)
    (h : p + 4 ≤ data.length) : readInt32 data p = specInt32 data p := by
  have hlt := specUInt32_lt data hbytes p h
  unfold readInt32 specInt32 wrap32
  rw [readUnsigned_four data hbytes p h]
  split <;> omega

theorem readUnsigned_eight (data : List Nat) (hbytes : ∀ b, b ∈ data → b < 256) (p : Nat)
    (h : p + 8 ≤ data.length) : readUnsigned data p 8 = specUInt64 data p := by
  have b0 := byteAt_lt data hbytes p (by omega)
  have b1 := byteAt_lt data hbytes (p + 1) (by omega)
  have b2 := byteAt_lt data hbytes (p + 2) (by omega)
  have b3 := byteAt_lt data hbytes (p + 3) (by omega)
  have b4 := byteAt_lt data hbytes (p + 4) (by omega)
  have b5 := byteAt_lt data hbytes (p + 5) (by omega)
  have b6 := byteAt_lt data hbytes (p + 6) (by omega)
  have b7 := byteAt_lt data hbytes (p + 7) (by omega)
  unfold readUnsigned specUInt64 specUInt32
  rw [take_succ_drop data p 7 (by omega), take_succ_drop data (p + 1) 6 (by omega),
    take_succ_drop data (p + 2) 5 (by omega), take_succ_drop data (p + 3) 4 (by omega),
    take_succ_drop data (p + 4) 3 (by omega), take_succ_drop data (p + 5) 2 (by omega),
    take_succ_drop data (p + 6) 1 (by omega), take_succ_drop data (p + 7) 0 (by omega)]
  simp only [List.take_zero, leValue, Nat.mod_eq_of_lt b0, Nat.mod_eq_of_lt b1,
    Nat.mod_eq_of_lt b2, Nat.mod_eq_of_lt b3, Nat.mod_eq_of_lt b4, Nat.mod_eq_of_lt b5,
    Nat.mod_eq_of_lt b6, Nat.mod_eq_of_lt b7]
  rw [show p + 4 + 1 = p + 5 from rfl, show p + 4 + 2 = p + 6 from rfl,
    show p + 4 + 3 = p + 7 from rfl]
  omega

theorem readEntry_eq_specEntry (data : List Nat) (hbytes : ∀ b, b ∈ data → b < 256) (i : Nat)
    (h : 32 * i + 32 ≤ data.length) : readEntry data (32 * i) = specEntry data i := by
  unfold readEntry specEntry
  rw [readInt32_eq_spec data hbytes (32 * i) (by omega),
    readInt32_eq_spec data hbytes (32 * i + 4) (by omega),
    readInt32_eq_spec data hbytes (32 * i + 8) (by omega),
    readInt32_eq_spec data hbytes (32 * i + 12) (by omega),
    readUnsigned_eight data hbytes (32 * i + 16) (by omega),
    readInt32_eq_spec data hbytes (32 * i + 24) (by omega),
    readInt32_eq_spec data hbytes (32 * i + 28) (by omega)]

theorem parseEntries_eq_foldl (data : List Nat) (remaining : Nat) :
    ∀ (i : Nat) (s : IndexState), i + 32 * remaining ≤ data.length →
      parseEntries data remaining i s =
        .returned
          (((List.range remaining).map (fun j => readEntry data (i + 32 * j))).foldl storeEntry
            s) := by
  induction remaining with
  | zero => intro i s _; rfl
  | succ r ih =>
    intro i s hlen
    have hin : i + sizeofCopcEntry ≤ data.length := by unfold sizeofCopcEntry; omega
    simp only [parseEntries, hin, if_true]
    rw [ih (i + sizeofCopcEntry) _ (by unfold sizeofCopcEntry; omega), List.range_succ_eq_map,
      List.map_cons, List.foldl_cons, List.map_map]
    have e : (fun j => readEntry data (i + sizeofCopcEntry + 32 * j)) =
        (fun j => readEntry data (i + 32 * j)) ∘ Nat.succ := by
      funext j
      simp only [Function.comp, sizeofCopcEntry]
      congr 1
      omega
    rw [e]
    rfl

theorem foldl_storeEntry_lookup (es : List CopcEntry) (k : IndexedPointCloudNode) :
    ∀ s : IndexState,
      (∀ e, lastWithKey es k = some e →
        (es.foldl storeEntry s).mHierarchy k = some e.pointCount ∧
          (es.foldl storeEntry s).mHierarchyNodePos k = some (e.offset, e.byteSize)) ∧
      (lastWithKey es k = none →
        (es.foldl storeEntry s).mHierarchy k = s.mHierarchy k ∧
          (es.foldl storeEntry s).mHierarchyNodePos k = s.mHierarchyNodePos k) := by
  induction es with
  | nil =>
    intro s
    exact ⟨fun e h => by simp [lastWithKey] at h, fun _ => ⟨rfl, rfl⟩⟩
  | cons e0 rest ih =>
    intro s
    have ih2 := ih (storeEntry s e0)
    have hsplit : lastWithKey (e0 :: rest) k =
        (lastWithKey rest k).or (if nodeId e0 = k then some e0 else none) := by
      unfold lastWithKey
      rw [List.reverse_cons, List.find?_append]
      congr 1
      by_cases hk : nodeId e0 = k <;> simp [List.find?_cons, hk]
    rw [hsplit, List.foldl_cons]
    cases hl : lastWithKey rest k with
    | some e1 =>
      refine ⟨?_, fun h => by simp at h⟩
      intro e he
      simp only [Option.or] at he
      cases he
      exact ih2.1 e1 hl
    | none =>
      have h3 := ih2.2 hl
      by_cases hk : nodeId e0 = k
      · refine ⟨?_, fun h => by simp [hk] at h⟩
        intro e he
        simp only [hk, if_true, Option.or, Option.some.injEq] at he
        subst he
        rw [h3.1, h3.2]
        simp [storeEntry, QHash.insert, hk]
      · refine ⟨fun e he => by simp [hk] at he, fun _ => ?_⟩
        have hk2 : k ≠ nodeId e0 := fun e => hk e.symm
        rw [h3.1, h3.2]
        simp [storeEntry, QHash.insert, hk2]

/-- C21. For a successful page fetch with a requested `byteSize` that is a multiple of 32 and a
reply of exactly `byteSize` bytes, `fetchHierarchyPage` returns, having logged the request;
what it has read are the `byteSize/32` entries of the page, entry `i` from the bytes
`[32i, 32i+32)` as little-endian `level:i32, x:i32, y:i32, z:i32, offset:u64, byteSize:i32,
pointCount:i32`; afterwards every voxel key of the page is mapped by the hierarchy table to
the point count, and by the position side-table to the `(offset, byteSize)`, of the last
entry with that key, and every key not in the page has in both tables what it had before. -/
theorem fetchHierarchyPage_decodes_page (net : RangeFetch) (s : IndexState)
    (offset byteSize : Nat) (data : List Nat)
    (hnet : net s.fetched offset byteSize = .content data) (hmult : byteSize % 32 = 0)
    (hlen : data.length = byteSize) (hbytes : ∀ b, b ∈ data → b < 256) :
    ∃ t, fetchHierarchyPage net s offset byteSize = .returned t ∧
      t.fetched = s.fetched ++ [(offset, byteSize)] ∧
      (specEntries data byteSize).length = byteSize / 32 ∧
      ∀ k,
        (∀ e, lastWithKey (specEntries data byteSize) k = some e →
          t.mHierarchy k = some e.pointCount ∧
            t.mHierarchyNodePos k = some (e.offset, e.byteSize)) ∧
        (lastWithKey (specEntries data byteSize) k = none →
          t.mHierarchy k = s.mHierarchy k ∧ t.mHierarchyNodePos k = s.mHierarchyNodePos k) := by
  have hcount : entryCount byteSize = byteSize / 32 := by unfold entryCount; omega
  have hfit : 0 + 32 * (byteSize / 32) ≤ data.length := by omega
  have hentries : (List.range (byteSize / 32)).map (fun j => readEntry data (0 + 32 * j)) =
      specEntries data byteSize := by
    unfold specEntries
    apply List.map_congr_left
    intro j hj
    rw [Nat.zero_add]
    have hj2 : j < byteSize / 32 := List.mem_range.1 hj
    exact readEntry_eq_specEntry data hbytes j (by omega)
  have hrun : fetchHierarchyPage net s offset byteSize =
      .returned ((specEntries data byteSize).foldl storeEntry
        { s with fetched := s.fetched ++ [(offset, byteSize)] }) := by
    simp only [fetchHierarchyPage, hnet, hcount]
    rw [parseEntries_eq_foldl data (byteSize / 32) 0 _ hfit, hentries]
  refine ⟨_, hrun, ?_, by simp [specEntries], ?_⟩
  · exact fetchHierarchyPage_fetched net s _ offset byteSize hrun
  · intro k
    exact foldl_storeEntry_lookup (specEntries data byteSize) k
      { s with fetched := s.fetched ++ [(offset, byteSize)] }

/-- C21 (witness). The 64-byte page `lateParentPage`, requested with `byteSize = 64`: its two
entries are `1-0-0-0` and `2-1-0-0`. -/
theorem fetchHierarchyPage_decodes_page_witness :
    specEntries lateParentPage 64 = [⟨⟨1, 0, 0, 0⟩, 40, 8, 9⟩, ⟨⟨2, 1, 0, 0⟩, 48, 8, 3⟩] ∧
    ∃ t, fetchHierarchyPage twoEntryFetch pendingRoot 100 64 = .returned t ∧
      t.fetched = pendingRoot.fetched ++ [(100, 64)] ∧
      (specEntries lateParentPage 64).length = 64 / 32 ∧
      ∀ k,
        (∀ e, lastWithKey (specEntries lateParentPage 64) k = some e →
          t.mHierarchy k = some e.pointCount ∧
            t.mHierarchyNodePos k = some (e.offset, e.byteSize)) ∧
        (lastWithKey (specEntries lateParentPage 64) k = none →
          t.mHierarchy k = pendingRoot.mHierarchy k ∧
            t.mHierarchyNodePos k = pendingRoot.mHierarchyNodePos k) :=
  ⟨by decide,
    fetchHierarchyPage_decodes_page twoEntryFetch pendingRoot 100 64 lateParentPage rfl
      (by decide) rfl (by decide)⟩

/-! ## The block request of a resolved node -/

theorem fetchNodeHierarchy_true_contains (net : RangeFetch) (fuel : Nat) (s t : IndexState)
    (n : IndexedPointCloudNode) (h : fetchNodeHierarchy net fuel s n = .returned (true, t)) :
    t.mHierarchy.contains n = true := by
  unfold fetchNodeHierarchy at h
  split at h
  · cases h
  · exact ((resolveChain_true_iff net n _ s t true h).1 rfl).2

theorem QHash.subscript_snd_self {V : Type} (m : QHash V) (k : IndexedPointCloudNode)
    (dflt : V) : (m.subscript k dflt).2 k = some (m.subscript k dflt).1 := by
  unfold QHash.subscript
  cases hk : m k with
  | some v => simpa using hk
  | none => simp [QHash.insert]

theorem QHash.subscript_fst_of_some {V : Type} (m : QHash V) (k : IndexedPointCloudNode)
    (dflt v : V) (h : m k = some v) : (m.subscript k dflt).1 = v := by
  rw [QHash.subscript_of_some m k dflt v h]

/-- C22. For every node `n` that resolves, on an index whose header information is loaded,
`asyncNodeData( n, request )` returns a block request that carries the node address `n`, the
index URL, the point count that the hierarchy table records for `n` after the resolution and
the `(offset, byteSize)` that the position side-table records for `n`; these are also what
the two tables record for `n` when the call returns. -/
theorem asyncNodeData_request_fields (net : RangeFetch) (fuel : Nat)
    (idx : QgsRemoteCopcPointCloudIndex) (n : IndexedPointCloudNode)
    (request : QgsPointCloudRequest) (s1 : IndexState) (lazInfo : QgsLazInfo)
    (h : fetchNodeHierarchy net fuel idx.hierarchy n = .returned (true, s1))
    (hl : idx.mLazInfo = some lazInfo) :
    ∃ blockRequest idx2,
      QgsRemoteCopcPointCloudIndex.asyncNodeData net fuel idx n request =
        .returned (some blockRequest, idx2) ∧
      blockRequest.node = n ∧ blockRequest.uri = idx.mUrl ∧
      s1.mHierarchy n = some blockRequest.pointCount ∧
      (∀ p, s1.mHierarchyNodePos n = some p →
        (blockRequest.blockOffset, blockRequest.blockSize) = p) ∧
      idx2.hierarchy.mHierarchy n = some blockRequest.pointCount ∧
      idx2.hierarchy.mHierarchyNodePos n =
        some (blockRequest.blockOffset, blockRequest.blockSize) := by
  obtain ⟨c, hc⟩ := (QHash.contains_iff _ _).1 (fetchNodeHierarchy_true_contains net fuel _ s1 n h)
  simp only [QgsRemoteCopcPointCloudIndex.asyncNodeData, h, Outcome.bind, if_true, hl]
  refine ⟨_, _, rfl, rfl, rfl, ?_, ?_, ?_, ?_⟩
  · simp only [QHash.subscript_fst_of_some _ _ _ _ hc, hc]
  · intro p hp
    simp only [QHash.subscript_fst_of_some _ _ _ _ hp]
  · exact QHash.subscript_snd_self _ _ _
  · exact QHash.subscript_snd_self _ _ _

/-- C22 (witness). The child `1-0-0-0` of `emptyRootIndex`, resolved by fetching its page,
which records 5 points at `(40, 8)` for it. -/
theorem asyncNodeData_request_fields_witness :
    ∃ s1, fetchNodeHierarchy childPageFetch 1 emptyRootIndex.hierarchy ⟨1, 0, 0, 0⟩ =
        .returned (true, s1) ∧
      s1.mHierarchy ⟨1, 0, 0, 0⟩ = some 5 ∧ s1.mHierarchyNodePos ⟨1, 0, 0, 0⟩ = some (40, 8) ∧
      ∃ blockRequest idx2,
        QgsRemoteCopcPointCloudIndex.asyncNodeData childPageFetch 1 emptyRootIndex ⟨1, 0, 0, 0⟩
          ⟨[]⟩ = .returned (some blockRequest, idx2) ∧
        blockRequest.node = ⟨1, 0, 0, 0⟩ ∧ blockRequest.uri = emptyRootIndex.mUrl ∧
        s1.mHierarchy ⟨1, 0, 0, 0⟩ = some blockRequest.pointCount ∧
        (∀ p, s1.mHierarchyNodePos ⟨1, 0, 0, 0⟩ = some p →
          (blockRequest.blockOffset, blockRequest.blockSize) = p) ∧
        idx2.hierarchy.mHierarchy ⟨1, 0, 0, 0⟩ = some blockRequest.pointCount ∧
        idx2.hierarchy.mHierarchyNodePos ⟨1, 0, 0, 0⟩ =
          some (blockRequest.blockOffset, blockRequest.blockSize) :=
  ⟨_, rfl, rfl, rfl,
    asyncNodeData_request_fields childPageFetch 1 emptyRootIndex ⟨1, 0, 0, 0⟩ ⟨[]⟩ _
      ⟨true, "", (900, 64)⟩ rfl rfl⟩

/-! ## The requested attributes of a block request -/

theorem extend_cons (self other : QgsPointCloudAttributeCollection) (nm : String)
    (rest : List String) :
    QgsPointCloudAttributeCollection.extend self other (nm :: rest) =
      QgsPointCloudAttributeCollection.extend
        (if self.any (fun a => a.name == nm) then self
          else
            match other.find? (fun a => a.name == nm) with
            | some attr => self ++ [attr]
            | none => self)
        other rest := rfl

theorem extend_keeps (other : QgsPointCloudAttributeCollection) (names : List String) :
    ∀ (self : QgsPointCloudAttributeCollection) (a : QgsPointCloudAttribute), a ∈ self →
      a ∈ QgsPointCloudAttributeCollection.extend self other names := by
  induction names with
  | nil => intro self a h; exact h
  | cons nm rest ih =>
    intro self a h
    rw [extend_cons]
    apply ih
    split
    · exact h
    · split
      · exact List.mem_append_left _ h
      · exact h

theorem extend_has_name (other : QgsPointCloudAttributeCollection) (names : List String)
    (name : String) (a : QgsPointCloudAttribute) (ha : a ∈ other) (hname : a.name = name) :
    ∀ self : QgsPointCloudAttributeCollection, name ∈ names →
      ∃ a2, a2 ∈ QgsPointCloudAttributeCollection.extend self other names ∧ a2.name = name := by
  induction names with
  | nil => intro self h; simp at h
  | cons nm rest ih =>
    intro self h
    rw [extend_cons]
    by_cases hnm : name ∈ rest
    · exact ih _ hnm
    · have he : name = nm := by
        rcases List.mem_cons.1 h with h1 | h1
        · exact h1
        · exact absurd h1 hnm
      subst he
      by_cases hany : self.any (fun b => b.name == name) = true
      · simp only [hany, if_true]
        obtain ⟨b, hb, hbn⟩ := List.any_eq_true.1 hany
        exact ⟨b, extend_keeps other rest self b hb, by simpa using hbn⟩
      · simp only [hany, Bool.false_eq_true, if_false]
        cases hf : other.find? (fun b => b.name == name) with
        | none =>
          have := List.find?_eq_none.1 hf a ha
          simp [hname] at this
        | some attr =>
          have hattr := List.find?_some hf
          exact ⟨attr, extend_keeps other rest _ attr (by simp), by simpa using hattr⟩

theorem extend_adds_found (other : QgsPointCloudAttributeCollection) (names : List String)
    (name : String) (a : QgsPointCloudAttribute)
    (hfind : other.find? (fun b => b.name == name) = some a) :
    ∀ self : QgsPointCloudAttributeCollection, name ∈ names →
      (∀ r, r ∈ self → r.name ≠ name) →
      a ∈ QgsPointCloudAttributeCollection.extend self other names := by
  induction names with
  | nil => intro self h; simp at h
  | cons nm rest ih =>
    intro self h hnone
    rw [extend_cons]
    by_cases he : nm = name
    · subst he
      have hany : ¬ (self.any (fun b => b.name == nm) = true) := by
        intro hany
        obtain ⟨b, hb, hbn⟩ := List.any_eq_true.1 hany
        exact hnone b hb (by simpa using hbn)
      simp only [hany, if_false, hfind]
      exact extend_keeps other rest _ a (by simp)
    · have hrest : name ∈ rest := by
        rcases List.mem_cons.1 h with h1 | h1
        · exact absurd h1.symm he
        · exact h1
      apply ih _ hrest
      intro r hr
      split at hr
      · exact hnone r hr
      · split at hr
        · rename_i attr hf
          rcases List.mem_append.1 hr with h1 | h1
          · exact hnone r h1
          · have hattr := List.find?_some hf
            have : r = attr := by simpa using h1
            subst this
            intro hrn
            apply he
            rw [← hrn]
            have hattr2 : r.name = nm := by simpa using hattr
            exact hattr2.symm
        · exact hnone r hr

/-- C23. For every node `n` that resolves, every request and every filter expression, on an
index whose header information is loaded, the requested attributes of the block request that
`asyncNodeData` builds contain every attribute of the caller's request and, for every dataset
attribute whose name the filter expression references, an attribute of that name; when the
caller requested no attribute of that name, it is the dataset attribute of that name
itself. -/
theorem asyncNodeData_requestedAttributes (net : RangeFetch) (fuel : Nat)
    (idx : QgsRemoteCopcPointCloudIndex) (n : IndexedPointCloudNode)
    (request : QgsPointCloudRequest) (s1 : IndexState) (lazInfo : QgsLazInfo)
    (h : fetchNodeHierarchy net fuel idx.hierarchy n = .returned (true, s1))
    (hl : idx.mLazInfo = some lazInfo) :
    ∃ blockRequest idx2,
      QgsRemoteCopcPointCloudIndex.asyncNodeData net fuel idx n request =
        .returned (some blockRequest, idx2) ∧
      (∀ a, a ∈ request.attributes → a ∈ blockRequest.requestedAttributes) ∧
      (∀ a, a ∈ idx.mAttributes → a.name ∈ idx.mFilterExpression.referencedAttributes →
        ∃ a2, a2 ∈ blockRequest.requestedAttributes ∧ a2.name = a.name) ∧
      (∀ a name, name ∈ idx.mFilterExpression.referencedAttributes →
        idx.mAttributes.find? (fun b => b.name == name) = some a →
        (∀ r, r ∈ request.attributes → r.name ≠ name) →
        a ∈ blockRequest.requestedAttributes) := by
  simp only [QgsRemoteCopcPointCloudIndex.asyncNodeData, h, Outcome.bind, if_true, hl]
  refine ⟨_, _, rfl, ?_, ?_, ?_⟩
  · intro a ha
    exact extend_keeps _ _ _ a ha
  · intro a ha hname
    exact extend_has_name _ _ a.name a ha rfl _ hname
  · intro a name hname hfind hnone
    exact extend_adds_found _ _ name a hfind _ hname hnone

/-- C23 (witness). The caller asks for `X` only and the filter of `emptyRootIndex` references
`Intensity`: the block request for `1-0-0-0` asks for `X` and `Intensity`. -/
theorem asyncNodeData_requestedAttributes_witness :
    (∃ blockRequest idx2,
      QgsRemoteCopcPointCloudIndex.asyncNodeData childPageFetch 1 emptyRootIndex ⟨1, 0, 0, 0⟩
        ⟨[⟨"X", 0⟩]⟩ = .returned (some blockRequest, idx2) ∧
      blockRequest.requestedAttributes = [⟨"X", 0⟩, ⟨"Intensity", 1⟩]) ∧
    ∃ blockRequest idx2,
      QgsRemoteCopcPointCloudIndex.asyncNodeData childPageFetch 1 emptyRootIndex ⟨1, 0, 0, 0⟩
        ⟨[⟨"X", 0⟩]⟩ = .returned (some blockRequest, idx2) ∧
      (∀ a, a ∈ (⟨[⟨"X", 0⟩]⟩ : QgsPointCloudRequest).attributes →
        a ∈ blockRequest.requestedAttributes) ∧
      (∀ a, a ∈ emptyRootIndex.mAttributes →
        a.name ∈ emptyRootIndex.mFilterExpression.referencedAttributes →
        ∃ a2, a2 ∈ blockRequest.requestedAttributes ∧ a2.name = a.name) ∧
      (∀ a name, name ∈ emptyRootIndex.mFilterExpression.referencedAttributes →
        emptyRootIndex.mAttributes.find? (fun b => b.name == name) = some a →
        (∀ r, r ∈ (⟨[⟨"X", 0⟩]⟩ : QgsPointCloudRequest).attributes → r.name ≠ name) →
        a ∈ blockRequest.requestedAttributes) :=
  ⟨⟨_, _, rfl, by decide⟩,
    asyncNodeData_requestedAttributes childPageFetch 1 emptyRootIndex ⟨1, 0, 0, 0⟩ ⟨[⟨"X", 0⟩]⟩ _
      ⟨true, "", (900, 64)⟩ rfl rfl⟩

/-! ## Consistency of the hierarchy table and the position side-table -/

theorem fetchHierarchyPage_core (net : RangeFetch) (P : IndexState → Prop)
    (hP : StableCore net P) (s t : IndexState) (offset byteSize : Nat) (hs : P s)
    (h : fetchHierarchyPage net s offset byteSize = .returned t) : P t := by
  unfold fetchHierarchyPage at h
  cases hnet : net s.fetched offset byteSize with
  | failed =>
    rw [hnet] at h
    simp only [Outcome.returned.injEq] at h
    rw [← h]
    exact hP.2.1 s _ hs
  | content data =>
    rw [hnet] at h
    simp only at h
    apply parseEntries_stable P data (entryCount byteSize) 0 _ t _ (hP.2.1 s _ hs) h
    intro u j hj hu
    have := hP.1 u _ _ _ _ j hnet hj hu
    simpa using this

theorem visitStep_core (net : RangeFetch) (P : IndexState → Prop) (hP : StableCore net P)
    (a : IndexedPointCloudNode) (s s2 : IndexState) (hs : P s)
    (h : visitStep net a s = .returned (some s2)) : P s2 := by
  cases ha : s.mHierarchy a with
  | none =>
    rw [visitStep_absent net a s ha] at h
    cases h
  | some c =>
    by_cases hc : c < 0
    · rw [visitStep_sentinel net a s c ha hc] at h
      cases hf : fetchHierarchyPage net
          { s with mHierarchyNodePos := (s.mHierarchyNodePos.subscript a (0, 0)).2 }
          (recordedPage s a).1 (recordedPage s a).2 with
      | returned s3 =>
        rw [hf] at h
        simp only [Outcome.bind, Outcome.returned.injEq, Option.some.injEq] at h
        rw [← h]
        exact fetchHierarchyPage_core net P hP _ s3 _ _ (hP.2.2 s a hs) hf
      | readPastEnd => rw [hf] at h; cases h
      | assertFailed => rw [hf] at h; cases h
      | outOfFuel => rw [hf] at h; cases h
      | nullDereference => rw [hf] at h; cases h
    · rw [visitStep_resolved net a s c ha (by omega)] at h
      simp only [Outcome.returned.injEq, Option.some.injEq] at h
      rw [← h]
      exact hs

theorem visits_core (net : RangeFetch) (P : IndexState → Prop) (hP : StableCore net P)
    (chain : List IndexedPointCloudNode) :
    ∀ (s : IndexState), P s → ∀ a u, (a, u) ∈ visits net chain s → P u := by
  induction chain with
  | nil => intro s _ a u h; simp [visits] at h
  | cons a0 rest ih =>
    intro s hs a u h
    simp only [visits, List.mem_cons] at h
    rcases h with h | h
    · simp only [Prod.mk.injEq] at h
      rw [h.2]
      exact hs
    · split at h
      · rename_i s2 hstep
        exact ih s2 (visitStep_core net P hP a0 s s2 hs hstep) a u h
      · simp at h

theorem resolveChain_core (net : RangeFetch) (P : IndexState → Prop) (hP : StableCore net P)
    (n : IndexedPointCloudNode) (chain : List IndexedPointCloudNode) :
    ∀ (s t : IndexState) (b : Bool), P s → resolveChain net n chain s = .returned (b, t) →
      P t := by
  induction chain with
  | nil =>
    intro s t b hs h
    simp only [resolveChain, Outcome.returned.injEq, Prod.mk.injEq] at h
    rw [← h.2]
    exact hs
  | cons a rest ih =>
    intro s t b hs h
    cases ha : s.mHierarchy a with
    | none =>
      rw [resolveChain_cons_absent net n a rest s ha] at h
      simp only [Outcome.returned.injEq, Prod.mk.injEq] at h
      rw [← h.2]
      exact hs
    | some c =>
      by_cases hc : c < 0
      · rw [resolveChain_cons_sentinel net n a rest s c ha hc] at h
        cases hf : fetchHierarchyPage net
            { s with mHierarchyNodePos := (s.mHierarchyNodePos.subscript a (0, 0)).2 }
            (recordedPage s a).1 (recordedPage s a).2 with
        | returned s2 =>
          rw [hf] at h
          exact ih s2 t b (fetchHierarchyPage_core net P hP _ s2 _ _ (hP.2.2 s a hs) hf) h
        | readPastEnd => rw [hf] at h; cases h
        | assertFailed => rw [hf] at h; cases h
        | outOfFuel => rw [hf] at h; cases h
        | nullDereference => rw [hf] at h; cases h
      · rw [resolveChain_cons_resolved net n a rest s c ha (by omega)] at h
        exact ih s t b hs h

theorem fetchNodeHierarchy_core (net : RangeFetch) (P : IndexState → Prop)
    (hP : StableCore net P) (fuel : Nat) (s t : IndexState) (n : IndexedPointCloudNode) (b : Bool)
    (hs : P s) (h : fetchNodeHierarchy net fuel s n = .returned (b, t)) : P t := by
  unfold fetchNodeHierarchy at h
  split at h
  · cases h
  · exact resolveChain_core net P hP n _ s t b hs h

theorem childrenLoop_core (net : RangeFetch) (P : IndexState → Prop) (hP : StableCore net P)
    (fuel : Nat) (n : IndexedPointCloudNode) (d x y z : Int) (is : List Nat) :
    ∀ (s t : IndexState) (lst out : List IndexedPointCloudNode), P s →
      s.mHierarchy.contains n = true →
      childrenLoop net fuel n d x y z is s lst = .returned (out, t) → P t := by
  induction is with
  | nil =>
    intro s t lst out hs _ h
    simp only [childrenLoop, Outcome.returned.injEq, Prod.mk.injEq] at h
    rw [← h.2]
    exact hs
  | cons i more ih =>
    intro s t lst out hs hn h
    simp only [childrenLoop] at h
    cases hf : fetchNodeHierarchy net fuel s (childNode d x y z i) with
    | returned r =>
      obtain ⟨b, s1⟩ := r
      rw [hf] at h
      simp only [Outcome.bind] at h
      have hs1 : P s1 := fetchNodeHierarchy_core net P hP fuel s s1 _ b hs hf
      have hn1 : s1.mHierarchy.contains n = true := fetchNodeHierarchy_keysKept _ _ _ _ _ _ hf n hn
      obtain ⟨v, hv⟩ := (QHash.contains_iff _ _).1 hn1
      cases b with
      | false =>
        simp only [Bool.false_eq_true, if_false] at h
        exact ih s1 t lst out hs1 hn1 h
      | true =>
        simp only [if_true, QHash.subscript_of_some _ _ _ _ hv] at h
        split at h
        · exact ih s1 t _ out hs1 hn1 h
        · exact ih s1 t _ out hs1 hn1 h
    | readPastEnd => rw [hf] at h; cases h
    | assertFailed => rw [hf] at h; cases h
    | outOfFuel => rw [hf] at h; cases h
    | nullDereference => rw [hf] at h; cases h

theorem keptByOperations_of_core (net : RangeFetch) (P : IndexState → Prop)
    (hP : StableCore net P) (s : IndexState) (hs : P s) : KeptByOperations net P s := by
  refine ⟨?_, ?_, ?_, ?_, ?_⟩
  · intro offset byteSize t h
    exact fetchHierarchyPage_core net P hP s t _ _ hs h
  · intro fuel n b t h
    exact fetchNodeHierarchy_core net P hP fuel s t n b hs h
  · intro fuel n b t h
    exact fetchNodeHierarchy_core net P hP fuel s t n b hs h
  · intro fuel idx idx2 n request out hidx h
    subst hidx
    unfold QgsRemoteCopcPointCloudIndex.asyncNodeData at h
    cases hf : fetchNodeHierarchy net fuel idx.hierarchy n with
    | returned r =>
      obtain ⟨b, s1⟩ := r
      rw [hf] at h
      simp only [Outcome.bind] at h
      have hs1 : P s1 := fetchNodeHierarchy_core net P hP fuel _ s1 _ b hs hf
      cases b with
      | false =>
        simp only [Bool.false_eq_true, if_false, Outcome.returned.injEq, Prod.mk.injEq] at h
        rw [← h.2]
        exact hs1
      | true =>
        obtain ⟨v, hv⟩ := (QHash.contains_iff _ _).1
          (fetchNodeHierarchy_true_contains net fuel _ s1 n hf)
        simp only [if_true, QHash.subscript_of_some _ _ _ _ hv] at h
        split at h
        · cases h
        · simp only [Outcome.returned.injEq, Prod.mk.injEq] at h
          rw [← h.2]
          exact hP.2.2 s1 n hs1
    | readPastEnd => rw [hf] at h; cases h
    | assertFailed => rw [hf] at h; cases h
    | outOfFuel => rw [hf] at h; cases h
    | nullDereference => rw [hf] at h; cases h
  · intro assertsEnabled fuel n b s1 out t hf hn h
    simp only [nodeChildren, hf, Outcome.bind] at h
    split at h
    · cases h
    · exact childrenLoop_core net P hP fuel n _ _ _ _ _ s1 t [] out
        (fetchNodeHierarchy_core net P hP fuel s s1 n b hs hf) hn h

theorem stableCore_consistent (net : RangeFetch) : StableCore net Consistent := by
  refine ⟨?_, fun _ _ hs => hs, ?_⟩
  · intro s history offset byteSize data j _ _ hs k hk
    simp only [storeEntry, QHash.contains, QHash.insert] at hk ⊢
    by_cases he : k = nodeId (readEntry data (32 * j))
    · simp [he]
    · simp only [he, if_false] at hk ⊢
      exact hs k hk
  · intro s a hs k hk
    exact QHash.contains_subscript _ _ _ _ (hs k hk)

theorem stableCore_absent (net : RangeFetch) (k : IndexedPointCloudNode)
    (hnd : NeverDelivers net k) : StableCore net (fun s => s.mHierarchy k = none) := by
  refine ⟨?_, fun _ _ hs => hs, fun _ _ hs => hs⟩
  intro s history offset byteSize data j hnet hj hs
  have hk : k ≠ nodeId (readEntry data (32 * j)) :=
    fun e => hnd history offset byteSize data hnet j hj e.symm
  simp [storeEntry, QHash.insert, hk, hs]

theorem gapState_consistent : Consistent gapState := by
  intro k hk
  simp only [gapState, QHash.contains, QHash.insert, QHash.empty] at hk ⊢
  by_cases h2 : k = ⟨2, 0, 0, 0⟩
  · simp [h2]
  · by_cases h0 : k = rootNode
    · subst h0
      split <;> rfl
    · simp [h2, h0] at hk

theorem emptyRoot_consistent : Consistent emptyRoot := by
  intro k hk
  simp only [emptyRoot, QHash.contains, QHash.insert, QHash.empty] at hk ⊢
  by_cases h1 : k = ⟨1, 0, 0, 0⟩
  · simp [h1]
  · by_cases h0 : k = rootNode
    · subst h0
      split <;> rfl
    · simp [h1, h0] at hk

theorem childPageFetch_neverDelivers_deep :
    NeverDelivers childPageFetch ⟨5, 0, 0, 0⟩ := by
  intro history offset byteSize data h
  unfold childPageFetch at h
  split at h
  · rename_i hsz
    cases h
    subst hsz
    intro j hj
    have h1 : entryCount 32 = 1 := by decide
    have h0 : j = 0 := by omega
    subst h0
    decide
  · cases h

/-- C26 (amended). If every key of the hierarchy table has an entry in the position
side-table before `fetchHierarchyPage`, `fetchNodeHierarchy`, `hasNode` or `asyncNodeData`,
or before `nodeChildren( n )` for a node `n` that has an entry once it is resolved (what
`nodeChildren` asserts), the same holds when the operation returns; under the same
conditions a key that the table does not hold and that no delivered page contains is still
not a key afterwards; and the position lookups of `fetchNodeHierarchy`, made for the
table-present address it visits, and of `asyncNodeData`, made for the resolved node, find
their key. -/
theorem tables_stay_consistent (net : RangeFetch) (s : IndexState) (hs : Consistent s) :
    KeptByOperations net Consistent s ∧
    (∀ k, s.mHierarchy k = none → NeverDelivers net k →
      KeptByOperations net (fun t => t.mHierarchy k = none) s) ∧
    (∀ fuel n chain a u, collectAncestors s.mHierarchy fuel n [] = some chain →
      (a, u) ∈ visits net chain s → u.mHierarchy.contains a = true →
      u.mHierarchyNodePos.contains a = true) ∧
    (∀ fuel n s1, fetchNodeHierarchy net fuel s n = .returned (true, s1) →
      s1.mHierarchyNodePos.contains n = true) := by
  refine ⟨keptByOperations_of_core net Consistent (stableCore_consistent net) s hs, ?_, ?_, ?_⟩
  · intro k hk hnd
    exact keptByOperations_of_core net _ (stableCore_absent net k hnd) s hk
  · intro fuel n chain a u _ hv ha
    exact visits_core net Consistent (stableCore_consistent net) chain s hs a u hv a ha
  · intro fuel n s1 h
    exact fetchNodeHierarchy_core net Consistent (stableCore_consistent net) fuel s s1 n true hs h
      n (fetchNodeHierarchy_true_contains net fuel s s1 n h)

/-- C26 (counterexample). On the consistent table `gapState`, with a failing collaborator and
`Q_ASSERT` compiled out, `nodeChildren( 1-0-0-0 )` returns with `1-0-0-0` a key of the
hierarchy table, with point count 0, and not a key of the position side-table: the read
`mHierarchy[n]` has inserted a key that no page delivered. -/
theorem nodeChildren_breaks_consistency :
    Consistent gapState ∧ gapState.mHierarchy ⟨1, 0, 0, 0⟩ = none ∧
    ∃ t, nodeChildren failingFetch false 3 gapState ⟨1, 0, 0, 0⟩ = .returned ([], t) ∧
      t.mHierarchy ⟨1, 0, 0, 0⟩ = some 0 ∧ t.mHierarchyNodePos ⟨1, 0, 0, 0⟩ = none ∧
      ¬ Consistent t :=
  ⟨gapState_consistent, rfl, _, rfl, rfl, rfl,
    fun h => Bool.noConfusion (h ⟨1, 0, 0, 0⟩ rfl)⟩

/-- C26 (witness). The consistent table `emptyRoot`: still consistent after the page of
`1-0-0-0` was fetched by `hasNode` and by `nodeChildren( root )`; the address `5-0-0-0`, which
the collaborator never delivers, is still no key; and the side-table has the position of the
resolved `1-0-0-0`. -/
theorem tables_stay_consistent_witness :
    (∃ t, hasNode childPageFetch 1 emptyRoot ⟨1, 0, 0, 0⟩ = .returned (true, t) ∧
      Consistent t) ∧
    (∃ t, nodeChildren childPageFetch true 2 emptyRoot rootNode = .returned ([], t) ∧
      Consistent t) ∧
    (∃ t, nodeChildren childPageFetch true 2 emptyRoot rootNode = .returned ([], t) ∧
      t.mHierarchy ⟨5, 0, 0, 0⟩ = none) ∧
    (∃ s1, fetchNodeHierarchy childPageFetch 1 emptyRoot ⟨1, 0, 0, 0⟩ = .returned (true, s1) ∧
      s1.mHierarchyNodePos.contains ⟨1, 0, 0, 0⟩ = true) :=
  ⟨⟨_, rfl,
      (tables_stay_consistent childPageFetch emptyRoot emptyRoot_consistent).1.2.2.1 1
        ⟨1, 0, 0, 0⟩ true _ rfl⟩,
    ⟨_, rfl,
      (tables_stay_consistent childPageFetch emptyRoot emptyRoot_consistent).1.2.2.2.2 true 2
        rootNode true emptyRoot [] _ rfl rfl rfl⟩,
    ⟨_, rfl,
      ((tables_stay_consistent childPageFetch emptyRoot emptyRoot_consistent).2.1 ⟨5, 0, 0, 0⟩
        rfl childPageFetch_neverDelivers_deep).2.2.2.2 true 2 rootNode true emptyRoot [] _ rfl
        rfl rfl⟩,
    ⟨_, rfl,
      (tables_stay_consistent childPageFetch emptyRoot emptyRoot_consistent).2.2.2 1
        ⟨1, 0, 0, 0⟩ _ rfl⟩⟩

/-! ## The lock and the page fetches -/

theorem annotate_append (l1 : List TraceEvent) :
    ∀ (held : Bool) (l2 : List TraceEvent),
      annotate held (l1 ++ l2) = annotate held l1 ++ annotate (l1.foldl heldAfter held) l2 := by
  induction l1 with
  | nil => intro held l2; rfl
  | cons e rest ih =>
    intro held l2
    show (e, held) :: annotate (heldAfter held e) (rest ++ l2) = _
    rw [ih]
    rfl

theorem fetchesWhileLocked_nil : FetchesWhileLocked [] := by
  intro held e b h
  simp [annotate] at h

theorem fetchesWhileLocked_append (l1 l2 : List TraceEvent) (h1 : FetchesWhileLocked l1)
    (h2 : FetchesWhileLocked l2) : FetchesWhileLocked (l1 ++ l2) := by
  intro held e b h he
  rw [annotate_append] at h
  rcases List.mem_append.1 h with h | h
  · exact h1 held e b h he
  · exact h2 _ e b h he

theorem fetchesWhileLocked_cons (e0 : TraceEvent) (l : List TraceEvent)
    (h0 : e0.isPageFetch = false) (hl : FetchesWhileLocked l) : FetchesWhileLocked (e0 :: l) := by
  intro held e b h he
  simp only [annotate, List.mem_cons, Prod.mk.injEq] at h
  rcases h with h | h
  · rw [h.1, h0] at he
    cases he
  · exact hl _ e b h he

theorem allHeld_nil : AllHeld [] := by
  intro e b h
  simp [annotate] at h

theorem allHeld_cons (e0 : TraceEvent) (l : List TraceEvent) (h0 : heldAfter true e0 = true)
    (hl : AllHeld l) : AllHeld (e0 :: l) := by
  intro e b h
  simp only [annotate, List.mem_cons, Prod.mk.injEq, h0] at h
  rcases h with h | h
  · exact h.2
  · exact hl e b h

theorem allHeld_unlock : AllHeld [.unlock] := by
  intro e b h
  simp only [annotate, List.mem_cons, Prod.mk.injEq, List.mem_nil_iff, or_false] at h
  exact h.2

theorem parseEntriesTrace_neutral (data : List Nat) (remaining : Nat) :
    ∀ (i : Nat) (rest : List TraceEvent), AllHeld rest →
      AllHeld (parseEntriesTrace data remaining i ++ rest) := by
  induction remaining with
  | zero => intro i rest h; exact h
  | succ r ih =>
    intro i rest h
    simp only [parseEntriesTrace]
    split
    · exact allHeld_cons _ _ (by rfl) (allHeld_cons _ _ (by rfl) (ih _ rest h))
    · exact h

theorem fetchHierarchyPageTrace_allHeld (net : RangeFetch) (s : IndexState)
    (offset byteSize : Nat) (rest : List TraceEvent) (h : AllHeld rest) :
    AllHeld (fetchHierarchyPageTrace net s offset byteSize ++ rest) := by
  unfold fetchHierarchyPageTrace
  apply allHeld_cons _ _ (by rfl)
  split
  · exact h
  · exact parseEntriesTrace_neutral _ _ _ rest h

theorem resolveChainTrace_allHeld (net : RangeFetch) (chain : List IndexedPointCloudNode) :
    ∀ s : IndexState, AllHeld (resolveChainTrace net chain s) := by
  induction chain with
  | nil =>
    intro s
    exact allHeld_cons _ _ (by rfl) allHeld_unlock
  | cons a rest ih =>
    intro s
    simp only [resolveChainTrace]
    apply allHeld_cons _ _ (by rfl)
    split
    · apply allHeld_cons _ _ (by rfl)
      split
      · apply allHeld_cons _ _ (by rfl)
        apply allHeld_cons _ _ (by rfl)
        apply fetchHierarchyPageTrace_allHeld
        split
        · exact ih _
        · exact allHeld_nil
      · exact ih _
    · exact allHeld_unlock

theorem collectAncestorsTrace_allHeld (h : QHash Int) (fuel : Nat) :
    ∀ (m : IndexedPointCloudNode) (rest : List TraceEvent), AllHeld rest →
      AllHeld (collectAncestorsTrace h fuel m ++ rest) := by
  induction fuel with
  | zero => intro m rest hr; exact hr
  | succ f ih =>
    intro m rest hr
    simp only [collectAncestorsTrace, List.cons_append]
    apply allHeld_cons _ _ (by rfl)
    split
    · exact hr
    · exact ih _ rest hr

theorem fetchNodeHierarchyTrace_allHeld (net : RangeFetch) (fuel : Nat) (s : IndexState)
    (n : IndexedPointCloudNode) :
    ∀ (held : Bool) (e : TraceEvent) (b : Bool),
      (e, b) ∈ annotate held (fetchNodeHierarchyTrace net fuel s n) → e ≠ .lock → b = true := by
  intro held e b h hne
  simp only [fetchNodeHierarchyTrace, annotate, List.mem_cons, Prod.mk.injEq] at h
  rcases h with h | h
  · exact absurd h.1 hne
  · have hall : AllHeld (collectAncestorsTrace s.mHierarchy fuel n ++
        (match collectAncestors s.mHierarchy fuel n [] with
          | none => []
          | some ancestors => resolveChainTrace net ancestors s)) := by
      apply collectAncestorsTrace_allHeld
      split
      · exact allHeld_nil
      · exact resolveChainTrace_allHeld net _ s
    exact hall e b h

theorem fetchNodeHierarchyTrace_fetchesWhileLocked (net : RangeFetch) (fuel : Nat)
    (s : IndexState) (n : IndexedPointCloudNode) :
    FetchesWhileLocked (fetchNodeHierarchyTrace net fuel s n) := by
  intro held e b h he
  apply fetchNodeHierarchyTrace_allHeld net fuel s n held e b h
  intro hl
  rw [hl] at he
  cases he

theorem childrenLoopTrace_fetchesWhileLocked (net : RangeFetch) (fuel : Nat)
    (n : IndexedPointCloudNode) (d x y z : Int) (is : List Nat) :
    ∀ s : IndexState, FetchesWhileLocked (childrenLoopTrace net fuel n d x y z is s) := by
  induction is with
  | nil => intro s; exact fetchesWhileLocked_nil
  | cons i more ih =>
    intro s
    simp only [childrenLoopTrace]
    apply fetchesWhileLocked_append _ _ (fetchNodeHierarchyTrace_fetchesWhileLocked net fuel s _)
    split
    · split
      · exact fetchesWhileLocked_cons _ _ (by rfl) (ih _)
      · exact ih _
    · exact fetchesWhileLocked_nil

/-- C24 (amended). In every execution of `fetchNodeHierarchy`, `hasNode`, `nodeChildren` or
`asyncNodeData`, every hierarchy page fetch is issued at a point where the calling thread
holds `mHierarchyMutex`: the locker taken at the entry of `fetchNodeHierarchy` is held until
that function returns. -/
theorem page_fetches_under_lock (net : RangeFetch) (fuel : Nat) (s : IndexState)
    (n : IndexedPointCloudNode) :
    FetchesWhileLocked (fetchNodeHierarchyTrace net fuel s n) ∧
    FetchesWhileLocked (hasNodeTrace net fuel s n) ∧
    (∀ assertsEnabled, FetchesWhileLocked (nodeChildrenTrace net assertsEnabled fuel s n)) ∧
    (∀ idx : QgsRemoteCopcPointCloudIndex, idx.hierarchy = s →
      FetchesWhileLocked (asyncNodeDataTrace net fuel idx n)) := by
  refine ⟨fetchNodeHierarchyTrace_fetchesWhileLocked net fuel s n,
    fetchNodeHierarchyTrace_fetchesWhileLocked net fuel s n, ?_, ?_⟩
  · intro assertsEnabled
    unfold nodeChildrenTrace
    apply fetchesWhileLocked_append _ _ (fetchNodeHierarchyTrace_fetchesWhileLocked net fuel s n)
    split
    · apply fetchesWhileLocked_cons _ _ (by rfl)
      split
      · apply fetchesWhileLocked_cons _ _ (by rfl)
        split
        · exact fetchesWhileLocked_cons _ _ (by rfl)
            (childrenLoopTrace_fetchesWhileLocked net fuel n _ _ _ _ _ _)
        · exact fetchesWhileLocked_nil
      · exact fetchesWhileLocked_cons _ _ (by rfl)
          (childrenLoopTrace_fetchesWhileLocked net fuel n _ _ _ _ _ _)
    · exact fetchesWhileLocked_nil
  · intro idx hidx
    subst hidx
    unfold asyncNodeDataTrace
    apply fetchesWhileLocked_append _ _
      (fetchNodeHierarchyTrace_fetchesWhileLocked net fuel idx.hierarchy n)
    split
    · split
      · apply fetchesWhileLocked_cons _ _ (by rfl)
        apply fetchesWhileLocked_cons _ _ (by rfl)
        apply fetchesWhileLocked_cons _ _ (by rfl)
        split
        · exact fetchesWhileLocked_nil
        · exact fetchesWhileLocked_cons _ _ (by rfl) fetchesWhileLocked_nil
      · exact fetchesWhileLocked_nil
    · exact fetchesWhileLocked_nil

/-- C24 (counterexample). `fetchNodeHierarchy( root )` on the unresolved root: the page fetch
`(100, 32)` is issued with the lock held. -/
theorem page_fetch_with_lock_held :
    (TraceEvent.pageFetch 100 32, true) ∈
      annotate false (fetchNodeHierarchyTrace failingFetch 1 pendingRoot rootNode) := by
  decide

/-- C24 (witness). `nodeChildren( root )` on `twoLevels` issues the page fetch `(300, 32)` for
the unresolved child `1-0-0-0`, and every page fetch of its trace is issued with the lock
held. -/
theorem page_fetches_under_lock_witness :
    (TraceEvent.pageFetch 300 32, true) ∈
        annotate false (nodeChildrenTrace failingFetch true 2 twoLevels rootNode) ∧
      ∀ p, p ∈ annotate false (nodeChildrenTrace failingFetch true 2 twoLevels rootNode) →
        p.1.isPageFetch = true → p.2 = true :=
  ⟨by decide,
    fun p hp hf =>
      (page_fetches_under_lock failingFetch 2 twoLevels rootNode).2.2.1 true false p.1 p.2 hp hf⟩

/-! ## The lock and the table accesses -/

/-- C25 (the code at the failing input). `nodeChildren( root )` on `twoLevels`: after the
child `1-0-0-0` has resolved, the test `mHierarchy[n] > 0` reads the hierarchy table at a
point where the thread has released the lock and not taken it again; the reads made by
`asyncNodeData` for the same node are all made with the lock held. -/
theorem nodeChildren_reads_without_lock :
    (TraceEvent.tableRead, false) ∈
        annotate false (nodeChildrenTrace failingFetch true 2 twoLevels rootNode) ∧
      ∀ p, p ∈ annotate false
          (asyncNodeDataTrace failingFetch 1 { emptyRootIndex with hierarchy := twoLevels }
            rootNode) →
        p.1.isTableAccess = true → p.2 = true := by
  decide

end RemoteCopc
